import Mathlib

/-!
# PintOS: virtual memory, buffer cache, inodes and the bounded buffer

A shallow embedding of `vm/frame.c`, `vm/swap.c` (Task3), of `vm/page.c`,
`vm/frame.c`, `vm/swap.c`, `filesys/cache.c`, `filesys/inode.c` (Task4) and of
`threads/procon.c` (Task1).  C pointers become indices or keys, every `ASSERT`,
every `PANIC` and every use of a null or dangling pointer or of an array index
outside its array makes the embedded function return `none`, and each function
is embedded as a state transformer over exactly the state it can reach.

Calls are embedded sequentially: the state of the other threads (locks they
hold, accessed bits) is fixed for the duration of one call.
-/

set_option autoImplicit false

namespace PintOS

/-! ## Constants and basic types -/

/-- A thread identifier (`struct thread *`). -/
abbrev Tid := Nat

/-- The address of a heap-allocated `struct page`. -/
abbrev PagePtr := Nat

/-- Modelled from the spec: the page size of `threads/vaddr.h`, which is not
part of the sources; the spec fixes a "4096-byte page". -/
def PGSIZE : Nat := 4096

/-- Modelled from the spec: the bit width of a page offset in
`threads/vaddr.h` (not part of the sources), so that `1 <<< PGBITS = PGSIZE`. -/
def PGBITS : Nat := 12

/-- The constant `MAX_STACK` of `vm/page.c`. -/
def MAX_STACK : Nat := 1024 * 1024

/-- The value `(block_sector_t) -1`; `block_sector_t` is a 32-bit unsigned
integer. -/
def SECTOR_NONE : Nat := 2 ^ 32 - 1

/-- The C `struct frame` of `vm/frame.h`.  `lock` is the holder of the frame's
lock (`none` when the lock is free), `page` the owning page (`none` is NULL). -/
structure Frame where
  lock : Option Tid
  base : Nat
  page : Option PagePtr
deriving DecidableEq, Repr

/-- The C `struct page` of `vm/page.h`.  `frame` is the index of the frame in the
frame table (`none` is NULL); the field `private` is spelled `private_`. -/
structure Page where
  addr : Nat
  read_only : Bool
  thread : Tid
  frame : Option Nat
  sector : Nat
  private_ : Bool
  file : Option Nat
  file_offset : Nat
  file_bytes : Nat
deriving DecidableEq, Repr

/-- Modelled from the spec: one entry of the hardware page table kept by
`userprog/pagedir.c` (not part of the sources), the "install / clear /
query-dirty / query-accessed / clear-accessed primitive keyed by (address
space, virtual address)". -/
structure PTE where
  present : Bool
  kpage : Nat
  writable : Bool
  accessed : Bool
  dirty : Bool
deriving DecidableEq, Repr

/-- The swap store of `vm/swap.c`: `device` is the sector count of the swap
block device (`none` when `block_get_role` found none), `bitmap` is
`swap_bitmap`, and `sectors s o` is byte `o` of sector `s` on the device. -/
structure Swap where
  device : Option Nat
  bitmap : List Bool
  sectors : Nat → Nat → Nat

/-- Everything the paging code can reach apart from the frame table itself:
the heap of `struct page` objects, the per-thread registries
(`thread->pages`, `none` is NULL), the page directories, the saved user stack
pointers, the swap store, kernel memory (byte addressed) and the contents of
the open files. -/
structure World where
  pages : PagePtr → Option Page
  registry : Tid → Option (List PagePtr)
  pagedir : Tid → Nat → Option PTE
  user_esp : Tid → Nat
  swap : Swap
  mem : Nat → Nat
  files : Nat → List Nat

/-- The static state of `vm/frame.c` (`frames`, `frame_cnt` is the length of the
list, `hand`) together with the rest of the kernel state. -/
structure VM where
  frames : List Frame
  hand : Nat
  w : World

/-! ## Hardware page table -/

/-- Modelled from the spec: `pagedir_is_accessed` of `userprog/pagedir.c`
(query-accessed), false when the address has no entry. -/
def pagedir_is_accessed (pd : Tid → Nat → Option PTE) (t : Tid) (a : Nat) : Bool :=
  match pd t a with
  | none => false
  | some e => e.accessed

/-- Modelled from the spec: `pagedir_set_accessed` of `userprog/pagedir.c`
(clear-accessed when `b` is false); nothing happens without an entry. -/
def pagedir_set_accessed (pd : Tid → Nat → Option PTE) (t : Tid) (a : Nat) (b : Bool) :
    Tid → Nat → Option PTE :=
  fun t' a' =>
    if t' = t ∧ a' = a then
      match pd t a with
      | none => none
      | some e => some { e with accessed := b }
    else pd t' a'

/-- Modelled from the spec: `pagedir_is_dirty` of `userprog/pagedir.c`
(query-dirty), false when the address has no entry. -/
def pagedir_is_dirty (pd : Tid → Nat → Option PTE) (t : Tid) (a : Nat) : Bool :=
  match pd t a with
  | none => false
  | some e => e.dirty

/-- Modelled from the spec: `pagedir_clear_page` of `userprog/pagedir.c`
(clear): the entry is marked not present, its other bits stay. -/
def pagedir_clear_page (pd : Tid → Nat → Option PTE) (t : Tid) (a : Nat) :
    Tid → Nat → Option PTE :=
  fun t' a' =>
    if t' = t ∧ a' = a then
      match pd t a with
      | none => none
      | some e => some { e with present := false }
    else pd t' a'

/-- Modelled from the spec: `pagedir_set_page` of `userprog/pagedir.c`
(install) when the page table could be allocated: a fresh present entry for
`upage` that points at `kpage`. -/
def pagedir_set_page (pd : Tid → Nat → Option PTE) (t : Tid) (upage kpage : Nat) (rw : Bool) :
    Tid → Nat → Option PTE :=
  fun t' a' =>
    if t' = t ∧ a' = upage then
      some { present := true, kpage := kpage, writable := rw, accessed := false, dirty := false }
    else pd t' a'

/-! ## `vm/frame.c` (Task3) -/

/-- The C function `is_frame_free`. -/
def is_frame_free (f : Frame) : Bool := f.page.isNone

/-- The C function `try_lock_frame`, that is `lock_try_acquire (&f->lock)`.
Modelled from the spec: the try-lock of `threads/synch.c` (not part of the
sources) succeeds exactly when the frame can be locked without blocking, and
then records the caller as holder. -/
def try_lock_frame (cur : Tid) (f : Frame) : Bool × Frame :=
  match f.lock with
  | none => (true, { f with lock := some cur })
  | some _ => (false, f)

/-- The C function `lock_held_by_current_thread (&f->lock)`. -/
def lock_held_by_current_thread (cur : Tid) (f : Frame) : Bool :=
  f.lock == some cur

/-- The C function `release_frame_lock`. -/
def release_frame_lock (cur : Tid) (f : Frame) : Frame :=
  if lock_held_by_current_thread cur f then { f with lock := none } else f

/-- The loop of `find_free_frame`: `fuel` iterations remain and the loop
variable is `i`.  The result is the index of the frame returned (`none` is
NULL) and the frame table. -/
def find_free_frame_loop (cur : Tid) (page : PagePtr) :
    Nat → Nat → List Frame → Option Nat × List Frame
  | 0, _, frames => (none, frames)
  | fuel + 1, i, frames =>
    match frames[i]? with
    | none => (none, frames)
    | some f =>
      let r := try_lock_frame cur f
      if r.1 && is_frame_free r.2 then
        (some i, frames.set i { r.2 with page := some page })
      else
        find_free_frame_loop cur page fuel (i + 1) (frames.set i (release_frame_lock cur r.2))

/-- The C function `find_free_frame`. -/
def find_free_frame (cur : Tid) (page : PagePtr) (frames : List Frame) :
    Option Nat × List Frame :=
  find_free_frame_loop cur page frames.length 0 frames

/-- The type of `page_out` as the frame table calls it: the calling thread,
the frame table (which `page_out` reads but never writes), the page, and the
rest of the state; `none` is a failed assertion. -/
abbrev PageOut := Tid → List Frame → PagePtr → World → Option (Bool × World)

/-- The C function `page_recently_accessed` of `vm/page.c`. -/
def page_recently_accessed (cur : Tid) (frames : List Frame) (p : PagePtr) (w : World) :
    Option (Bool × World) :=
  match w.pages p with
  | none => none
  | some pg =>
    match pg.frame with
    | none => none
    | some fi =>
      match frames[fi]? with
      | none => none
      | some f =>
        if lock_held_by_current_thread cur f then
          let was_accessed := pagedir_is_accessed w.pagedir pg.thread pg.addr
          if was_accessed then
            some (true, { w with pagedir := pagedir_set_accessed w.pagedir pg.thread pg.addr false })
          else some (false, w)
        else none

/-- The C function `evict_frame` on the frame with index `i`. -/
def evict_frame (po : PageOut) (cur : Tid) (i : Nat) (page : PagePtr) (s : VM) :
    Option (Bool × VM) :=
  match s.frames[i]? with
  | none => none
  | some f =>
    match f.page with
    | none => none
    | some q =>
      match po cur s.frames q s.w with
      | none => none
      | some (false, w1) =>
        some (false, { s with frames := s.frames.set i (release_frame_lock cur f), w := w1 })
      | some (true, w1) =>
        some (true, { s with frames := s.frames.set i { f with page := some page }, w := w1 })

/-- The outcome of one iteration of the loop of `find_eviction_frame`. -/
inductive Visit where
  | found (i : Nat) (s : VM)
  | next (s : VM)

/-- The body of the loop of `find_eviction_frame`: one visit of the frame under
the clock hand. -/
def visit (po : PageOut) (cur : Tid) (page : PagePtr) (s : VM) : Option Visit :=
  match s.frames[s.hand]? with
  | none => none
  | some f =>
    let i := s.hand
    let s1 : VM := { s with hand := (s.hand + 1) % s.frames.length }
    let r := try_lock_frame cur f
    if r.1 then
      let s2 : VM := { s1 with frames := s1.frames.set i r.2 }
      if is_frame_free r.2 then
        some (Visit.found i { s2 with frames := s2.frames.set i { r.2 with page := some page } })
      else
        match r.2.page with
        | none => none
        | some q =>
          match page_recently_accessed cur s2.frames q s2.w with
          | none => none
          | some (true, w1) =>
            some (Visit.next { s2 with frames := s2.frames.set i (release_frame_lock cur r.2),
                                       w := w1 })
          | some (false, w1) =>
            match evict_frame po cur i page { s2 with w := w1 } with
            | none => none
            | some (true, s3) => some (Visit.found i s3)
            | some (false, s3) =>
              match s3.frames[i]? with
              | none => none
              | some f3 =>
                some (Visit.next { s3 with frames := s3.frames.set i (release_frame_lock cur f3) })
    else some (Visit.next s1)

/-- The state in which a visit ends. -/
def Visit.state : Visit → VM
  | Visit.found _ s => s
  | Visit.next s => s

/-- The loop of `find_eviction_frame` with `fuel` iterations left. -/
def find_eviction_frame_loop (po : PageOut) (cur : Tid) (page : PagePtr) :
    Nat → VM → Option (Option Nat × VM)
  | 0, s => some (none, s)
  | fuel + 1, s =>
    match visit po cur page s with
    | none => none
    | some (Visit.found i s1) => some (some i, s1)
    | some (Visit.next s1) => find_eviction_frame_loop po cur page fuel s1

/-- The C function `find_eviction_frame`: at most `frame_cnt * 2` visits. -/
def find_eviction_frame (po : PageOut) (cur : Tid) (page : PagePtr) (s : VM) :
    Option (Option Nat × VM) :=
  find_eviction_frame_loop po cur page (s.frames.length * 2) s

/-- The C function `allocate_frame`.  The scan lock serialises the scans, so
the scan is embedded as one step. -/
def allocate_frame (po : PageOut) (cur : Tid) (page : PagePtr) (s : VM) :
    Option (Option Nat × VM) :=
  match find_free_frame cur page s.frames with
  | (some i, frames1) => some (some i, { s with frames := frames1 })
  | (none, frames1) => find_eviction_frame po cur page { s with frames := frames1 }

/-- The loop of `frame_alloc_and_lock` with `tries` attempts left;
`timer_msleep` does not touch the state of the paging code. -/
def frame_alloc_and_lock_loop (po : PageOut) (cur : Tid) (page : PagePtr) :
    Nat → VM → Option (Option Nat × VM)
  | 0, s => some (none, s)
  | tries + 1, s =>
    match allocate_frame po cur page s with
    | none => none
    | some (some i, s1) =>
      match s1.frames[i]? with
      | none => none
      | some f => if lock_held_by_current_thread cur f then some (some i, s1) else none
    | some (none, s1) => frame_alloc_and_lock_loop po cur page tries s1

/-- The C function `frame_alloc_and_lock`. -/
def frame_alloc_and_lock (po : PageOut) (cur : Tid) (page : PagePtr) (s : VM) :
    Option (Option Nat × VM) :=
  frame_alloc_and_lock_loop po cur page 3 s

/-- The loop of `frame_alloc_and_lock` where `sleep` is what the other threads do
to the state during `timer_msleep (1000)`; the third component of the result
counts the calls of `allocate_frame`. -/
def frame_alloc_and_lock_scans (sleep : VM → VM) (po : PageOut) (cur : Tid) (page : PagePtr) :
    Nat → VM → Option (Option Nat × VM × Nat)
  | 0, s => some (none, s, 0)
  | tries + 1, s =>
    match allocate_frame po cur page s with
    | none => none
    | some (some i, s1) =>
      match s1.frames[i]? with
      | none => none
      | some f => if lock_held_by_current_thread cur f then some (some i, s1, 1) else none
    | some (none, s1) =>
      match frame_alloc_and_lock_scans sleep po cur page tries (sleep s1) with
      | none => none
      | some (r, s2, n) => some (r, s2, n + 1)

/-- The state before the next call of `allocate_frame` in `frame_alloc_and_lock`
after `k` calls that returned NULL, each followed by a sleep (`none` when one
of them returned a frame or failed an assertion). -/
def after_failed_scans (sleep : VM → VM) (po : PageOut) (cur : Tid) (page : PagePtr) :
    Nat → VM → Option VM
  | 0, s => some s
  | k + 1, s =>
    match allocate_frame po cur page s with
    | some (none, s1) => after_failed_scans sleep po cur page k (sleep s1)
    | _ => none

/-- The C function `frame_free` on the frame with index `i`. -/
def frame_free (cur : Tid) (i : Nat) (frames : List Frame) : Option (List Frame) :=
  match frames[i]? with
  | none => none
  | some f =>
    if lock_held_by_current_thread cur f then
      some (frames.set i { f with page := none, lock := none })
    else none

/-- The C function `frame_unlock` on the frame with index `i`. -/
def frame_unlock (cur : Tid) (i : Nat) (frames : List Frame) : Option (List Frame) :=
  match frames[i]? with
  | none => none
  | some f =>
    if lock_held_by_current_thread cur f then some (frames.set i { f with lock := none })
    else none

/-! ## `vm/swap.c` (Task3) -/

/-- The macro `PAGE_SECTORS` of `vm/swap.c`.  The sector size
`BLOCK_SECTOR_SIZE` of `devices/block.h` is not part of the sources and is a
parameter of everything that uses it. -/
def PAGE_SECTORS (BLOCK_SECTOR_SIZE : Nat) : Nat := PGSIZE / BLOCK_SECTOR_SIZE

/-- Modelled from the spec: `block_write` of `devices/block.c` (not part of the
sources), "write-sector(i)": the `BLOCK_SECTOR_SIZE` bytes at `buf` go to the
sector; `none` when there is no device or the sector is outside it. -/
def block_write (BLOCK_SECTOR_SIZE : Nat) (sw : Swap) (sector : Nat) (mem : Nat → Nat)
    (buf : Nat) : Option Swap :=
  match sw.device with
  | none => none
  | some size =>
    if sector < size then
      some { sw with sectors := fun s o =>
        if s = sector ∧ o < BLOCK_SECTOR_SIZE then mem (buf + o) else sw.sectors s o }
    else none

/-- Modelled from the spec: `block_read` of `devices/block.c` (not part of the
sources), "read-sector(i)": the sector is copied to the `BLOCK_SECTOR_SIZE`
bytes at `buf`; `none` when there is no device or the sector is outside it. -/
def block_read (BLOCK_SECTOR_SIZE : Nat) (sw : Swap) (sector : Nat) (mem : Nat → Nat)
    (buf : Nat) : Option (Nat → Nat) :=
  match sw.device with
  | none => none
  | some size =>
    if sector < size then
      some (fun a => if buf ≤ a ∧ a < buf + BLOCK_SECTOR_SIZE then sw.sectors sector (a - buf)
                     else mem a)
    else none

/-- Modelled from the spec: `bitmap_contains` of `lib/kernel/bitmap.c` (not part
of the sources): some bit of the run `[start, start + cnt)` has the value. -/
def bitmap_contains (b : List Bool) (start cnt : Nat) (value : Bool) : Bool :=
  (List.range cnt).any (fun i => b[start + i]? == some value)

/-- Modelled from the spec: `bitmap_scan` of `lib/kernel/bitmap.c` (not part of
the sources), "scans a bitmap for a free run": the first index at or after
`start` of a run of `cnt` bits that all have the value, `none` for
`BITMAP_ERROR`. -/
def bitmap_scan (b : List Bool) (start cnt : Nat) (value : Bool) : Option Nat :=
  if cnt ≤ b.length then
    (List.range (b.length - cnt + 1)).find?
      (fun i => decide (start ≤ i) && !bitmap_contains b i cnt (!value))
  else none

/-- Modelled from the spec: `bitmap_set_multiple` of `lib/kernel/bitmap.c` (not
part of the sources): the `cnt` bits from `start` are set to the value. -/
def bitmap_set_multiple : List Bool → Nat → Nat → Bool → List Bool
  | b, _, 0, _ => b
  | b, start, cnt + 1, value => bitmap_set_multiple (b.set start value) (start + 1) cnt value

/-- Modelled from the spec: `bitmap_scan_and_flip` of `lib/kernel/bitmap.c` (not
part of the sources), "scans a bitmap for a free page-sized run and flips it,
failing if full". -/
def bitmap_scan_and_flip (b : List Bool) (start cnt : Nat) (value : Bool) :
    Option Nat × List Bool :=
  match bitmap_scan b start cnt value with
  | none => (none, b)
  | some idx => (some idx, bitmap_set_multiple b idx cnt (!value))

/-- The assignment `*p = pg` on the heap of pages. -/
def set_page (w : World) (p : PagePtr) (pg : Page) : World :=
  { w with pages := fun x => if x = p then some pg else w.pages x }

/-- The C function `swap_init`, given what `block_get_role (BLOCK_SWAP)` returned
(the sector count of the device) and the contents of the device. -/
def swap_init (BLOCK_SECTOR_SIZE : Nat) (device : Option Nat) (sectors : Nat → Nat → Nat) :
    Swap :=
  match device with
  | none => { device := none, bitmap := List.replicate 0 false, sectors := sectors }
  | some size =>
    { device := some size
      bitmap := List.replicate (size / PAGE_SECTORS BLOCK_SECTOR_SIZE) false
      sectors := sectors }

/-- The loop of `write_to_swap`: `n` sectors remain, the loop variable is `i`. -/
def write_to_swap_loop (BLOCK_SECTOR_SIZE : Nat) (sector base : Nat) (mem : Nat → Nat) :
    Nat → Nat → Swap → Option Swap
  | 0, _, sw => some sw
  | n + 1, i, sw =>
    match block_write BLOCK_SECTOR_SIZE sw ((sector + i) % 2 ^ 32) mem
        (base + i * BLOCK_SECTOR_SIZE) with
    | none => none
    | some sw1 => write_to_swap_loop BLOCK_SECTOR_SIZE sector base mem n (i + 1) sw1

/-- The loop of `read_from_swap`: `n` sectors remain, the loop variable is `i`. -/
def read_from_swap_loop (BLOCK_SECTOR_SIZE : Nat) (sw : Swap) (sector base : Nat) :
    Nat → Nat → (Nat → Nat) → Option (Nat → Nat)
  | 0, _, mem => some mem
  | n + 1, i, mem =>
    match block_read BLOCK_SECTOR_SIZE sw ((sector + i) % 2 ^ 32) mem
        (base + i * BLOCK_SECTOR_SIZE) with
    | none => none
    | some mem1 => read_from_swap_loop BLOCK_SECTOR_SIZE sw sector base n (i + 1) mem1

/-- The C function `read_from_swap`. -/
def read_from_swap (BLOCK_SECTOR_SIZE : Nat) (frames : List Frame) (p : PagePtr) (w : World) :
    Option World :=
  match w.pages p with
  | none => none
  | some pg =>
    match pg.frame with
    | none => none
    | some fi =>
      match frames[fi]? with
      | none => none
      | some f =>
        match read_from_swap_loop BLOCK_SECTOR_SIZE w.swap pg.sector f.base
            (PAGE_SECTORS BLOCK_SECTOR_SIZE) 0 w.mem with
        | none => none
        | some mem1 => some { w with mem := mem1 }

/-- The C function `write_to_swap`. -/
def write_to_swap (BLOCK_SECTOR_SIZE : Nat) (frames : List Frame) (p : PagePtr) (w : World) :
    Option (Bool × World) :=
  match bitmap_scan_and_flip w.swap.bitmap 0 1 false with
  | (none, _) => some (false, w)
  | (some slot, bitmap1) =>
    match w.pages p with
    | none => none
    | some pg =>
      let sector := (slot * PAGE_SECTORS BLOCK_SECTOR_SIZE) % 2 ^ 32
      match pg.frame with
      | none => none
      | some fi =>
        match frames[fi]? with
        | none => none
        | some f =>
          match write_to_swap_loop BLOCK_SECTOR_SIZE sector f.base w.mem
              (PAGE_SECTORS BLOCK_SECTOR_SIZE) 0 { w.swap with bitmap := bitmap1 } with
          | none => none
          | some sw1 => some (true, set_page { w with swap := sw1 } p { pg with sector := sector })

/-- The C function `swap_in` of Task3. -/
def swap_in (BLOCK_SECTOR_SIZE : Nat) (cur : Tid) (frames : List Frame) (p : PagePtr)
    (w : World) : Option World :=
  match w.pages p with
  | none => none
  | some pg =>
    match pg.frame with
    | none => none
    | some fi =>
      match frames[fi]? with
      | none => none
      | some f =>
        if lock_held_by_current_thread cur f && pg.sector != SECTOR_NONE then
          match read_from_swap BLOCK_SECTOR_SIZE frames p w with
          | none => none
          | some w1 =>
            let idx := pg.sector / PAGE_SECTORS BLOCK_SECTOR_SIZE
            if idx < w1.swap.bitmap.length then
              match w1.pages p with
              | none => none
              | some pg1 =>
                some (set_page { w1 with swap := { w1.swap with bitmap := w1.swap.bitmap.set idx false } }
                  p { pg1 with sector := SECTOR_NONE })
            else none
        else none

/-- The C function `swap_out` of Task3; `swap_lock` serialises the calls, each of
which is embedded as one step. -/
def swap_out (BLOCK_SECTOR_SIZE : Nat) : PageOut := fun cur frames p w =>
  match w.pages p with
  | none => none
  | some pg =>
    match pg.frame with
    | none => none
    | some fi =>
      match frames[fi]? with
      | none => none
      | some f =>
        if lock_held_by_current_thread cur f then
          match write_to_swap BLOCK_SECTOR_SIZE frames p w with
          | none => none
          | some (false, w1) => some (false, w1)
          | some (true, w1) =>
            match w1.pages p with
            | none => none
            | some pg1 =>
              some (true, set_page w1 p
                { pg1 with private_ := false, file := none, file_offset := 0, file_bytes := 0 })
        else none

/-- The swap store has a device of fewer than `2 ^ 32` sectors and its bitmap
has one bit for each slot of `PAGE_SECTORS` sectors, as `swap_init` creates it. -/
def SwapSized (BLOCK_SECTOR_SIZE : Nat) (sw : Swap) : Prop :=
  ∃ size, sw.device = some size ∧ size < 2 ^ 32 ∧
    sw.bitmap.length = size / PAGE_SECTORS BLOCK_SECTOR_SIZE

/-! ## `vm/page.c` (Task4): eviction hook -/

/-- The C function `page_out` of `vm/page.c` (Task4): after the two assertions it
clears the hardware mapping and returns 0; the write-back and the reset of
`p->frame` are commented out in the source. -/
def page_out : PageOut := fun cur frames p w =>
  match w.pages p with
  | none => none
  | some pg =>
    match pg.frame with
    | none => none
    | some fi =>
      match frames[fi]? with
      | none => none
      | some f =>
        if lock_held_by_current_thread cur f then
          some (false, { w with pagedir := pagedir_clear_page w.pagedir pg.thread pg.addr })
        else none

/-! ## `vm/page.c` (Task4): materialization -/

/-- The C library function `memset (dst, c, n)` on kernel memory. -/
def memset (mem : Nat → Nat) (dst c n : Nat) : Nat → Nat :=
  fun a => if dst ≤ a ∧ a < dst + n then c else mem a

/-- Modelled from the spec: `file_read_at` of `filesys/file.c` (not part of the
sources), "file-read-at(offset, length)": copies up to `size` bytes of the file
from offset `ofs` to `buf` and returns the number of bytes read, which is
smaller than `size` when the file ends first. -/
def file_read_at (file : List Nat) (mem : Nat → Nat) (buf size ofs : Nat) :
    Nat × (Nat → Nat) :=
  let n := min size (file.length - ofs)
  (n, fun a => if buf ≤ a ∧ a < buf + n then file.getD (ofs + (a - buf)) 0 else mem a)

/-- The type of the call `swap_in (p, p->frame)` made by `load_page`. -/
abbrev SwapIn := Tid → List Frame → PagePtr → World → Option World

/-- The C function `load_page_from_file`.  A read count above `PGSIZE` would make
`zero_bytes` negative and is a fault. -/
def load_page_from_file (frames : List Frame) (p : PagePtr) (w : World) :
    Option (Bool × World) :=
  match w.pages p with
  | none => none
  | some pg =>
    match pg.file, pg.frame with
    | some fl, some fi =>
      match frames[fi]? with
      | none => none
      | some f =>
        let r := file_read_at (w.files fl) w.mem f.base pg.file_bytes pg.file_offset
        let read_bytes := r.1
        if PGSIZE < read_bytes then none
        else
          let zero_bytes := PGSIZE - read_bytes
          some (true, { w with mem := memset r.2 (f.base + read_bytes) 0 zero_bytes })
    | _, _ => none

/-- The C function `load_page`.  The callee of `swap_in (p, p->frame)` is a
parameter: in Task4 it is the routine of `vm/swap.c` that works on the
supplemental page table. -/
def load_page (po : PageOut) (si : SwapIn) (cur : Tid) (p : PagePtr) (s : VM) :
    Option (Bool × VM) :=
  match frame_alloc_and_lock po cur p s with
  | none => none
  | some (r, s1) =>
    match s1.w.pages p with
    | none => none
    | some pg =>
      let w2 := set_page s1.w p { pg with frame := r }
      match r with
      | none => some (false, { s1 with w := w2 })
      | some fi =>
        if pg.sector ≠ SECTOR_NONE then
          match si cur s1.frames p w2 with
          | none => none
          | some w3 => some (true, { s1 with w := w3 })
        else if pg.file ≠ none then
          match load_page_from_file s1.frames p w2 with
          | none => none
          | some (b, w3) => some (b, { s1 with w := w3 })
        else
          match s1.frames[fi]? with
          | none => none
          | some f => some (true, { s1 with w := { w2 with mem := memset w2.mem f.base 0 PGSIZE } })

/-! ## `vm/page.c` (Task4): the page registry -/

/-- The C statement `free (p)`: the page object leaves the heap. -/
def free_page (w : World) (p : PagePtr) : World :=
  { w with pages := fun x => if x = p then none else w.pages x }

/-- Modelled from the spec: `pg_round_down` of `threads/vaddr.h` (not part of the
sources): the start of the page that contains the address. -/
def pg_round_down (va : Nat) : Nat := va - va % PGSIZE

/-- The C function `page_hash`; the result is an `unsigned`. -/
def page_hash (e : Page) : Nat := (e.addr >>> PGBITS) % 2 ^ 32

/-- The C function `page_less`. -/
def page_less (a b : Page) : Bool := decide (a.addr < b.addr)

/-- The local `struct page p` of `page_lookup`, of which only `addr` is set. -/
def key_page (addr : Nat) : Page :=
  { addr := addr, read_only := false, thread := 0, frame := none, sector := 0,
    private_ := false, file := none, file_offset := 0, file_bytes := 0 }

/-- Modelled from the spec: `hash_find` of `lib/kernel/hash.c` (not part of the
sources) on a table with the functions `page_hash` and `page_less`: the
element in the bucket of the key's hash value that is neither less nor greater
than the key.  The table is the list of its elements. -/
def hash_find (w : World) (h : List PagePtr) (key : Page) : Option PagePtr :=
  h.find? (fun q =>
    match w.pages q with
    | none => false
    | some e => page_hash e == page_hash key && !page_less e key && !page_less key e)

/-- The C function `page_lookup` for the thread `cur`; `none` is the
dereference of a NULL table. -/
def page_lookup (cur : Tid) (address : Nat) (w : World) : Option (Option PagePtr) :=
  match w.registry cur with
  | none => none
  | some h => some (hash_find w h (key_page (pg_round_down address)))

/-- The C function `is_stack_access`; the two subtractions are 32-bit pointer
arithmetic.  `PHYS_BASE` of `threads/vaddr.h` is not part of the sources and is
a parameter. -/
def is_stack_access (PHYS_BASE : Nat) (cur : Tid) (address : Nat) (w : World) : Bool :=
  decide ((PHYS_BASE + 2 ^ 32 - MAX_STACK) % 2 ^ 32 ≤ address) &&
  decide ((w.user_esp cur + 2 ^ 32 - 32) % 2 ^ 32 ≤ address)

/-- The C function `page_allocate` for the thread `cur`.  `m` is what `malloc`
returns: `none` for NULL, otherwise the address of the new object. -/
def page_allocate (cur : Tid) (m : Option PagePtr) (vaddr : Nat) (read_only : Bool) (w : World) :
    Option (Option PagePtr × World) :=
  match m with
  | none => some (none, w)
  | some p =>
    let pg : Page :=
      { addr := pg_round_down vaddr, read_only := read_only, thread := cur, frame := none,
        sector := SECTOR_NONE, private_ := !read_only, file := none, file_offset := 0,
        file_bytes := 0 }
    match w.registry cur with
    | none => none
    | some h =>
      match hash_find w h pg with
      | some _ => some (none, w)
      | none =>
        some (some p,
          { w with pages := fun x => if x = p then some pg else w.pages x
                   registry := fun t => if t = cur then some (p :: h) else w.registry t })

/-- The C function `page_for_addr` for the thread `cur`. -/
def page_for_addr (PHYS_BASE : Nat) (cur : Tid) (m : Option PagePtr) (address : Nat) (w : World) :
    Option (Option PagePtr × World) :=
  if address < PHYS_BASE then
    match page_lookup cur address w with
    | none => none
    | some (some p) => some (some p, w)
    | some none =>
      if is_stack_access PHYS_BASE cur address w then
        page_allocate cur m (pg_round_down address) false w
      else some (none, w)
  else some (none, w)

/-- The C function `frame_lock` when nothing runs between its statements: the
`lock_acquire` returns only if the lock is free (`none` otherwise) and the page
is then still bound to the frame. -/
def frame_lock (cur : Tid) (p : PagePtr) (s : VM) : Option VM :=
  match s.w.pages p with
  | none => none
  | some pg =>
    match pg.frame with
    | none => some s
    | some fi =>
      match s.frames[fi]? with
      | none => none
      | some f =>
        match f.lock with
        | some _ => none
        | none => some { s with frames := s.frames.set fi { f with lock := some cur } }

/-- The C function `frame_lock` when the caller may have to wait in
`lock_acquire`: `f = p->frame` is read in the state `s0`, and `s1` is the state,
as the other threads left it, in which `lock_acquire (&f->lock)` returns, so
the lock is free in `s1` (`none` while it is not).  Then `f` is compared with
`p->frame` as it is in `s1`. -/
def frame_lock_wait (cur : Tid) (p : PagePtr) (s0 s1 : VM) : Option VM :=
  match s0.w.pages p with
  | none => none
  | some pg0 =>
    match pg0.frame with
    | none => some s0
    | some fi =>
      match s1.frames[fi]? with
      | none => none
      | some f =>
        match f.lock with
        | some _ => none
        | none =>
          let f1 : Frame := { f with lock := some cur }
          match s1.w.pages p with
          | none => none
          | some pg1 =>
            if pg1.frame ≠ some fi then
              match pg1.frame with
              | none => some { s1 with frames := s1.frames.set fi (release_frame_lock cur f1) }
              | some _ => none
            else some { s1 with frames := s1.frames.set fi f1 }

/-- The type of the call `frame_free (p->frame)` made by `page_deallocate`. -/
abbrev FrameFree := Tid → Nat → List Frame → Option (List Frame)

/-- Modelled from the spec: `hash_delete` of `lib/kernel/hash.c` (not part of the
sources): the element found for the key leaves the table. -/
def hash_delete (w : World) (h : List PagePtr) (key : Page) : List PagePtr :=
  match hash_find w h key with
  | none => h
  | some q => h.erase q

/-- The C function `page_deallocate` for the thread `cur`.  The callee of
`frame_free (p->frame)` is a parameter; `p->frame` is read again after
`page_out`, and freeing a NULL frame is a fault. -/
def page_deallocate (po : PageOut) (ff : FrameFree) (PHYS_BASE : Nat) (cur : Tid)
    (m : Option PagePtr) (vaddr : Nat) (s : VM) : Option VM :=
  match page_for_addr PHYS_BASE cur m vaddr s.w with
  | none => none
  | some (none, _) => none
  | some (some p, w1) =>
    match frame_lock cur p { s with w := w1 } with
    | none => none
    | some s2 =>
      match s2.w.pages p with
      | none => none
      | some pg =>
        let r : Option VM :=
          match pg.frame with
          | none => some s2
          | some _ =>
            let r1 : Option World :=
              if pg.file ≠ none && !pg.private_ then
                (po cur s2.frames p s2.w).map Prod.snd
              else some s2.w
            match r1 with
            | none => none
            | some w3 =>
              match w3.pages p with
              | none => none
              | some pg3 =>
                match pg3.frame with
                | none => none
                | some fi =>
                  match ff cur fi s2.frames with
                  | none => none
                  | some F3 => some { s2 with frames := F3, w := w3 }
        match r with
        | none => none
        | some s3 =>
          match s3.w.pages p, s3.w.registry cur with
          | some pg3, some h =>
            let w4 : World :=
              { s3.w with registry := fun t =>
                  if t = cur then some (hash_delete s3.w h pg3) else s3.w.registry t }
            some { s3 with w := free_page w4 p }
          | _, _ => none

/-- The call `pagedir_set_page (thread_current ()->pagedir, p->addr,
p->frame->base, !p->read_only)` of `page_in` and `page_lock`.  `ok` is what the
call returns: false when no page table can be allocated, and then nothing is
installed. -/
def install_page (cur : Tid) (ok : Bool) (frames : List Frame) (p : PagePtr) (w : World) :
    Option (Bool × World) :=
  match w.pages p with
  | none => none
  | some pg =>
    match pg.frame with
    | none => none
    | some fi =>
      match frames[fi]? with
      | none => none
      | some f =>
        if ok then
          some (true,
            { w with pagedir := pagedir_set_page w.pagedir cur pg.addr f.base (!pg.read_only) })
        else some (false, w)

/-- The call `frame_unlock (p->frame)`: `p->frame` is read and unlocked; a NULL
frame fails the assertion of `frame_unlock`. -/
def unlock_page_frame (cur : Tid) (p : PagePtr) (s : VM) : Option VM :=
  match s.w.pages p with
  | none => none
  | some pg =>
    match pg.frame with
    | none => none
    | some fi =>
      match frame_unlock cur fi s.frames with
      | none => none
      | some F1 => some { s with frames := F1 }

/-- The C function `page_in` for the thread `cur`; `m` is what `malloc` returns
in `page_allocate` and `ok` what `pagedir_set_page` returns. -/
def page_in (PHYS_BASE : Nat) (po : PageOut) (si : SwapIn) (cur : Tid) (m : Option PagePtr)
    (ok : Bool) (fault_addr : Nat) (s : VM) : Option (Bool × VM) :=
  match s.w.registry cur with
  | none => some (false, s)
  | some _ =>
    match page_for_addr PHYS_BASE cur m fault_addr s.w with
    | none => none
    | some (none, w1) => some (false, { s with w := w1 })
    | some (some p, w1) =>
      match frame_lock cur p { s with w := w1 } with
      | none => none
      | some s2 =>
        match s2.w.pages p with
        | none => none
        | some pg =>
          let loaded : Option (Bool × VM) :=
            match pg.frame with
            | some _ => some (true, s2)
            | none => load_page po si cur p s2
          match loaded with
          | none => none
          | some (false, s3) =>
            match unlock_page_frame cur p s3 with
            | none => none
            | some s4 => some (false, s4)
          | some (true, s3) =>
            match s3.w.pages p with
            | none => none
            | some pg3 =>
              match pg3.frame with
              | none => none
              | some fi =>
                match s3.frames[fi]? with
                | none => none
                | some f =>
                  if lock_held_by_current_thread cur f then
                    match install_page cur ok s3.frames p s3.w with
                    | none => none
                    | some (success, w4) =>
                      match unlock_page_frame cur p { s3 with w := w4 } with
                      | none => none
                      | some s5 => some (success, s5)
                  else none

/-- The C function `page_lock` for the thread `cur`; `m` is what `malloc` returns
in `page_allocate` and `ok` what `pagedir_set_page` returns. -/
def page_lock (PHYS_BASE : Nat) (po : PageOut) (si : SwapIn) (cur : Tid) (m : Option PagePtr)
    (ok : Bool) (addr : Nat) (will_write : Bool) (s : VM) : Option (Bool × VM) :=
  match page_for_addr PHYS_BASE cur m addr s.w with
  | none => none
  | some (none, w1) => some (false, { s with w := w1 })
  | some (some p, w1) =>
    match w1.pages p with
    | none => none
    | some pg =>
      if pg.read_only && will_write then some (false, { s with w := w1 })
      else
        match frame_lock cur p { s with w := w1 } with
        | none => none
        | some s2 =>
          match s2.w.pages p with
          | none => none
          | some pg2 =>
            match pg2.frame with
            | some _ => some (true, s2)
            | none =>
              match load_page po si cur p s2 with
              | none => none
              | some (false, s3) => some (false, s3)
              | some (true, s3) =>
                match install_page cur ok s3.frames p s3.w with
                | none => none
                | some (b, w4) => some (b, { s3 with w := w4 })

/-- The pages of the table `h` are live and have distinct addresses. -/
def RegistryOK (w : World) (h : List PagePtr) : Prop :=
  (∀ q, q ∈ h → ∃ e, w.pages q = some e) ∧
  (∀ q1 q2 e1 e2, q1 ∈ h → q2 ∈ h → w.pages q1 = some e1 → w.pages q2 = some e2 →
    e1.addr = e2.addr → q1 = q2) ∧
  h.Nodup

/-! ## The frame table as a transition system -/

/-- The assignment `p->frame = r` on the heap of pages. -/
def set_page_frame (w : World) (p : PagePtr) (r : Option Nat) : World :=
  { w with pages := fun x =>
      if x = p then (w.pages p).map (fun pg => { pg with frame := r }) else w.pages x }

/-- What the frame table needs from an eviction hook: `page_out` binds no page
to a frame, and when it succeeds on `q` the frame reference of `q` is cleared
("the frame reference is cleared"). -/
def ClearsEvicted (po : PageOut) : Prop :=
  ∀ (cur : Tid) (F : List Frame) (q : PagePtr) (w : World) (b : Bool) (w1 : World),
    po cur F q w = some (b, w1) →
    (∀ p pg1 i, w1.pages p = some pg1 → pg1.frame = some i →
      ∃ pg, w.pages p = some pg ∧ pg.frame = some i) ∧
    (b = true → ∀ pg1, w1.pages q = some pg1 → pg1.frame = none)

/-- The initial state built by `frame_init`: every frame is free and unlocked,
the hand is 0 and no page is resident. -/
def Initial (s : VM) : Prop :=
  (∀ f, f ∈ s.frames → f.page = none ∧ f.lock = none) ∧ s.hand = 0 ∧
  (∀ p pg, s.w.pages p = some pg → pg.frame = none)

/-- One operation on the frame table by some thread `t`.
* `alloc`: `p->frame = frame_alloc_and_lock (p)` for a live page that is not
  resident, as in `load_page` and `setup_stack`; evictions happen inside.
* `release`: `frame_free (p->frame)` followed by `free (p)`, as in
  `page_deallocate` and `destroy_page`.
* `unlock`: `frame_unlock`.
* `lock`: the `lock_acquire` of `frame_lock` on a free lock.
* `env`: any change of the rest of the state that binds no page to a frame
  (registration of pages, hardware accessed and dirty bits, swap, files). -/
inductive Step (po : PageOut) : VM → VM → Prop
  | alloc (s s1 : VM) (t : Tid) (p : PagePtr) (pg : Page) (r : Option Nat) :
      s.w.pages p = some pg → pg.frame = none →
      frame_alloc_and_lock po t p s = some (r, s1) →
      Step po s { s1 with w := set_page_frame s1.w p r }
  | release (s : VM) (t : Tid) (p : PagePtr) (pg : Page) (i : Nat) (F1 : List Frame) :
      s.w.pages p = some pg → pg.frame = some i →
      frame_free t i s.frames = some F1 →
      Step po s { s with frames := F1, w := free_page s.w p }
  | unlock (s : VM) (t : Tid) (i : Nat) (F1 : List Frame) :
      frame_unlock t i s.frames = some F1 →
      Step po s { s with frames := F1 }
  | lock (s : VM) (t : Tid) (i : Nat) (f : Frame) :
      s.frames[i]? = some f → f.lock = none →
      Step po s { s with frames := s.frames.set i { f with lock := some t } }
  | env (s : VM) (w1 : World) :
      (∀ p pg1 i, w1.pages p = some pg1 → pg1.frame = some i →
        ∃ pg, s.w.pages p = some pg ∧ pg.frame = some i) →
      Step po s { s with w := w1 }

/-- The states reachable from `s0` by operations on the frame table. -/
inductive Reachable (po : PageOut) (s0 : VM) : VM → Prop
  | start : Reachable po s0 s0
  | step (s s1 : VM) : Reachable po s0 s → Step po s s1 → Reachable po s0 s1

/-- Every page that claims a frame is the owner recorded in that frame. -/
def Bound (F : List Frame) (w : World) : Prop :=
  ∀ p pg i, w.pages p = some pg → pg.frame = some i → ∃ f, F[i]? = some f ∧ f.page = some p

/-- The number of frames that have an owner. -/
def owned_frames (F : List Frame) : Nat :=
  (F.filter (fun f => f.page.isSome)).length

/-! ## `threads/procon.c` (Task1) -/

/-- The C `struct procon` of `threads/procon.h` without its lock and condition
variables.  The `int` fields are integers; `buffer i` is the character
`pc->buffer[i]`. -/
structure procon where
  size : Int
  buffer : Int → Nat
  count : Int
  pro_index : Int
  con_index : Int

/-- The C function `procon_init`; the statement `pc->size = buffer_size = 10`
makes the size 10 whatever `buffer_size` is.  `mem` is the content of the
block that `malloc` returns. -/
def procon_init (_buffer_size : Nat) (mem : Int → Nat) : procon :=
  { size := 10, buffer := mem, count := 0, con_index := 0, pro_index := 0 }

/-- The C function `procon_produce`; `none` when the call has to wait
(`pc->count == pc->size`). -/
def procon_produce (pc : procon) (c : Nat) : Option procon :=
  if pc.count = pc.size then none
  else
    let pc1 : procon :=
      { pc with
        count := pc.count + 1
        buffer := fun i => if i = pc.pro_index then c else pc.buffer i
        pro_index := pc.pro_index + 1 }
    if pc1.pro_index = pc1.size then some { pc1 with pro_index := 0 } else some pc1

/-- The C function `procon_consume`; `none` when the call has to wait
(`pc->count == 0`). -/
def procon_consume (pc : procon) : Option (Nat × procon) :=
  if pc.count = 0 then none
  else
    let c := pc.buffer pc.con_index
    let pc1 : procon := { pc with count := pc.count - 1, con_index := pc.con_index + 1 }
    if pc1.con_index = pc1.size then some (c, { pc1 with con_index := 0 }) else some (c, pc1)

/-- A call of `procon_produce` with its argument, or of `procon_consume`. -/
inductive ProconCall where
  | produce (c : Nat)
  | consume

/-- A sequence of calls on one buffer; the result is the final buffer and the
characters that the calls of `procon_consume` returned, in order.  `none` when
some call has to wait. -/
def procon_run : List ProconCall → procon → Option (procon × List Nat)
  | [], pc => some (pc, [])
  | ProconCall.produce c :: calls, pc =>
    match procon_produce pc c with
    | none => none
    | some pc1 => procon_run calls pc1
  | ProconCall.consume :: calls, pc =>
    match procon_consume pc with
    | none => none
    | some (c, pc1) =>
      match procon_run calls pc1 with
      | none => none
      | some (pc2, out) => some (pc2, c :: out)

/-- The characters given to the calls of `procon_produce`, in order. -/
def produced : List ProconCall → List Nat
  | [] => []
  | ProconCall.produce c :: calls => c :: produced calls
  | ProconCall.consume :: calls => produced calls

/-! ## `vm/frame.c`, `vm/page.c` and `vm/swap.c` (Task4): frame table entries, supplemental page table and swap slots -/

namespace Task4

/-- The C `enum STATUS` of `vm/page.h`. -/
inductive STATUS where
  | INSTALLED
  | SWAPPED
  | FSYS
  | ALLZERO
deriving DecidableEq, Repr

/-- The C `struct sptEntry` of `vm/page.h`; `frame` is `none` for NULL. -/
structure sptEntry where
  page : Nat
  frame : Option Nat
  status : STATUS
  block_idx : Nat
  dirty : Bool
  file : Option Nat
  ofs : Nat
  read_bytes : Nat
  zero_bytes : Nat
  writable : Bool
deriving DecidableEq, Repr

/-- The C `struct frameTableEntry` of `vm/frame.h`.  The field `pagedir` points
to the page directory of a process and is represented by that process. -/
structure frameTableEntry where
  frame : Nat
  page : Nat
  pagedir : Tid
deriving DecidableEq, Repr

/-- The state that `frame_alloc`, `frame_free`, `swap_out` and `swap_in` of Task4
work on: the list `all_frames`, the hash table `ft` (its elements, at most one
for each frame address), the supplemental page tables (`thread->spt`, `none` is
NULL), the page directories, the free pages of the user pool, the swap store
(`swap_device`, `swap_slot`) and kernel memory. -/
structure State where
  all_frames : List frameTableEntry
  ft : List frameTableEntry
  spt : Tid → Option (List sptEntry)
  pagedir : Tid → Nat → Option PTE
  pool : List Nat
  swap : Swap
  mem : Nat → Nat

/-- Modelled from the spec: `pagedir_get_page` of `userprog/pagedir.c` (not part
of the sources), the lookup of the hardware page table "keyed by (address
space, virtual address)": the kernel address of the frame that the user page is
mapped to, `none` (NULL) when there is no present mapping. -/
def pagedir_get_page (pd : Tid → Nat → Option PTE) (t : Tid) (uaddr : Nat) : Option Nat :=
  match pd t uaddr with
  | none => none
  | some e => if e.present then some e.kpage else none

/-- Modelled from the spec: `palloc_get_page` of `threads/palloc.c` (not part of
the sources), the source of the "reclaimable pages": a page of the pool, or
`none` (NULL) when the pool is empty.  The flags are not modelled. -/
def palloc_get_page (s : State) : Option Nat × State :=
  match s.pool with
  | [] => (none, s)
  | a :: rest => (some a, { s with pool := rest })

/-- Modelled from the spec: `palloc_free_page` of `threads/palloc.c` (not part of
the sources): the page goes back to the pool. -/
def palloc_free_page (s : State) (frame : Nat) : State :=
  { s with pool := frame :: s.pool }

/-- The C function `ft_add_entry`; `m` tells whether `malloc` succeeds.
`hash_insert` refuses an entry whose frame is in the table already. -/
def ft_add_entry (m : Bool) (frame page : Nat) (pagedir : Tid) (s : State) : Bool × State :=
  if m then
    let fte : frameTableEntry := { frame := frame, pagedir := pagedir, page := page }
    match s.ft.find? (fun e => e.frame == frame) with
    | none => (true, { s with ft := fte :: s.ft, all_frames := s.all_frames ++ [fte] })
    | some _ => (false, s)
  else (false, s)

/-- The C function `select_victim`: `list_pop_front` and `list_push_back` on
`all_frames`; `none` when the assertion fails. -/
def select_victim (all_frames : List frameTableEntry) :
    Option (frameTableEntry × List frameTableEntry) :=
  match all_frames with
  | [] => none
  | victim :: rest => some (victim, rest ++ [victim])

/-- The victims of `n` consecutive calls of `select_victim`, in order, and the
list `all_frames` after them. -/
def select_victims : Nat → List frameTableEntry →
    Option (List frameTableEntry × List frameTableEntry)
  | 0, l => some ([], l)
  | n + 1, l =>
    match select_victim l with
    | none => none
    | some (v, l1) =>
      match select_victims n l1 with
      | none => none
      | some (vs, l2) => some (v :: vs, l2)

/-- The C function `ft_get_entry`; when `hash_find` finds nothing the function
returns a pointer computed from NULL, whose use is a failure (`none`). -/
def ft_get_entry (frame : Nat) (s : State) : Option frameTableEntry :=
  s.ft.find? (fun e => e.frame == frame)

/-- The C function `ft_delete_entry`. -/
def ft_delete_entry (frame : Nat) (s : State) : Option (Bool × State) :=
  match ft_get_entry frame s with
  | none => none
  | some fte =>
    some (true, { s with ft := s.ft.erase fte, all_frames := s.all_frames.erase fte })

/-- The C function `frame_free` of Task4. -/
def frame_free (frame : Nat) (s : State) : Option State :=
  match ft_get_entry frame s with
  | none => none
  | some fte =>
    let s1 : State := { s with pagedir := pagedir_clear_page s.pagedir fte.pagedir fte.page }
    let s2 := palloc_free_page s1 frame
    match ft_delete_entry frame s2 with
    | none => none
    | some (_, s3) => some s3

/-- The C function `spt_get_entry`. -/
def spt_get_entry (spt : List sptEntry) (page : Nat) : Option sptEntry :=
  spt.find? (fun e => e.page == page)

/-- The C function `spt_set_swapped`: the entry that `spt_get_entry` finds is
changed in place. -/
def spt_set_swapped : List sptEntry → Nat → Nat → Bool × List sptEntry
  | [], _, _ => (false, [])
  | e :: rest, page, block_idx =>
    if e.page == page then
      (true, { e with frame := none, status := STATUS.SWAPPED, block_idx := block_idx } :: rest)
    else
      let r := spt_set_swapped rest page block_idx
      (r.1, e :: r.2)

/-- The C function `swap_init` of Task4, given what `block_get_role (BLOCK_SWAP)`
returned; `none` is the PANIC when there is no swap device.  The bitmap has
one bit for each sector. -/
def swap_init (device : Option Nat) (sectors : Nat → Nat → Nat) : Option Swap :=
  match device with
  | none => none
  | some size => some { device := some size, bitmap := List.replicate size false, sectors := sectors }

/-- The loop of `swap_out`: `n` sectors remain, the loop variable is `i`. -/
def swap_out_loop (BLOCK_SECTOR_SIZE : Nat) (block_idx frame : Nat) (mem : Nat → Nat) :
    Nat → Nat → Swap → Option Swap
  | 0, _, sw => some sw
  | n + 1, i, sw =>
    match block_write BLOCK_SECTOR_SIZE sw ((block_idx + i) % 2 ^ 32) mem
        (frame + i * BLOCK_SECTOR_SIZE) with
    | none => none
    | some sw1 => swap_out_loop BLOCK_SECTOR_SIZE block_idx frame mem n (i + 1) sw1

/-- The C function `swap_out` of Task4 for the thread `cur`.  `BITMAP_ERROR` is
`SIZE_MAX`, which is `2 ^ 32 - 1` as a `block_sector_t`; a NULL frame is not
readable. -/
def swap_out (BLOCK_SECTOR_SIZE : Nat) (cur : Tid) (page : Nat) (s : State) : Option State :=
  match s.swap.device with
  | none => none
  | some _ =>
    if page % PGSIZE = 0 then
      let r := bitmap_scan_and_flip s.swap.bitmap 0 (PGSIZE / BLOCK_SECTOR_SIZE) false
      let block_idx : Nat :=
        match r.1 with
        | none => 2 ^ 32 - 1
        | some idx => idx % 2 ^ 32
      match pagedir_get_page s.pagedir cur page with
      | none => none
      | some frame =>
        match swap_out_loop BLOCK_SECTOR_SIZE block_idx frame s.mem
            (PGSIZE / BLOCK_SECTOR_SIZE) 0 { s.swap with bitmap := r.2 } with
        | none => none
        | some sw1 =>
          match s.spt cur with
          | none => none
          | some spt =>
            some { s with
                   swap := sw1
                   spt := fun t =>
                     if t = cur then some (spt_set_swapped spt page block_idx).2 else s.spt t }
    else none

/-- The loop of `swap_in`: `n` sectors remain, the loop variable is `i`. -/
def swap_in_loop (BLOCK_SECTOR_SIZE : Nat) (sw : Swap) (block_idx frame : Nat) :
    Nat → Nat → (Nat → Nat) → Option (Nat → Nat)
  | 0, _, mem => some mem
  | n + 1, i, mem =>
    match block_read BLOCK_SECTOR_SIZE sw ((block_idx + i) % 2 ^ 32) mem
        (frame + i * BLOCK_SECTOR_SIZE) with
    | none => none
    | some mem1 => swap_in_loop BLOCK_SECTOR_SIZE sw block_idx frame n (i + 1) mem1

/-- The C function `swap_in` of Task4 for the thread `cur`. -/
def swap_in (BLOCK_SECTOR_SIZE : Nat) (cur : Tid) (page frame : Nat) (s : State) :
    Option State :=
  match s.swap.device with
  | none => none
  | some _ =>
    if page % PGSIZE = 0 then
      match s.spt cur with
      | none => none
      | some spt =>
        match spt_get_entry spt page with
        | none => none
        | some target =>
          match swap_in_loop BLOCK_SECTOR_SIZE s.swap target.block_idx frame
              (PGSIZE / BLOCK_SECTOR_SIZE) 0 s.mem with
          | none => none
          | some mem1 =>
            some { s with
                   mem := mem1
                   swap := { s.swap with
                             bitmap := bitmap_set_multiple s.swap.bitmap target.block_idx
                               (PGSIZE / BLOCK_SECTOR_SIZE) false } }
    else none

/-- The C function `frame_alloc` for the thread `cur`; `m` tells whether the
`malloc` of `ft_add_entry` succeeds. -/
def frame_alloc (BLOCK_SECTOR_SIZE : Nat) (cur : Tid) (m : Bool) (page : Nat) (s : State) :
    Option (Nat × State) :=
  match palloc_get_page s with
  | (some frame, s1) => some (frame, (ft_add_entry m frame page cur s1).2)
  | (none, s1) =>
    match select_victim s1.all_frames with
    | none => none
    | some (victim, l) =>
      match swap_out BLOCK_SECTOR_SIZE cur victim.page { s1 with all_frames := l } with
      | none => none
      | some s2 =>
        match frame_free victim.frame s2 with
        | none => none
        | some s3 =>
          match palloc_get_page s3 with
          | (none, _) => none
          | (some frame, s4) => some (frame, (ft_add_entry m frame page cur s4).2)

end Task4

/-! ## `filesys/cache.c` (Task4) -/

namespace Filesys

/-- The constant `BUFFER_CACHE_SIZE` of `filesys/cache.c`. -/
def BUFFER_CACHE_SIZE : Nat := 64

/-- The C `struct buffer_cache_entry_t`; `buffer` holds the `BLOCK_SECTOR_SIZE`
bytes of the sector. -/
structure buffer_cache_entry_t where
  occupied : Bool
  disk_sector : Nat
  buffer : List Nat
  dirty : Bool
  access : Bool
deriving DecidableEq, Repr

/-- The block device `fs_device`: its number of sectors and, for each sector,
its `BLOCK_SECTOR_SIZE` bytes. -/
structure Disk where
  size : Nat
  data : Nat → List Nat

/-- The static state of `filesys/cache.c` (the array `cache` and the variable
`clock` of `buffer_cache_evict`) together with the device it caches. -/
structure BufferCache where
  cache : List buffer_cache_entry_t
  clock : Nat
  fs_device : Disk

/-- Modelled from the spec: `block_read` of `devices/block.c` (not part of the
sources), "read-sector(i)"; `none` when the sector is outside the device. -/
def block_read (d : Disk) (sector : Nat) : Option (List Nat) :=
  if sector < d.size then some (d.data sector) else none

/-- Modelled from the spec: `block_write` of `devices/block.c` (not part of the
sources), "write-sector(i)"; `none` when the sector is outside the device. -/
def block_write (d : Disk) (sector : Nat) (buf : List Nat) : Option Disk :=
  if sector < d.size then
    some { d with data := fun s => if s = sector then buf else d.data s }
  else none

/-- The C function `buffer_cache_init`. -/
def buffer_cache_init (c : BufferCache) : BufferCache :=
  { c with cache := c.cache.map (fun e => { e with occupied := false }) }

/-- The C function `buffer_cache_flush` on the entry with index `i`. -/
def buffer_cache_flush (c : BufferCache) (i : Nat) : Option BufferCache :=
  match c.cache[i]? with
  | none => none
  | some entry =>
    if entry.occupied then
      if entry.dirty then
        match block_write c.fs_device entry.disk_sector entry.buffer with
        | none => none
        | some d1 =>
          some { c with fs_device := d1, cache := c.cache.set i { entry with dirty := false } }
      else some c
    else none

/-- The loop of `buffer_cache_lookup` over the entries from index `i` on. -/
def buffer_cache_lookup_loop (sector : Nat) : List buffer_cache_entry_t → Nat → Option Nat
  | [], _ => none
  | e :: rest, i =>
    if e.occupied = false then buffer_cache_lookup_loop sector rest (i + 1)
    else if e.disk_sector = sector then some i
    else buffer_cache_lookup_loop sector rest (i + 1)

/-- The C function `buffer_cache_lookup`: the index of the entry found, `none`
for NULL. -/
def buffer_cache_lookup (c : BufferCache) (sector : Nat) : Option Nat :=
  buffer_cache_lookup_loop sector c.cache 0

/-- The loop `while (true)` of `buffer_cache_evict` with `fuel` iterations left.
The result is `true` when the loop returns the unoccupied entry under the clock
and `false` when it ends by `break`. -/
def buffer_cache_evict_loop : Nat → BufferCache → Option (Bool × BufferCache)
  | 0, _ => none
  | fuel + 1, c =>
    match c.cache[c.clock]? with
    | none => none
    | some e =>
      if e.occupied = false then some (true, c)
      else if e.access then
        buffer_cache_evict_loop fuel
          { c with cache := c.cache.set c.clock { e with access := false }
                   clock := (c.clock + 1) % BUFFER_CACHE_SIZE }
      else some (false, c)

/-- The C function `buffer_cache_evict`: the index of the slot returned.  The
loop needs at most `BUFFER_CACHE_SIZE + 1` iterations. -/
def buffer_cache_evict (c : BufferCache) : Option (Nat × BufferCache) :=
  match buffer_cache_evict_loop (BUFFER_CACHE_SIZE + 1) c with
  | none => none
  | some (true, c1) => some (c1.clock, c1)
  | some (false, c1) =>
    match c1.cache[c1.clock]? with
    | none => none
    | some slot =>
      match (if slot.dirty then buffer_cache_flush c1 c1.clock else some c1) with
      | none => none
      | some c2 =>
        match c2.cache[c2.clock]? with
        | none => none
        | some slot2 =>
          some (c2.clock,
            { c2 with cache := c2.cache.set c2.clock { slot2 with occupied := false } })

/-- The statements that `buffer_cache_read` and `buffer_cache_write` share: the
lookup of the sector and, when it is not cached, the eviction of a slot that
is then filled from the device.  The result is the index of the slot. -/
def buffer_cache_slot (c : BufferCache) (sector : Nat) : Option (Nat × BufferCache) :=
  match buffer_cache_lookup c sector with
  | some i => some (i, c)
  | none =>
    match buffer_cache_evict c with
    | none => none
    | some (i, c1) =>
      match c1.cache[i]? with
      | none => none
      | some slot =>
        if slot.occupied = false then
          match block_read c1.fs_device sector with
          | none => none
          | some data =>
            let slot1 : buffer_cache_entry_t :=
              { slot with occupied := true, disk_sector := sector, dirty := false, buffer := data }
            some (i, { c1 with cache := c1.cache.set i slot1 })
        else none

/-- The C function `buffer_cache_read`: the bytes copied to `target`. -/
def buffer_cache_read (c : BufferCache) (sector : Nat) : Option (List Nat × BufferCache) :=
  match buffer_cache_slot c sector with
  | none => none
  | some (i, c1) =>
    match c1.cache[i]? with
    | none => none
    | some slot =>
      some (slot.buffer, { c1 with cache := c1.cache.set i { slot with access := true } })

/-- The C function `buffer_cache_write`; `source` holds the `BLOCK_SECTOR_SIZE`
bytes to copy. -/
def buffer_cache_write (c : BufferCache) (sector : Nat) (source : List Nat) :
    Option BufferCache :=
  match buffer_cache_slot c sector with
  | none => none
  | some (i, c1) =>
    match c1.cache[i]? with
    | none => none
    | some slot =>
      let slot1 : buffer_cache_entry_t :=
        { slot with access := true, dirty := true, buffer := source }
      some { c1 with cache := c1.cache.set i slot1 }

/-- A call of `buffer_cache_read` or of `buffer_cache_write` with its
arguments. -/
inductive CacheCall where
  | read (sector : Nat)
  | write (sector : Nat) (source : List Nat)

/-- A sequence of calls on the cache; the result is the final state and what
the calls of `buffer_cache_read` delivered, in order. -/
def cache_run : List CacheCall → BufferCache → Option (BufferCache × List (List Nat))
  | [], c => some (c, [])
  | CacheCall.read sector :: calls, c =>
    match buffer_cache_read c sector with
    | none => none
    | some (data, c1) =>
      match cache_run calls c1 with
      | none => none
      | some (c2, out) => some (c2, data :: out)
  | CacheCall.write sector source :: calls, c =>
    match buffer_cache_write c sector source with
    | none => none
    | some c1 => cache_run calls c1

/-- The same sequence of calls on a sector store without a cache, where a read
is `block_read` and a write is `block_write`: a read yields the data of the
most recent write to the sector, or the content of the device when there was
none. -/
def store_run : List CacheCall → Disk → Option (Disk × List (List Nat))
  | [], d => some (d, [])
  | CacheCall.read sector :: calls, d =>
    match block_read d sector with
    | none => none
    | some data =>
      match store_run calls d with
      | none => none
      | some (d2, out) => some (d2, data :: out)
  | CacheCall.write sector source :: calls, d =>
    match block_write d sector source with
    | none => none
    | some d1 => store_run calls d1

end Filesys

/-! ## `filesys/inode.c` (Task4) -/

namespace Filesys

/-- The sector size `BLOCK_SECTOR_SIZE` of `devices/block.h`, which is not part
of the sources: `inode_create` asserts that `struct inode_disk`, 128 words of 4
bytes, is exactly one sector long. -/
def BLOCK_SECTOR_SIZE : Nat := 512

/-- The constant `INODE_MAGIC` of `filesys/inode.c`. -/
def INODE_MAGIC : Nat := 0x494e4f44

/-- The constant `DIRECT_BLOCKS` of `filesys/inode.c`. -/
def DIRECT_BLOCKS : Nat := 12

/-- The constant `INDIRECT_SIZE` of `filesys/inode.c`. -/
def INDIRECT_SIZE : Nat := 128

/-- The constant `DOUBLY_INDIRECT_SIZE` of `filesys/inode.c`, `1 << 14`. -/
def DOUBLY_INDIRECT_SIZE : Nat := 16384

/-- The C `struct inode_disk`; `direct` has 12 entries and `unused` 111. -/
structure inode_disk where
  length : Int
  direct : List Nat
  indirect : Nat
  doubly_indirect : Nat
  is_dir : Nat
  magic : Nat
  unused : List Nat
deriving DecidableEq, Repr

/-- The C `struct inode` without its list element. -/
structure inode where
  sector : Nat
  open_cnt : Int
  removed : Bool
  deny_write_cnt : Int
  data : inode_disk
  is_dir : Bool
deriving DecidableEq, Repr

/-- The array `block_sector_t buf[128]` that a sector of 512 bytes is copied
to: word `i` is made of the bytes `4 i` to `4 i + 3`, lowest byte first. -/
def words_of_sector (d : List Nat) : List Nat :=
  (List.range 128).map (fun i =>
    d.getD (4 * i) 0 + 256 * d.getD (4 * i + 1) 0 + 65536 * d.getD (4 * i + 2) 0
      + 16777216 * d.getD (4 * i + 3) 0)

/-- The 512 bytes of an array of 128 words, lowest byte first. -/
def sector_of_words (a : List Nat) : List Nat :=
  (List.range 512).map (fun k => (a.getD (k / 4) 0 / 256 ^ (k % 4)) % 256)

/-- The 128 words of a `struct inode_disk`, in the order of its fields. -/
def inode_disk_words (d : inode_disk) : List Nat :=
  [(d.length % 2 ^ 32).toNat] ++ d.direct
    ++ [d.indirect, d.doubly_indirect, d.is_dir, d.magic] ++ d.unused

/-- The array `static char zeros[BLOCK_SECTOR_SIZE]`. -/
def zeros : List Nat := List.replicate BLOCK_SECTOR_SIZE 0

/-- The state of the file system code: the buffer cache with the device, and
the free map.  `filesys/free-map.c` is not part of the sources, so the results
of its allocations are a parameter: `free_map` lists what the next calls of
`free_map_allocate (1, sectorp)` deliver, `some s` for the sector `s`, `none`
for a failed allocation; when the list is used up every allocation fails. -/
structure FS where
  bc : BufferCache
  free_map : List (Option Nat)

/-- The call `free_map_allocate (1, sectorp)`, where `target` is the value of
`*sectorp` before the call: the result of the call, the value of `*sectorp`
after it (unchanged when the allocation fails) and the state.  The write of
the free map to its file is not embedded. -/
def free_map_allocate (fs : FS) (target : Nat) : Bool × Nat × FS :=
  match fs.free_map with
  | [] => (false, target, fs)
  | none :: rest => (false, target, { fs with free_map := rest })
  | some s :: rest => (true, s, { fs with free_map := rest })

/-- The C function `bytes_to_sectors`: `DIV_ROUND_UP (size, BLOCK_SECTOR_SIZE)`
in `int` arithmetic, converted to `size_t`. -/
def bytes_to_sectors (size : Int) : Nat :=
  ((Int.tdiv (size + BLOCK_SECTOR_SIZE - 1) BLOCK_SECTOR_SIZE) % 2 ^ 32).toNat

/-- The statement `if (x == 0) { free_map_allocate (1, &x); buffer_cache_write
(x, zeros); }` of `inode_extend`, where `x` is a sector number kept in the
inode or in an index block; the result is the value of `x` afterwards. -/
def allocate_sector (x : Nat) (fs : FS) : Option (Nat × FS) :=
  if x = 0 then
    let r := free_map_allocate fs x
    match buffer_cache_write r.2.2.bc r.2.1 zeros with
    | none => none
    | some bc1 => some (r.2.1, { r.2.2 with bc := bc1 })
  else some (x, fs)

/-- The loops `for (i = 0; i < n; i++) if (a[i] == 0) { ... }` of `inode_extend`
on the array `a` (`direct`, or `indirect_block`): `n` iterations remain, the
loop variable is `i`.  An index outside the array is a failure. -/
def allocate_entries : Nat → Nat → List Nat → FS → Option (List Nat × FS)
  | 0, _, a, fs => some (a, fs)
  | n + 1, i, a, fs =>
    match a[i]? with
    | none => none
    | some x =>
      match allocate_sector x fs with
      | none => none
      | some (x1, fs1) => allocate_entries n (i + 1) (a.set i x1) fs1

/-- The loop of `inode_extend` over the entries of `doubly_indirect_block`:
`n` iterations remain, the loop variable is `i`, and `num_sectors` is the
number of sectors behind the doubly indirect block.  An index outside the
array of 128 entries is a failure. -/
def inode_extend_doubly_loop (num_sectors : Nat) :
    Nat → Nat → List Nat → FS → Option (List Nat × FS)
  | 0, _, dbl, fs => some (dbl, fs)
  | n + 1, i, dbl, fs =>
    match dbl[i]? with
    | none => none
    | some x =>
      match allocate_sector x fs with
      | none => none
      | some (x1, fs1) =>
        match buffer_cache_read fs1.bc x1 with
        | none => none
        | some (data, bc2) =>
          let rot :=
            if i = num_sectors / INDIRECT_SIZE then num_sectors % INDIRECT_SIZE
            else INDIRECT_SIZE
          match allocate_entries rot 0 (words_of_sector data) { fs1 with bc := bc2 } with
          | none => none
          | some (indirect_block, fs3) =>
            match buffer_cache_write fs3.bc x1 (sector_of_words indirect_block) with
            | none => none
            | some bc4 =>
              inode_extend_doubly_loop num_sectors n (i + 1) (dbl.set i x1) { fs3 with bc := bc4 }

/-- The last part of `inode_extend` (from the third assignment of
`num_sectors`), for the `sectors` that the direct and the indirect blocks do
not hold. -/
def inode_extend_doubly (d : inode_disk) (sectors : Nat) (fs : FS) :
    Option (Bool × inode_disk × FS) :=
  let num_sectors := if sectors < DOUBLY_INDIRECT_SIZE then sectors else DOUBLY_INDIRECT_SIZE
  match allocate_sector d.doubly_indirect fs with
  | none => none
  | some (dbl_sector, fs1) =>
    match buffer_cache_read fs1.bc dbl_sector with
    | none => none
    | some (data, bc2) =>
      match inode_extend_doubly_loop num_sectors (num_sectors / INDIRECT_SIZE + 1) 0
          (words_of_sector data) { fs1 with bc := bc2 } with
      | none => none
      | some (doubly_indirect_block, fs3) =>
        match buffer_cache_write fs3.bc dbl_sector (sector_of_words doubly_indirect_block) with
        | none => none
        | some bc4 =>
          some (decide (sectors - num_sectors = 0), { d with doubly_indirect := dbl_sector },
            { fs3 with bc := bc4 })

/-- The middle part of `inode_extend` (from the second assignment of
`num_sectors`), for the `sectors` that the direct blocks do not hold. -/
def inode_extend_indirect (d : inode_disk) (sectors : Nat) (fs : FS) :
    Option (Bool × inode_disk × FS) :=
  let num_sectors := if sectors < INDIRECT_SIZE then sectors else INDIRECT_SIZE
  match allocate_sector d.indirect fs with
  | none => none
  | some (ind_sector, fs1) =>
    match buffer_cache_read fs1.bc ind_sector with
    | none => none
    | some (data, bc2) =>
      match allocate_entries num_sectors 0 (words_of_sector data) { fs1 with bc := bc2 } with
      | none => none
      | some (indirect_block, fs3) =>
        match buffer_cache_write fs3.bc ind_sector (sector_of_words indirect_block) with
        | none => none
        | some bc4 =>
          if sectors - num_sectors = 0 then
            some (true, { d with indirect := ind_sector }, { fs3 with bc := bc4 })
          else
            inode_extend_doubly { d with indirect := ind_sector } (sectors - num_sectors)
              { fs3 with bc := bc4 }

/-- The C function `inode_extend`. -/
def inode_extend (d : inode_disk) (sectors : Nat) (fs : FS) :
    Option (Bool × inode_disk × FS) :=
  let num_sectors := if sectors < DIRECT_BLOCKS then sectors else DIRECT_BLOCKS
  match allocate_entries num_sectors 0 d.direct fs with
  | none => none
  | some (direct1, fs1) =>
    if sectors - num_sectors = 0 then some (true, { d with direct := direct1 }, fs1)
    else inode_extend_indirect { d with direct := direct1 } (sectors - num_sectors) fs1

/-- The C function `inode_create`; `m` tells whether `calloc` succeeds. -/
def inode_create (m : Bool) (sector : Nat) (length : Int) (is_dir : Bool) (fs : FS) :
    Option (Bool × FS) :=
  if length ≥ 0 then
    if m then
      let disk_inode : inode_disk :=
        { length := 0, direct := List.replicate 12 0, indirect := 0, doubly_indirect := 0,
          is_dir := 0, magic := INODE_MAGIC, unused := List.replicate 111 0 }
      match inode_extend disk_inode (bytes_to_sectors length) fs with
      | none => none
      | some (false, _, fs1) => some (false, fs1)
      | some (true, d1, fs1) =>
        let d2 : inode_disk := { d1 with length := length, is_dir := if is_dir then 1 else 0 }
        match buffer_cache_write fs1.bc sector (sector_of_words (inode_disk_words d2)) with
        | none => none
        | some bc2 => some (true, { fs1 with bc := bc2 })
    else some (false, fs)
  else none

/-- The C function `inode_single_indirect`. -/
def inode_single_indirect (indirect : Nat) (index : Int) (fs : FS) : Option (Nat × FS) :=
  if 0 ≤ index ∧ index < 128 then
    match buffer_cache_read fs.bc indirect with
    | none => none
    | some (data, bc1) =>
      match (words_of_sector data)[index.toNat]? with
      | none => none
      | some s => some (s, { fs with bc := bc1 })
  else none

/-- The C function `inode_doubly_indirect`. -/
def inode_doubly_indirect (doubly_indirect : Nat) (index : Int) (fs : FS) :
    Option (Nat × FS) :=
  if 0 ≤ index ∧ index < 16384 then
    match buffer_cache_read fs.bc doubly_indirect with
    | none => none
    | some (data, bc1) =>
      match (words_of_sector data)[(Int.tdiv index 128).toNat]? with
      | none => none
      | some s => inode_single_indirect s (Int.tmod index 128) { fs with bc := bc1 }
  else none

/-- The C function `byte_to_sector`; the result `-1` is `2 ^ 32 - 1`.  A negative
index into `direct` is a failure. -/
def byte_to_sector (ino : inode) (pos : Int) (fs : FS) : Option (Nat × FS) :=
  if pos < ino.data.length then
    let index := Int.tdiv pos BLOCK_SECTOR_SIZE
    if index < DIRECT_BLOCKS then
      if index < 0 then none
      else
        match ino.data.direct[index.toNat]? with
        | none => none
        | some s => some (s, fs)
    else if index < DIRECT_BLOCKS + INDIRECT_SIZE then
      inode_single_indirect ino.data.indirect (index - DIRECT_BLOCKS) fs
    else
      inode_doubly_indirect ino.data.doubly_indirect (index - DIRECT_BLOCKS - INDIRECT_SIZE) fs
  else some (2 ^ 32 - 1, fs)

/-- The `n` bytes at `buf + ofs`. -/
def bytes_at (buf : List Nat) (ofs n : Nat) : List Nat :=
  (List.range n).map (fun k => buf.getD (ofs + k) 0)

/-- The C library function `memcpy (dst + ofs, src, n)` on a buffer, where `src`
holds the `n` bytes. -/
def memcpy (dst : List Nat) (ofs : Nat) (src : List Nat) : List Nat :=
  dst.take ofs ++ src ++ dst.drop (ofs + src.length)

/-- The loop `while (size > 0)` of `inode_write_at` with `fuel` iterations left;
`m` tells whether the `malloc` of the bounce buffer succeeds.  The result is
`bytes_written`. -/
def inode_write_loop (m : Bool) (ino : inode) (buffer : List Nat) :
    Nat → Int → Int → Int → FS → Option (Int × FS)
  | 0, _, _, _, _ => none
  | fuel + 1, size, offset, bytes_written, fs =>
    if size > 0 then
      match byte_to_sector ino offset fs with
      | none => none
      | some (sector_idx, fs1) =>
        let sector_ofs := Int.tmod offset BLOCK_SECTOR_SIZE
        let inode_left := ino.data.length - offset
        let sector_left := (BLOCK_SECTOR_SIZE : Int) - sector_ofs
        let min_left := if inode_left < sector_left then inode_left else sector_left
        let chunk_size := if size < min_left then size else min_left
        if chunk_size ≤ 0 then some (bytes_written, fs1)
        else if sector_ofs = 0 ∧ chunk_size = BLOCK_SECTOR_SIZE then
          match buffer_cache_write fs1.bc sector_idx
              (bytes_at buffer bytes_written.toNat BLOCK_SECTOR_SIZE) with
          | none => none
          | some bc2 =>
            inode_write_loop m ino buffer fuel (size - chunk_size) (offset + chunk_size)
              (bytes_written + chunk_size) { fs1 with bc := bc2 }
        else if m then
          match (if sector_ofs > 0 ∨ chunk_size < sector_left then
                   buffer_cache_read fs1.bc sector_idx
                 else some (zeros, fs1.bc)) with
          | none => none
          | some (bounce, bc2) =>
            match buffer_cache_write bc2 sector_idx
                (memcpy bounce sector_ofs.toNat
                  (bytes_at buffer bytes_written.toNat chunk_size.toNat)) with
            | none => none
            | some bc3 =>
              inode_write_loop m ino buffer fuel (size - chunk_size) (offset + chunk_size)
                (bytes_written + chunk_size) { fs1 with bc := bc3 }
        else some (bytes_written, fs1)
    else some (bytes_written, fs)

/-- The C function `inode_write_at`; `buffer` holds the `size` bytes to write
and `m` tells whether the `malloc` of the bounce buffer succeeds.  The result
is the number of bytes written, the inode and the state. -/
def inode_write_at (m : Bool) (ino : inode) (buffer : List Nat) (size offset : Int) (fs : FS) :
    Option (Int × inode × FS) :=
  if ino.deny_write_cnt ≠ 0 then some (0, ino, fs)
  else
    match byte_to_sector ino (offset + size - 1) fs with
    | none => none
    | some (sec, fs1) =>
      match (if sec = 2 ^ 32 - 1 then
               let data1 : inode_disk := { ino.data with length := offset + size }
               match inode_extend data1 (bytes_to_sectors data1.length) fs1 with
               | none => none
               | some (_, data2, fs2) =>
                 match buffer_cache_write fs2.bc ino.sector
                     (sector_of_words (inode_disk_words data2)) with
                 | none => none
                 | some bc3 => some ({ ino with data := data2 }, { fs2 with bc := bc3 })
             else some (ino, fs1)) with
      | none => none
      | some (ino1, fs3) =>
        match inode_write_loop m ino1 buffer (size.toNat + 1) size offset 0 fs3 with
        | none => none
        | some (n, fs4) => some (n, ino1, fs4)

/-- The loop `while (size > 0)` of `inode_read_at` with `fuel` iterations left;
`out` holds the `bytes_read` bytes copied to the caller's buffer so far. -/
def inode_read_loop (m : Bool) (ino : inode) :
    Nat → Int → Int → List Nat → FS → Option (List Nat × FS)
  | 0, _, _, _, _ => none
  | fuel + 1, size, offset, out, fs =>
    if size > 0 then
      match byte_to_sector ino offset fs with
      | none => none
      | some (sector_idx, fs1) =>
        let sector_ofs := Int.tmod offset BLOCK_SECTOR_SIZE
        let inode_left := ino.data.length - offset
        let sector_left := (BLOCK_SECTOR_SIZE : Int) - sector_ofs
        let min_left := if inode_left < sector_left then inode_left else sector_left
        let chunk_size := if size < min_left then size else min_left
        if chunk_size ≤ 0 then some (out, fs1)
        else if sector_ofs = 0 ∧ chunk_size = BLOCK_SECTOR_SIZE then
          match buffer_cache_read fs1.bc sector_idx with
          | none => none
          | some (data, bc2) =>
            inode_read_loop m ino fuel (size - chunk_size) (offset + chunk_size)
              (out ++ bytes_at data 0 BLOCK_SECTOR_SIZE) { fs1 with bc := bc2 }
        else if m then
          match buffer_cache_read fs1.bc sector_idx with
          | none => none
          | some (bounce, bc2) =>
            inode_read_loop m ino fuel (size - chunk_size) (offset + chunk_size)
              (out ++ bytes_at bounce sector_ofs.toNat chunk_size.toNat) { fs1 with bc := bc2 }
        else some (out, fs1)
    else some (out, fs)

/-- The C function `inode_read_at`: the bytes copied to the caller's buffer
(their number is the result of the C function) and the state. -/
def inode_read_at (m : Bool) (ino : inode) (size offset : Int) (fs : FS) :
    Option (List Nat × FS) :=
  inode_read_loop m ino (size.toNat + 1) size offset [] fs

end Filesys

/-! ## The swap stores as transition systems -/

namespace Task4

end Task4

/-! ## Example states -/

/-- A world without pages, mappings, swap device or files. -/
def empty_world : World :=
  { pages := fun _ => none
    registry := fun _ => none
    pagedir := fun _ _ => none
    user_esp := fun _ => 0
    swap := { device := none, bitmap := [], sectors := fun _ _ => 0 }
    mem := fun _ => 0
    files := fun _ => [] }

/-- Two frames: frame 0 is locked by thread 2, frame 1 is free and unlocked. -/
def two_frames_vm : VM :=
  { frames := [{ lock := some 2, base := 0, page := some 5 }, { lock := none, base := 4096, page := none }]
    hand := 0
    w := empty_world }

/-- The state `two_frames_vm` after thread 1 was given frame 1 for page 7. -/
def two_frames_vm_after : VM :=
  { frames := [{ lock := some 2, base := 0, page := some 5 }, { lock := some 1, base := 4096, page := some 7 }]
    hand := 0
    w := empty_world }

/-- Three frames: frame 0 holds page 5 (recently accessed) and is unlocked,
frame 1 is locked by thread 2, frame 2 is free and unlocked.  Page 5 belongs to
thread 3 and lives at user address 4096. -/
def sweep_vm : VM :=
  { frames := [{ lock := none, base := 0, page := some 5 },
               { lock := some 2, base := 4096, page := some 6 },
               { lock := none, base := 8192, page := none }]
    hand := 0
    w := { empty_world with
           pages := fun p =>
             if p = 5 then
               some { addr := 4096, read_only := false, thread := 3, frame := some 0,
                      sector := SECTOR_NONE, private_ := true, file := none, file_offset := 0,
                      file_bytes := 0 }
             else none
           pagedir := fun t a =>
             if t = 3 ∧ a = 4096 then
               some { present := true, kpage := 0, writable := true, accessed := true,
                      dirty := false }
             else none } }

/-- The state `sweep_vm` after the eviction sweep of thread 1 for page 7: the
accessed bit of page 5 is cleared and frame 2 is handed out. -/
def sweep_vm_after : VM :=
  { frames := [{ lock := none, base := 0, page := some 5 },
               { lock := some 2, base := 4096, page := some 6 },
               { lock := some 1, base := 8192, page := some 7 }]
    hand := 0
    w := { sweep_vm.w with pagedir := pagedir_set_accessed sweep_vm.w.pagedir 3 4096 false } }

/-- A page of thread 3 at user address 4096 that is not resident and has
neither a swap slot nor a backing file. -/
def fresh_page : Page :=
  { addr := 4096, read_only := false, thread := 3, frame := none, sector := SECTOR_NONE,
    private_ := true, file := none, file_offset := 0, file_bytes := 0 }

/-- A pool of one free frame after boot; page 7 is registered and not resident. -/
def boot_vm : VM :=
  { frames := [{ lock := none, base := 0, page := none }]
    hand := 0
    w := { empty_world with pages := fun p => if p = 7 then some fresh_page else none } }

/-- The state `boot_vm` after thread 1 made page 7 resident in frame 0. -/
def boot_vm_resident : VM :=
  { frames := [{ lock := some 1, base := 0, page := some 7 }]
    hand := 0
    w := set_page_frame boot_vm.w 7 (some 0) }

/-- A pool of one frame that holds page 5, recently accessed, with a free lock. -/
def full_vm : VM :=
  { frames := [{ lock := none, base := 0, page := some 5 }]
    hand := 0
    w := { empty_world with
           pages := fun p => if p = 5 then some { fresh_page with frame := some 0 } else none
           pagedir := fun t a =>
             if t = 3 ∧ a = 4096 then
               some { present := true, kpage := 0, writable := true, accessed := true,
                      dirty := true }
             else none } }

/-- A pool of one frame locked by thread 1 that holds page 5; the swap device
has 16 sectors, so that with 512-byte sectors the bitmap has two free slots. -/
def swap_vm : VM :=
  { frames := [{ lock := some 1, base := 0, page := some 5 }]
    hand := 0
    w := { empty_world with
           pages := fun p => if p = 5 then some { fresh_page with frame := some 0 } else none
           swap := swap_init 512 (some 16) (fun _ _ => 0)
           mem := fun a => a % 256 } }

/-- The pool `boot_vm` where page 7 is backed by file 9 from offset 2 with
`file_bytes = 4`; file 9 holds 8 bytes and memory is filled with 255. -/
def file_vm : VM :=
  { boot_vm with
    w := { empty_world with
           pages := fun p =>
             if p = 7 then
               some { fresh_page with file := some 9, file_offset := 2, file_bytes := 4 }
             else none
           mem := fun _ => 255
           files := fun fl => if fl = 9 then [1, 2, 3, 4, 5, 6, 7, 8] else [] } }

/-- The pool `file_vm` when file 9 holds only the three bytes 1, 2, 3 and the
page is backed from offset 0. -/
def short_file_vm : VM :=
  { boot_vm with
    w := { empty_world with
           pages := fun p =>
             if p = 7 then
               some { fresh_page with file := some 9, file_offset := 0, file_bytes := 100 }
             else none
           mem := fun _ => 255
           files := fun fl => if fl = 9 then [1, 2, 3] else [] } }

/-- The state in which `load_page` leaves `file_vm` when thread 1 loads page 7. -/
def file_vm_loaded : VM :=
  match load_page page_out (swap_in 512) 1 7 file_vm with
  | some (_, s) => s
  | none => file_vm

/-- The state in which `load_page` leaves `short_file_vm` when thread 1 loads
page 7. -/
def short_file_vm_loaded : VM :=
  match load_page page_out (swap_in 512) 1 7 short_file_vm with
  | some (_, s) => s
  | none => short_file_vm

/-- The registry of thread 3 holds page 7 at user address 4096; the saved user
stack pointer of thread 3 is `0xbffffff0`. -/
def stack_world : World :=
  { empty_world with
    pages := fun p => if p = 7 then some fresh_page else none
    registry := fun t => if t = 3 then some [7] else none
    user_esp := fun t => if t = 3 then 3221225456 else 0 }

/-- The world `stack_world` where page 7 is swapped out to the slot at sector 0
of a 16-sector swap device, whose bitmap of two slots has slot 0 in use. -/
def swapped_vm : VM :=
  { frames := [{ lock := none, base := 0, page := none }]
    hand := 0
    w := { stack_world with
           pages := fun p => if p = 7 then some { fresh_page with sector := 0 } else none
           swap := { device := some 16, bitmap := [true, false], sectors := fun _ _ => 0 } } }

/-- The state in which `page_deallocate` of thread 3 leaves `swapped_vm` for the
address 4100 of page 7. -/
def swapped_vm_after : VM :=
  match page_deallocate page_out frame_free 3221225472 3 none 4100 swapped_vm with
  | some s => s
  | none => swapped_vm

/-- The pool `full_vm` with frame 0 locked by thread 1 and a swap device of 16
sectors whose two slots are free; page 5 is dirty and has no backing file. -/
def dirty_vm : VM :=
  { frames := [{ lock := some 1, base := 0, page := some 5 }]
    hand := 0
    w := { full_vm.w with swap := swap_init 512 (some 16) (fun _ _ => 0) } }

/-- A pool of one frame that holds page 5 and is locked by thread 2; thread 3
has page 7 registered at user address 4096, not resident. -/
def pinned_vm : VM :=
  { frames := [{ lock := some 2, base := 0, page := some 5 }]
    hand := 0
    w := stack_world }

/-- The pool `short_file_vm` where page 7 is in the registry of thread 3. -/
def short_file_fault_vm : VM :=
  { short_file_vm with
    w := { short_file_vm.w with registry := fun t => if t = 3 then some [7] else none } }

/-- The state in which `page_in` of thread 3 for the address 4100 leaves
`short_file_fault_vm`. -/
def short_file_fault_vm_after : VM :=
  match page_in 3221225472 page_out (swap_in 512) 3 none true 4100 short_file_fault_vm with
  | some (_, s) => s
  | none => short_file_fault_vm

/-- The pool `boot_vm` (one free frame) where the zero-fill page 7 is in the
registry of thread 3. -/
def fault_vm : VM :=
  { boot_vm with w := stack_world }

/-- The world `stack_world` where the registered page 7 is read-only. -/
def read_only_vm : VM :=
  { boot_vm with
    w := { stack_world with
           pages := fun p => if p = 7 then some { fresh_page with read_only := true } else none } }

/-- Page 7 of thread 3 is resident in frame 0, whose lock thread 2 holds. -/
def evicting_vm : VM :=
  { frames := [{ lock := some 2, base := 0, page := some 7 }]
    hand := 0
    w := { empty_world with
           pages := fun p => if p = 7 then some { fresh_page with frame := some 0 } else none } }

/-- The state `evicting_vm` after thread 2 evicted page 7, gave frame 0 to page 9
and released the lock. -/
def evicted_vm : VM :=
  { frames := [{ lock := none, base := 0, page := some 9 }]
    hand := 0
    w := { empty_world with
           pages := fun p =>
             if p = 7 then some { fresh_page with sector := 0 }
             else if p = 9 then some { fresh_page with addr := 8192, frame := some 0 }
             else none } }

/-- What the other threads do while the caller sleeps, in the example for
`frame_alloc_and_lock`: the owner of frame 0 frees it. -/
def free_frame_zero (s : VM) : VM :=
  { s with frames := s.frames.set 0 { lock := none, base := 0, page := none } }

/-- The state in which `frame_alloc_and_lock` of thread 3 for page 7 leaves
`pinned_vm` when frame 0 is freed during the first sleep. -/
def pinned_vm_after : VM :=
  match frame_alloc_and_lock_scans free_frame_zero page_out 3 7 3 pinned_vm with
  | some (_, s, _) => s
  | none => pinned_vm

/-- Two unlocked frames that hold the pages 5 and 6; the accessed bit of page 5
(thread 3, user address 4096) is clear. -/
def idle_vm : VM :=
  { frames := [{ lock := none, base := 0, page := some 5 },
               { lock := none, base := 4096, page := some 6 }]
    hand := 0
    w := { empty_world with
           pages := fun p => if p = 5 then some { fresh_page with frame := some 0 } else none
           pagedir := fun t a =>
             if t = 3 ∧ a = 4096 then
               some { present := true, kpage := 0, writable := true, accessed := false,
                      dirty := false }
             else none } }

/-- The state in which `page_lock` of thread 3 for the address 4100 leaves
`fault_vm` when `pagedir_set_page` fails. -/
def fault_vm_pinned : VM :=
  match page_lock 3221225472 page_out (swap_in 512) 3 none false 4100 false fault_vm with
  | some (_, s) => s
  | none => fault_vm

/-- The state in which `page_in` of thread 3 for the address 4100 leaves
`fault_vm` when `pagedir_set_page` fails: page 7 is resident in frame 0, which
is unlocked, and has no hardware mapping. -/
def fault_vm_unmapped : VM :=
  match page_in 3221225472 page_out (swap_in 512) 3 none false 4100 fault_vm with
  | some (_, s) => s
  | none => fault_vm

/-- The state in which `page_lock` of thread 3 for the address 4100 leaves
`fault_vm_unmapped`. -/
def fault_vm_unmapped_pinned : VM :=
  match page_lock 3221225472 page_out (swap_in 512) 3 none true 4100 false fault_vm_unmapped with
  | some (_, s) => s
  | none => fault_vm_unmapped

/-- A supplemental page table entry for a user page that is installed in a
frame. -/
def installed_entry (page frame : Nat) : Task4.sptEntry :=
  { page := page, frame := some frame, status := Task4.STATUS.INSTALLED, block_idx := 0,
    dirty := false, file := none, ofs := 0, read_bytes := 0, zero_bytes := 0, writable := true }

/-- Thread 3 has the user page 4096 installed in the frame at 8192; the swap
device has 8 sectors, all of them in use. -/
def full_swap_state : Task4.State :=
  { all_frames := [{ frame := 8192, page := 4096, pagedir := 3 }]
    ft := [{ frame := 8192, page := 4096, pagedir := 3 }]
    spt := fun t => if t = 3 then some [installed_entry 4096 8192] else none
    pagedir := fun t a =>
      if t = 3 ∧ a = 4096 then
        some { present := true, kpage := 8192, writable := true, accessed := false,
               dirty := true }
      else none
    pool := []
    swap := { device := some 8, bitmap := List.replicate 8 true, sectors := fun _ _ => 0 }
    mem := fun _ => 0 }

/-- Threads 1 and 2 each have the user page 4096 installed: thread 1 in the
frame at 4096, whose bytes are all 17, thread 2 in the frame at 8192, whose
bytes are all 34.  The frame of thread 1 is at the front of `all_frames`, the
user pool is empty, and the swap device of 16 sectors is unused. -/
def shared_addr_state : Task4.State :=
  { all_frames := [{ frame := 4096, page := 4096, pagedir := 1 },
                   { frame := 8192, page := 4096, pagedir := 2 }]
    ft := [{ frame := 4096, page := 4096, pagedir := 1 },
           { frame := 8192, page := 4096, pagedir := 2 }]
    spt := fun t =>
      if t = 1 then some [installed_entry 4096 4096]
      else if t = 2 then some [installed_entry 4096 8192]
      else none
    pagedir := fun t a =>
      if t = 1 ∧ a = 4096 then
        some { present := true, kpage := 4096, writable := true, accessed := false,
               dirty := true }
      else if t = 2 ∧ a = 4096 then
        some { present := true, kpage := 8192, writable := true, accessed := false,
               dirty := true }
      else none
    pool := []
    swap := { device := some 16, bitmap := List.replicate 16 false, sectors := fun _ _ => 0 }
    mem := fun a => if a < 8192 then 17 else 34 }

/-- The state in which `frame_alloc` of thread 2 for the user page 8192 leaves
`shared_addr_state`. -/
def shared_addr_state_after : Task4.State :=
  match Task4.frame_alloc 512 2 true 8192 shared_addr_state with
  | some (_, s) => s
  | none => shared_addr_state

/-- The static variables of `filesys/cache.c` when the kernel starts, with a
device of 8 sectors; sector `s` holds the bytes `s, s + 1`. -/
def boot_cache : Filesys.BufferCache :=
  { cache := List.replicate 64
      { occupied := false, disk_sector := 0, buffer := [], dirty := false, access := false }
    clock := 0
    fs_device := { size := 8, data := fun s => [s, s + 1] } }

/-- A file system whose device has 16 sectors, each filled with the byte 7,
whose cache is empty and whose free map has no free sector. -/
def full_disk_fs : Filesys.FS :=
  { bc := Filesys.buffer_cache_init
      { cache := List.replicate 64
          { occupied := false, disk_sector := 0, buffer := [], dirty := false, access := false }
        clock := 0
        fs_device := { size := 16, data := fun _ => List.replicate 512 7 } }
    free_map := [] }

/-- The state in which `inode_create (5, 1, false)` leaves `full_disk_fs`. -/
def full_disk_fs_after : Filesys.FS :=
  match Filesys.inode_create true 5 1 false full_disk_fs with
  | some (_, fs) => fs
  | none => full_disk_fs

/-- An empty file whose inode is in sector 5, with writes allowed. -/
def empty_inode : Filesys.inode :=
  { sector := 5, open_cnt := 1, removed := false, deny_write_cnt := 0
    data := { length := 0, direct := List.replicate 12 0, indirect := 0, doubly_indirect := 0,
              is_dir := 0, magic := Filesys.INODE_MAGIC, unused := List.replicate 111 0 }
    is_dir := false }

/-- Every frame of the pool is lockable and occupied by a page that is
resident in it. -/
def AllResident (s : VM) : Prop :=
  ∀ i f, s.frames[i]? = some f →
    f.lock = none ∧ ∃ q pg, f.page = some q ∧ s.w.pages q = some pg ∧ pg.frame = some i

/-- An eviction hook that succeeds on every resident page whose frame lock the
caller holds. -/
def HookSucceeds (po : PageOut) (cur : Tid) : Prop :=
  ∀ (F : List Frame) (q : PagePtr) (w : World) (pg : Page) (fi : Nat) (f : Frame),
    w.pages q = some pg → pg.frame = some fi → F[fi]? = some f → f.lock = some cur →
    ∃ w1, po cur F q w = some (true, w1)

/-- The owner of frame `i` in the pool of `s` has a clear accessed bit in `sk`. -/
def OwnerBitClear (s sk : VM) (i : Nat) : Prop :=
  ∀ f q pg, s.frames[i]? = some f → f.page = some q → s.w.pages q = some pg →
    pagedir_is_accessed sk.w.pagedir pg.thread pg.addr = false

/-- The `n` bytes at `base` are the bytes of file `fl` from offset `ofs`. -/
def FrameHoldsFile (w : World) (base fl ofs n : Nat) : Prop :=
  ∀ k, k < n → (w.files fl)[ofs + k]? = some (w.mem (base + k))

/-- The bytes `[lo, hi)` of the page at `base` are zero. -/
def FrameZero (w : World) (base lo hi : Nat) : Prop :=
  ∀ k, lo ≤ k → k < hi → w.mem (base + k) = 0

/-- The state after `k` visits of the eviction sweep none of which returned a
frame (`none` when one of them returned a frame or failed an assertion). -/
def after_visits (po : PageOut) (cur : Tid) (page : PagePtr) : Nat → VM → Option VM
  | 0, s => some s
  | k + 1, s =>
    match visit po cur page s with
    | some (Visit.next s1) => after_visits po cur page k s1
    | _ => none

/-- The frame under the clock hand is taken by a visit in state `s`: its lock
is free and it is either free or its owner has a clear accessed bit
(`page_recently_accessed` returns false) and `page_out` succeeds on it. -/
def Candidate (po : PageOut) (cur : Tid) (s : VM) : Prop :=
  ∃ f, s.frames[s.hand]? = some f ∧ f.lock = none ∧
    (f.page = none ∨
      ∃ q w1 w2, f.page = some q ∧
        page_recently_accessed cur (s.frames.set s.hand { f with lock := some cur }) q s.w
          = some (false, w1) ∧
        po cur (s.frames.set s.hand { f with lock := some cur }) q w1 = some (true, w2))

/-- Every frame lock that `cur` holds in `F` is the lock of the frame `r` or was
already held by `cur` in `F0`. -/
def LocksWithin (cur : Tid) (F0 F : List Frame) (r : Option Nat) : Prop :=
  ∀ j f, F[j]? = some f → f.lock = some cur →
    r = some j ∨ ∃ f0, F0[j]? = some f0 ∧ f0.lock = some cur

/-- Frame `i` of `F` is owned by `page` and locked by `cur`. -/
def BoundLocked (cur : Tid) (page : PagePtr) (F : List Frame) (i : Nat) : Prop :=
  ∃ f, F[i]? = some f ∧ f.page = some page ∧ f.lock = some cur

/-- The buffer `pc` holds the queue `q`: the oldest character is at `con_index`,
the next free place is `pro_index`, and `count` is the length of `q`. -/
def ProconInv (pc : procon) (q : List Nat) : Prop :=
  pc.size = 10 ∧ 0 ≤ pc.con_index ∧ pc.con_index < pc.size ∧
  pc.count = (q.length : Int) ∧ pc.count ≤ pc.size ∧
  pc.pro_index = (pc.con_index + pc.count) % pc.size ∧
  ∀ (i : Nat) (c : Nat), q[i]? = some c → pc.buffer ((pc.con_index + (i : Int)) % pc.size) = c

/-- The entries agree in everything but the access bit. -/
def SameButAccess (e1 e2 : Filesys.buffer_cache_entry_t) : Prop :=
  e1.occupied = e2.occupied ∧ e1.disk_sector = e2.disk_sector ∧ e1.buffer = e2.buffer ∧
  e1.dirty = e2.dirty

/-- The arrays have the same length and agree, entry by entry, in everything
but the access bits. -/
def SameEntries (l1 l2 : List Filesys.buffer_cache_entry_t) : Prop :=
  l1.length = l2.length ∧
  ∀ (i : Nat) (e1 : Filesys.buffer_cache_entry_t), l1[i]? = some e1 →
    ∃ e2, l2[i]? = some e2 ∧ SameButAccess e1 e2

/-- No two occupied entries of the cache hold the same sector. -/
def DistinctSectors (c : Filesys.BufferCache) : Prop :=
  ∀ (i j : Nat) (ei ej : Filesys.buffer_cache_entry_t),
    c.cache[i]? = some ei → c.cache[j]? = some ej →
    ei.occupied = true → ej.occupied = true → ei.disk_sector = ej.disk_sector → i = j

/-- The invariant of the cache: the array has `BUFFER_CACHE_SIZE` entries, the
clock is an index of it, occupied entries hold sectors of the device, no two of
them the same sector, and an occupied entry that is not dirty holds what the
device holds. -/
def CacheInv (c : Filesys.BufferCache) : Prop :=
  c.cache.length = Filesys.BUFFER_CACHE_SIZE ∧ c.clock < Filesys.BUFFER_CACHE_SIZE ∧
  (∀ (i : Nat) (e : Filesys.buffer_cache_entry_t), c.cache[i]? = some e →
    e.occupied = true → e.disk_sector < c.fs_device.size) ∧
  DistinctSectors c ∧
  (∀ (i : Nat) (e : Filesys.buffer_cache_entry_t), c.cache[i]? = some e →
    e.occupied = true → e.dirty = false → e.buffer = c.fs_device.data e.disk_sector)

/-- The cache `c` with its device holds, for every sector, the data of the
uncached store `d`: in the occupied entry for the sector if there is one, on
the device otherwise. -/
def Refines (c : Filesys.BufferCache) (d : Filesys.Disk) : Prop :=
  d.size = c.fs_device.size ∧
  ∀ s : Nat,
    (∃ (i : Nat) (e : Filesys.buffer_cache_entry_t), c.cache[i]? = some e ∧
        e.occupied = true ∧ e.disk_sector = s ∧ e.buffer = d.data s) ∨
    ((∀ (i : Nat) (e : Filesys.buffer_cache_entry_t), c.cache[i]? = some e →
        e.occupied = true → e.disk_sector ≠ s) ∧
      c.fs_device.data s = d.data s)

theorem locksWithin_refl (cur : Tid) (F : List Frame) (r : Option Nat) :
    LocksWithin cur F F r :=
  fun _ f hj hl => Or.inr ⟨f, hj, hl⟩

theorem locksWithin_trans {cur : Tid} {F0 F1 F2 : List Frame} {r : Option Nat}
    (h1 : LocksWithin cur F0 F1 none) (h2 : LocksWithin cur F1 F2 r) :
    LocksWithin cur F0 F2 r := by
  intro j f hj hl
  rcases h2 j f hj hl with h | ⟨f1, hf1, hl1⟩
  · exact Or.inl h
  · rcases h1 j f1 hf1 hl1 with h | h
    · cases h
    · exact Or.inr h

theorem locksWithin_set_unheld {cur : Tid} {F : List Frame} {i : Nat} {g : Frame}
    (hg : g.lock ≠ some cur) : LocksWithin cur F (F.set i g) none := by
  intro j f hj hl
  rw [List.getElem?_set] at hj
  split at hj
  · split at hj
    · cases hj; exact absurd hl hg
    · cases hj
  · exact Or.inr ⟨f, hj, hl⟩

theorem locksWithin_set_result {cur : Tid} {F : List Frame} {i : Nat} {g : Frame} :
    LocksWithin cur F (F.set i g) (some i) := by
  intro j f hj hl
  rw [List.getElem?_set] at hj
  split at hj
  · next h => exact Or.inl (by rw [h])
  · exact Or.inr ⟨f, hj, hl⟩

theorem locksWithin_weaken {cur : Tid} {F0 F : List Frame} {r : Option Nat}
    (h : LocksWithin cur F0 F none) : LocksWithin cur F0 F r := by
  intro j f hj hl
  rcases h j f hj hl with h | h
  · cases h
  · exact Or.inr h

theorem release_frame_lock_lock (cur : Tid) (f : Frame) :
    (release_frame_lock cur f).lock ≠ some cur := by
  unfold release_frame_lock lock_held_by_current_thread
  by_cases h : f.lock = some cur
  · simp [h]
  · simp [h]

theorem release_frame_lock_page (cur : Tid) (f : Frame) :
    (release_frame_lock cur f).page = f.page := by
  unfold release_frame_lock
  split <;> rfl

theorem try_lock_frame_page (cur : Tid) (f : Frame) :
    (try_lock_frame cur f).2.page = f.page := by
  unfold try_lock_frame
  split <;> rfl

theorem try_lock_frame_true {cur : Tid} {f : Frame} (h : (try_lock_frame cur f).1 = true) :
    f.lock = none ∧ (try_lock_frame cur f).2 = { f with lock := some cur } := by
  unfold try_lock_frame at h ⊢
  split at h
  · next hl => simp [hl]
  · cases h

theorem try_lock_frame_false {cur : Tid} {f : Frame} (h : (try_lock_frame cur f).1 = false) :
    f.lock ≠ none ∧ (try_lock_frame cur f).2 = f := by
  unfold try_lock_frame at h ⊢
  split at h
  · cases h
  · next hl => simp [hl]

theorem find_free_frame_loop_spec (cur : Tid) (page : PagePtr) :
    ∀ (fuel i : Nat) (F : List Frame) (r : Option Nat) (F1 : List Frame),
      find_free_frame_loop cur page fuel i F = (r, F1) →
      LocksWithin cur F F1 r ∧ (∀ k, r = some k → BoundLocked cur page F1 k) := by
  intro fuel
  induction fuel with
  | zero =>
    intro i F r F1 h
    simp only [find_free_frame_loop, Prod.mk.injEq] at h
    obtain ⟨rfl, rfl⟩ := h
    exact ⟨locksWithin_refl _ _ _, fun k hk => by cases hk⟩
  | succ n ih =>
    intro i F r F1 h
    simp only [find_free_frame_loop] at h
    split at h
    · simp only [Prod.mk.injEq] at h
      obtain ⟨rfl, rfl⟩ := h
      exact ⟨locksWithin_refl _ _ _, fun k hk => by cases hk⟩
    · next f hf =>
      split at h
      · next hc =>
        simp only [Prod.mk.injEq] at h
        obtain ⟨rfl, rfl⟩ := h
        simp only [Bool.and_eq_true] at hc
        obtain ⟨ht, _⟩ := hc
        obtain ⟨_, he⟩ := try_lock_frame_true ht
        refine ⟨locksWithin_set_result, ?_⟩
        intro k hk
        cases hk
        have hi : i < F.length := by
          rcases List.getElem?_eq_some_iff.mp hf with ⟨hlt, _⟩
          exact hlt
        exact ⟨_, List.getElem?_set_self hi, rfl, by rw [he]⟩
      · obtain ⟨h1, h2⟩ := ih _ _ _ _ h
        exact ⟨locksWithin_trans (locksWithin_set_unheld (release_frame_lock_lock _ _)) h1, h2⟩

theorem evict_frame_spec {po : PageOut} {cur : Tid} {i : Nat} {page : PagePtr} {s s1 : VM}
    {b : Bool} (h : evict_frame po cur i page s = some (b, s1)) :
    s1.hand = s.hand ∧
    ∃ f g, s.frames[i]? = some f ∧ s1.frames = s.frames.set i g ∧
      (b = true → g = { f with page := some page }) ∧
      (b = false → g = release_frame_lock cur f) := by
  unfold evict_frame at h
  split at h
  · cases h
  · next f hf =>
    split at h
    · cases h
    · split at h
      · cases h
      · simp only [Option.some.injEq, Prod.mk.injEq] at h
        obtain ⟨rfl, rfl⟩ := h
        refine ⟨rfl, f, _, hf, rfl, ?_, ?_⟩
        · intro hb; cases hb
        · intro _; rfl
      · simp only [Option.some.injEq, Prod.mk.injEq] at h
        obtain ⟨rfl, rfl⟩ := h
        refine ⟨rfl, f, _, hf, rfl, ?_, ?_⟩
        · intro _; rfl
        · intro hb; cases hb

theorem visit_found_spec {po : PageOut} {cur : Tid} {page : PagePtr} {s s1 : VM} {i : Nat}
    (h : visit po cur page s = some (Visit.found i s1)) :
    LocksWithin cur s.frames s1.frames (some i) ∧ BoundLocked cur page s1.frames i := by
  unfold visit at h
  split at h
  · cases h
  · next f hf =>
    have hi : s.hand < s.frames.length := (List.getElem?_eq_some_iff.mp hf).1
    simp only at h
    split at h
    · next ht =>
      obtain ⟨_, he⟩ := try_lock_frame_true ht
      split at h
      · simp only [Option.some.injEq, Visit.found.injEq] at h
        obtain ⟨rfl, rfl⟩ := h
        simp only [List.set_set]
        refine ⟨locksWithin_set_result, _, List.getElem?_set_self hi, rfl, ?_⟩
        rw [he]
      · split at h
        · cases h
        · split at h
          · cases h
          · cases h
          · split at h
            · cases h
            · next s3 he3 =>
              simp only [Option.some.injEq, Visit.found.injEq] at h
              obtain ⟨rfl, rfl⟩ := h
              obtain ⟨_, f2, g, hf2, hs3, hg, _⟩ := evict_frame_spec he3
              simp only at hf2 hs3
              rw [List.getElem?_set_self hi] at hf2
              cases hf2
              rw [hs3, List.set_set]
              refine ⟨locksWithin_set_result, _, List.getElem?_set_self hi, ?_, ?_⟩
              · rw [hg rfl]
              · rw [hg rfl, he]
            · split at h <;> cases h
    · cases h

theorem visit_next_spec {po : PageOut} {cur : Tid} {page : PagePtr} {s s1 : VM}
    (h : visit po cur page s = some (Visit.next s1)) :
    LocksWithin cur s.frames s1.frames none := by
  unfold visit at h
  split at h
  · cases h
  · next f hf =>
    simp only at h
    split at h
    · next ht =>
      split at h
      · cases h
      · split at h
        · cases h
        · split at h
          · cases h
          · simp only [Option.some.injEq, Visit.next.injEq] at h
            subst h
            simp only [List.set_set]
            exact locksWithin_set_unheld (release_frame_lock_lock _ _)
          · split at h
            · cases h
            · cases h
            · next s3 he3 =>
              split at h
              · cases h
              · simp only [Option.some.injEq, Visit.next.injEq] at h
                subst h
                obtain ⟨_, f2, g, _, hs3, _, _⟩ := evict_frame_spec he3
                simp only at hs3
                simp only [hs3, List.set_set]
                exact locksWithin_set_unheld (release_frame_lock_lock _ _)
    · next ht =>
      simp only [Option.some.injEq, Visit.next.injEq] at h
      subst h
      exact locksWithin_refl _ _ _

theorem find_eviction_frame_loop_spec (po : PageOut) (cur : Tid) (page : PagePtr) :
    ∀ (fuel : Nat) (s : VM) (r : Option Nat) (s1 : VM),
      find_eviction_frame_loop po cur page fuel s = some (r, s1) →
      LocksWithin cur s.frames s1.frames r ∧ (∀ k, r = some k → BoundLocked cur page s1.frames k) := by
  intro fuel
  induction fuel with
  | zero =>
    intro s r s1 h
    simp only [find_eviction_frame_loop, Option.some.injEq, Prod.mk.injEq] at h
    obtain ⟨rfl, rfl⟩ := h
    exact ⟨locksWithin_refl _ _ _, fun k hk => by cases hk⟩
  | succ n ih =>
    intro s r s1 h
    simp only [find_eviction_frame_loop] at h
    split at h
    · cases h
    · next i s2 hv =>
      simp only [Option.some.injEq, Prod.mk.injEq] at h
      obtain ⟨rfl, rfl⟩ := h
      obtain ⟨h1, h2⟩ := visit_found_spec hv
      exact ⟨h1, fun k hk => by cases hk; exact h2⟩
    · next s2 hv =>
      obtain ⟨h1, h2⟩ := ih _ _ _ h
      exact ⟨locksWithin_trans (visit_next_spec hv) h1, h2⟩

theorem allocate_frame_spec {po : PageOut} {cur : Tid} {page : PagePtr} {s s1 : VM}
    {r : Option Nat} (h : allocate_frame po cur page s = some (r, s1)) :
    LocksWithin cur s.frames s1.frames r ∧ (∀ k, r = some k → BoundLocked cur page s1.frames k) := by
  unfold allocate_frame find_free_frame at h
  split at h
  · next i F1 hff =>
    simp only [Option.some.injEq, Prod.mk.injEq] at h
    obtain ⟨rfl, rfl⟩ := h
    exact find_free_frame_loop_spec cur page _ _ _ _ _ hff
  · next F1 hff =>
    obtain ⟨h1, _⟩ := find_free_frame_loop_spec cur page _ _ _ _ _ hff
    obtain ⟨h2, h3⟩ := find_eviction_frame_loop_spec po cur page _ _ _ _ h
    exact ⟨locksWithin_trans h1 h2, h3⟩

theorem frame_alloc_and_lock_loop_spec (po : PageOut) (cur : Tid) (page : PagePtr) :
    ∀ (tries : Nat) (s : VM) (r : Option Nat) (s1 : VM),
      frame_alloc_and_lock_loop po cur page tries s = some (r, s1) →
      LocksWithin cur s.frames s1.frames r ∧ (∀ k, r = some k → BoundLocked cur page s1.frames k) := by
  intro tries
  induction tries with
  | zero =>
    intro s r s1 h
    simp only [frame_alloc_and_lock_loop, Option.some.injEq, Prod.mk.injEq] at h
    obtain ⟨rfl, rfl⟩ := h
    exact ⟨locksWithin_refl _ _ _, fun k hk => by cases hk⟩
  | succ n ih =>
    intro s r s1 h
    simp only [frame_alloc_and_lock_loop] at h
    split at h
    · cases h
    · next i s2 ha =>
      split at h
      · cases h
      · split at h
        · simp only [Option.some.injEq, Prod.mk.injEq] at h
          obtain ⟨rfl, rfl⟩ := h
          exact allocate_frame_spec ha
        · cases h
    · next s2 ha =>
      obtain ⟨h1, _⟩ := allocate_frame_spec ha
      obtain ⟨h2, h3⟩ := ih _ _ _ h
      exact ⟨locksWithin_trans h1 h2, h3⟩

/-! ## One visit of the eviction sweep -/

theorem set_getElem?_self {α : Type} :
    ∀ (l : List α) (i : Nat) (a : α), l[i]? = some a → l.set i a = l := by
  intro l
  induction l with
  | nil => intro i a _; rfl
  | cons x xs ih =>
    intro i a h
    cases i with
    | zero =>
      simp only [List.getElem?_cons_zero, Option.some.injEq] at h
      subst h
      rfl
    | succ n =>
      simp only [List.getElem?_cons_succ] at h
      simp only [List.set_cons_succ, ih n a h]

theorem visit_locked {po : PageOut} {cur : Tid} {page : PagePtr} {s : VM} {f : Frame} {t : Tid}
    (hf : s.frames[s.hand]? = some f) (hl : f.lock = some t) :
    visit po cur page s = some (Visit.next { s with hand := (s.hand + 1) % s.frames.length }) := by
  unfold visit
  rw [hf]
  simp [try_lock_frame, hl]

theorem visit_free {po : PageOut} {cur : Tid} {page : PagePtr} {s : VM} {f : Frame}
    (hf : s.frames[s.hand]? = some f) (hl : f.lock = none) (hp : f.page = none) :
    visit po cur page s = some (Visit.found s.hand
      { s with hand := (s.hand + 1) % s.frames.length
               frames := s.frames.set s.hand { f with lock := some cur, page := some page } }) := by
  unfold visit
  rw [hf]
  simp [try_lock_frame, hl, is_frame_free, hp, List.set_set]

theorem visit_occupied {po : PageOut} {cur : Tid} {page : PagePtr} {s : VM} {f : Frame}
    {q : PagePtr}
    (hf : s.frames[s.hand]? = some f) (hl : f.lock = none) (hp : f.page = some q) :
    visit po cur page s =
      match page_recently_accessed cur (s.frames.set s.hand { f with lock := some cur }) q s.w with
      | none => none
      | some (true, w1) =>
        some (Visit.next { s with hand := (s.hand + 1) % s.frames.length, w := w1 })
      | some (false, w1) =>
        match po cur (s.frames.set s.hand { f with lock := some cur }) q w1 with
        | none => none
        | some (true, w2) =>
          some (Visit.found s.hand
            { hand := (s.hand + 1) % s.frames.length
              frames := s.frames.set s.hand { f with lock := some cur, page := some page }
              w := w2 })
        | some (false, w2) =>
          some (Visit.next { s with hand := (s.hand + 1) % s.frames.length, w := w2 }) := by
  have hi : s.hand < s.frames.length := (List.getElem?_eq_some_iff.mp hf).1
  obtain ⟨l, b, pg⟩ := f
  simp only at hl hp
  subst hl hp
  have hrel : release_frame_lock cur { lock := some cur, base := b, page := some q }
      = { lock := none, base := b, page := some q } := by
    simp [release_frame_lock, lock_held_by_current_thread]
  have hrel2 : release_frame_lock cur { lock := none, base := b, page := some q }
      = { lock := none, base := b, page := some q } := by
    simp [release_frame_lock, lock_held_by_current_thread]
  unfold visit
  rw [hf]
  simp only [try_lock_frame, is_frame_free, Option.isNone_some, Bool.false_eq_true,
    if_false, if_true]
  cases hpr : page_recently_accessed cur
      (s.frames.set s.hand { lock := some cur, base := b, page := some q }) q s.w with
  | none => rfl
  | some bw =>
    obtain ⟨b1, w1⟩ := bw
    cases b1 with
    | true =>
      simp only [List.set_set, hrel, set_getElem?_self _ _ _ hf]
    | false =>
      simp only [evict_frame, List.getElem?_set_self hi]
      cases hpo : po cur (s.frames.set s.hand { lock := some cur, base := b, page := some q }) q w1 with
      | none => rfl
      | some bw2 =>
        obtain ⟨b2, w2⟩ := bw2
        cases b2 with
        | true => simp only [List.set_set]
        | false =>
          simp only [List.set_set, hrel, set_getElem?_self _ _ _ hf, hf, hrel2]

theorem candidate_visit {po : PageOut} {cur : Tid} {page : PagePtr} {s : VM}
    (h : Candidate po cur s) : ∃ s1, visit po cur page s = some (Visit.found s.hand s1) := by
  obtain ⟨f, hf, hl, hc⟩ := h
  rcases hc with hp | ⟨q, w1, w2, hp, hpr, hpo⟩
  · exact ⟨_, visit_free hf hl hp⟩
  · rw [visit_occupied hf hl hp, hpr]
    simp only [hpo]
    exact ⟨_, rfl⟩

theorem visit_found_candidate {po : PageOut} {cur : Tid} {page : PagePtr} {s s1 : VM} {i : Nat}
    (h : visit po cur page s = some (Visit.found i s1)) : i = s.hand ∧ Candidate po cur s := by
  cases hf : s.frames[s.hand]? with
  | none => simp [visit, hf] at h
  | some f =>
    cases hl : f.lock with
    | some t => rw [visit_locked hf hl] at h; cases h
    | none =>
      cases hp : f.page with
      | none =>
        rw [visit_free hf hl hp] at h
        simp only [Option.some.injEq, Visit.found.injEq] at h
        exact ⟨h.1.symm, f, hf, hl, Or.inl hp⟩
      | some q =>
        rw [visit_occupied hf hl hp] at h
        split at h
        · cases h
        · cases h
        · next w1 hpr =>
          split at h
          · cases h
          · next w2 hpo =>
            simp only [Option.some.injEq, Visit.found.injEq] at h
            exact ⟨h.1.symm, f, hf, hl, Or.inr ⟨q, w1, w2, hp, hpr, hpo⟩⟩
          · cases h

theorem visit_next_not_candidate {po : PageOut} {cur : Tid} {page : PagePtr} {s s1 : VM}
    (h : visit po cur page s = some (Visit.next s1)) : ¬ Candidate po cur s := by
  intro hc
  obtain ⟨s2, h2⟩ := @candidate_visit po cur page s hc
  rw [h2] at h
  cases h

theorem visit_next_hand {po : PageOut} {cur : Tid} {page : PagePtr} {s s1 : VM}
    (h : visit po cur page s = some (Visit.next s1)) :
    s1.hand = (s.hand + 1) % s.frames.length ∧ s1.frames.length = s.frames.length := by
  cases hf : s.frames[s.hand]? with
  | none => simp [visit, hf] at h
  | some f =>
    cases hl : f.lock with
    | some t =>
      rw [visit_locked hf hl] at h
      simp only [Option.some.injEq, Visit.next.injEq] at h
      subst h
      exact ⟨rfl, rfl⟩
    | none =>
      cases hp : f.page with
      | none => rw [visit_free hf hl hp] at h; cases h
      | some q =>
        rw [visit_occupied hf hl hp] at h
        split at h
        · cases h
        · simp only [Option.some.injEq, Visit.next.injEq] at h
          subst h
          exact ⟨rfl, rfl⟩
        · split at h
          · cases h
          · cases h
          · simp only [Option.some.injEq, Visit.next.injEq] at h
            subst h
            exact ⟨rfl, rfl⟩

theorem find_eviction_frame_loop_first (po : PageOut) (cur : Tid) (page : PagePtr) :
    ∀ (fuel : Nat) (s s1 : VM) (i : Nat),
      find_eviction_frame_loop po cur page fuel s = some (some i, s1) →
      ∃ k sk, k < fuel ∧ after_visits po cur page k s = some sk ∧ sk.hand = i ∧
        i = (s.hand + k) % s.frames.length ∧ Candidate po cur sk ∧
        ∀ j, j < k → ∃ sj, after_visits po cur page j s = some sj ∧ ¬ Candidate po cur sj := by
  intro fuel
  induction fuel with
  | zero => intro s s1 i h; simp [find_eviction_frame_loop] at h
  | succ n ih =>
    intro s s1 i h
    simp only [find_eviction_frame_loop] at h
    split at h
    · cases h
    · next i2 s2 hv =>
      simp only [Option.some.injEq, Prod.mk.injEq] at h
      obtain ⟨hi, _⟩ := h
      subst hi
      obtain ⟨hh, hc⟩ := visit_found_candidate hv
      obtain ⟨f, hf, hrest⟩ := hc
      have hlt : s.hand < s.frames.length := (List.getElem?_eq_some_iff.mp hf).1
      refine ⟨0, s, Nat.succ_pos n, rfl, hh.symm, ?_, ⟨f, hf, hrest⟩, ?_⟩
      · rw [hh, Nat.add_zero, Nat.mod_eq_of_lt hlt]
      · intro j hj; cases hj
    · next s2 hv =>
      obtain ⟨k, sk, hk, hav, hhand, hidx, hc, hbefore⟩ := ih s2 s1 i h
      obtain ⟨hh2, hlen⟩ := visit_next_hand hv
      refine ⟨k + 1, sk, Nat.succ_lt_succ hk, ?_, hhand, ?_, hc, ?_⟩
      · simp only [after_visits, hv, hav]
      · rw [hidx, hh2, hlen, Nat.mod_add_mod]
        congr 1
        omega
      · intro j hj
        cases j with
        | zero => exact ⟨s, rfl, visit_next_not_candidate hv⟩
        | succ j =>
          obtain ⟨sj, h1, h2⟩ := hbefore j (Nat.lt_of_succ_lt_succ hj)
          exact ⟨sj, by simp only [after_visits, hv, h1], h2⟩

/-! ## C3: the frame returned by `frame_alloc_and_lock` -/

/-- C3: whenever `frame_alloc_and_lock (page)` returns, a non-null result `i` is a
frame owned by `page` whose lock the caller holds; every frame lock the caller
holds afterwards is that frame's or was already held before the call (so no
lock taken during the scan is left behind, in particular when the result is
NULL); and every frame that `allocate_frame` returns is locked by the caller,
which is what the `ASSERT` of `frame_alloc_and_lock` checks.  This holds for
every eviction hook `po`. -/
theorem frame_alloc_and_lock_locked_and_bound (po : PageOut) (cur : Tid) (page : PagePtr)
    (s s1 : VM) (r : Option Nat)
    (h : frame_alloc_and_lock po cur page s = some (r, s1)) :
    (∀ i, r = some i →
      ∃ f, s1.frames[i]? = some f ∧ f.page = some page ∧ f.lock = some cur) ∧
    (∀ j f, s1.frames[j]? = some f → f.lock = some cur →
      r = some j ∨ ∃ f0, s.frames[j]? = some f0 ∧ f0.lock = some cur) ∧
    (∀ (s0 s2 : VM) (i : Nat), allocate_frame po cur page s0 = some (some i, s2) →
      ∃ f, s2.frames[i]? = some f ∧ lock_held_by_current_thread cur f = true) := by
  obtain ⟨h1, h2⟩ := frame_alloc_and_lock_loop_spec po cur page 3 s r s1 h
  refine ⟨h2, h1, ?_⟩
  intro s0 s2 i ha
  obtain ⟨_, h3⟩ := allocate_frame_spec ha
  obtain ⟨f, hf, _, hl⟩ := h3 i rfl
  exact ⟨f, hf, by simp [lock_held_by_current_thread, hl]⟩

/-- C3, witness: thread 1 asks for a frame for page 7 in `two_frames_vm`. -/
theorem frame_alloc_and_lock_locked_and_bound_witness :
    frame_alloc_and_lock page_out 1 7 two_frames_vm = some (some 1, two_frames_vm_after) ∧
    (∀ i, some 1 = some i →
      ∃ f, two_frames_vm_after.frames[i]? = some f ∧ f.page = some 7 ∧ f.lock = some 1) :=
  ⟨rfl, (frame_alloc_and_lock_locked_and_bound page_out 1 7 two_frames_vm two_frames_vm_after
    (some 1) rfl).1⟩

/-! ## C4: the second-chance sweep -/

theorem pagedir_is_accessed_set_false (pd : Tid → Nat → Option PTE) (t : Tid) (a : Nat) :
    pagedir_is_accessed (pagedir_set_accessed pd t a false) t a = false := by
  unfold pagedir_is_accessed pagedir_set_accessed
  cases h : pd t a <;> simp

theorem page_recently_accessed_set {cur : Tid} {F : List Frame} {i : Nat} {f : Frame}
    {q : PagePtr} {w : World} {pg : Page}
    (hf : F[i]? = some f) (hq : w.pages q = some pg) (hfr : pg.frame = some i)
    (ha : pagedir_is_accessed w.pagedir pg.thread pg.addr = true) :
    page_recently_accessed cur (F.set i { f with lock := some cur }) q w =
      some (true, { w with pagedir := pagedir_set_accessed w.pagedir pg.thread pg.addr false }) := by
  have hi : i < F.length := (List.getElem?_eq_some_iff.mp hf).1
  simp [page_recently_accessed, hq, hfr, List.getElem?_set_self hi,
    lock_held_by_current_thread, ha]

/-- C4: in the eviction sweep (a) an occupied, lockable frame under the hand
whose owner's accessed bit is set is not evicted on that visit: the sweep goes
on with the frame table unchanged (same owner, lock free again) and the bit
cleared; (b) a frame whose lock is held is skipped, only the hand moves; (c) a
frame returned by `find_eviction_frame` is the frame of the first visit, in
circular order from the clock hand, whose frame is lockable and either free or
has a clear accessed bit and a successful `page_out`.  This holds for every
eviction hook `po`. -/
theorem find_eviction_frame_second_chance (po : PageOut) (cur : Tid) (page : PagePtr) :
    (∀ (s : VM) (f : Frame) (q : PagePtr) (pg : Page),
      s.frames[s.hand]? = some f → f.lock = none → f.page = some q →
      s.w.pages q = some pg → pg.frame = some s.hand →
      pagedir_is_accessed s.w.pagedir pg.thread pg.addr = true →
      ∃ s1, visit po cur page s = some (Visit.next s1) ∧ s1.frames = s.frames ∧
        s1.hand = (s.hand + 1) % s.frames.length ∧ s1.w.pages = s.w.pages ∧
        pagedir_is_accessed s1.w.pagedir pg.thread pg.addr = false) ∧
    (∀ (s : VM) (f : Frame) (t : Tid),
      s.frames[s.hand]? = some f → f.lock = some t →
      visit po cur page s = some (Visit.next { s with hand := (s.hand + 1) % s.frames.length })) ∧
    (∀ (s s1 : VM) (i : Nat),
      find_eviction_frame po cur page s = some (some i, s1) →
      ∃ k sk, k < s.frames.length * 2 ∧ after_visits po cur page k s = some sk ∧ sk.hand = i ∧
        i = (s.hand + k) % s.frames.length ∧ Candidate po cur sk ∧
        ∀ j, j < k → ∃ sj, after_visits po cur page j s = some sj ∧ ¬ Candidate po cur sj) := by
  refine ⟨?_, ?_, ?_⟩
  · intro s f q pg hf hl hp hq hfr ha
    rw [visit_occupied hf hl hp, page_recently_accessed_set hf hq hfr ha]
    exact ⟨_, rfl, rfl, rfl, rfl, pagedir_is_accessed_set_false _ _ _⟩
  · intro s f t hf hl
    exact visit_locked hf hl
  · intro s s1 i h
    exact find_eviction_frame_loop_first po cur page _ s s1 i h

/-- C4, witness: the sweep of thread 1 over `sweep_vm` gives page 5 a second
chance, skips the locked frame 1 and returns the free frame 2. -/
theorem find_eviction_frame_second_chance_witness :
    find_eviction_frame page_out 1 7 sweep_vm = some (some 2, sweep_vm_after) ∧
    (∃ k sk, k < sweep_vm.frames.length * 2 ∧ after_visits page_out 1 7 k sweep_vm = some sk ∧
        sk.hand = 2 ∧ 2 = (sweep_vm.hand + k) % sweep_vm.frames.length ∧
        Candidate page_out 1 sk ∧
        ∀ j, j < k → ∃ sj, after_visits page_out 1 7 j sweep_vm = some sj ∧
          ¬ Candidate page_out 1 sj) :=
  ⟨rfl, (find_eviction_frame_second_chance page_out 1 7).2.2 sweep_vm sweep_vm_after 2 rfl⟩

/-! ## C1: bindings between pages and frames -/

theorem bound_set {F : List Frame} {w : World} {i : Nat} {f g : Frame}
    (hb : Bound F w) (hf : F[i]? = some f) (hg : g.page = f.page ∨ f.page = none) :
    Bound (F.set i g) w := by
  intro p pg j hp hfr
  obtain ⟨f1, hf1, hpage⟩ := hb p pg j hp hfr
  have hi : i < F.length := (List.getElem?_eq_some_iff.mp hf).1
  by_cases hij : i = j
  · subst hij
    rw [hf] at hf1
    cases hf1
    rcases hg with hg | hg
    · exact ⟨g, List.getElem?_set_self hi, by rw [hg]; exact hpage⟩
    · rw [hg] at hpage; cases hpage
  · exact ⟨f1, by rw [List.getElem?_set_ne hij]; exact hf1, hpage⟩

theorem bound_world {F : List Frame} {w w1 : World} (hb : Bound F w)
    (h : ∀ p pg1 i, w1.pages p = some pg1 → pg1.frame = some i →
      ∃ pg, w.pages p = some pg ∧ pg.frame = some i) : Bound F w1 := by
  intro p pg1 i hp hfr
  obtain ⟨pg, hp0, hfr0⟩ := h p pg1 i hp hfr
  exact hb p pg i hp0 hfr0

theorem bound_evict {F : List Frame} {w w1 : World} {i : Nat} {f g : Frame} {q : PagePtr}
    (hb : Bound F w) (hf : F[i]? = some f) (hq : f.page = some q)
    (h : ∀ p pg1 j, w1.pages p = some pg1 → pg1.frame = some j →
      ∃ pg, w.pages p = some pg ∧ pg.frame = some j)
    (hc : ∀ pg1, w1.pages q = some pg1 → pg1.frame = none) :
    Bound (F.set i g) w1 := by
  intro p pg1 j hp hfr
  obtain ⟨pg, hp0, hfr0⟩ := h p pg1 j hp hfr
  obtain ⟨f1, hf1, hpage⟩ := hb p pg j hp0 hfr0
  by_cases hij : i = j
  · subst hij
    rw [hf] at hf1
    cases hf1
    rw [hq] at hpage
    cases hpage
    rw [hc pg1 hp] at hfr
    cases hfr
  · exact ⟨f1, by rw [List.getElem?_set_ne hij]; exact hf1, hpage⟩

theorem page_recently_accessed_pages {cur : Tid} {F : List Frame} {p : PagePtr} {w w1 : World}
    {b : Bool} (h : page_recently_accessed cur F p w = some (b, w1)) : w1.pages = w.pages := by
  unfold page_recently_accessed at h
  split at h
  · cases h
  · split at h
    · cases h
    · split at h
      · cases h
      · split at h
        · simp only at h
          split at h
          · simp only [Option.some.injEq, Prod.mk.injEq] at h
            obtain ⟨_, rfl⟩ := h
            rfl
          · simp only [Option.some.injEq, Prod.mk.injEq] at h
            obtain ⟨_, rfl⟩ := h
            rfl
        · cases h

theorem find_free_frame_loop_bound (cur : Tid) (page : PagePtr) :
    ∀ (fuel i : Nat) (F : List Frame) (r : Option Nat) (F1 : List Frame),
      find_free_frame_loop cur page fuel i F = (r, F1) →
      F1.length = F.length ∧ ∀ w, Bound F w → Bound F1 w := by
  intro fuel
  induction fuel with
  | zero =>
    intro i F r F1 h
    simp only [find_free_frame_loop, Prod.mk.injEq] at h
    obtain ⟨_, rfl⟩ := h
    exact ⟨rfl, fun _ hb => hb⟩
  | succ n ih =>
    intro i F r F1 h
    simp only [find_free_frame_loop] at h
    split at h
    · simp only [Prod.mk.injEq] at h
      obtain ⟨_, rfl⟩ := h
      exact ⟨rfl, fun _ hb => hb⟩
    · next f hf =>
      split at h
      · next hc =>
        simp only [Prod.mk.injEq] at h
        obtain ⟨_, rfl⟩ := h
        simp only [Bool.and_eq_true] at hc
        refine ⟨List.length_set _ _ _, fun w hb => bound_set hb hf (Or.inr ?_)⟩
        have := hc.2
        rw [is_frame_free, try_lock_frame_page] at this
        simpa using this
      · obtain ⟨h1, h2⟩ := ih _ _ _ _ h
        refine ⟨by rw [h1, List.length_set], fun w hb => h2 w (bound_set hb hf (Or.inl ?_))⟩
        rw [release_frame_lock_page, try_lock_frame_page]

theorem visit_bound {po : PageOut} (hpo : ClearsEvicted po) {cur : Tid} {page : PagePtr}
    {s : VM} {v : Visit} (h : visit po cur page s = some v) :
    v.state.frames.length = s.frames.length ∧
    (Bound s.frames s.w → Bound v.state.frames v.state.w) := by
  cases hf : s.frames[s.hand]? with
  | none => simp [visit, hf] at h
  | some f =>
    cases hl : f.lock with
    | some t =>
      rw [visit_locked hf hl] at h
      cases h
      exact ⟨rfl, fun hb => hb⟩
    | none =>
      cases hp : f.page with
      | none =>
        rw [visit_free hf hl hp] at h
        cases h
        exact ⟨List.length_set _ _ _, fun hb => bound_set hb hf (Or.inr hp)⟩
      | some q =>
        rw [visit_occupied hf hl hp] at h
        split at h
        · cases h
        · next w1 hpr =>
          cases h
          refine ⟨rfl, fun hb => bound_world hb ?_⟩
          intro p pg1 i h1 h2
          simp only [Visit.state] at h1
          rw [page_recently_accessed_pages hpr] at h1
          exact ⟨pg1, h1, h2⟩
        · next w1 hpr =>
          have hpages := page_recently_accessed_pages hpr
          split at h
          · cases h
          · next w2 hpo2 =>
            cases h
            obtain ⟨hn, hc⟩ := hpo _ _ _ _ _ _ hpo2
            refine ⟨List.length_set _ _ _, fun hb => bound_evict hb hf hp ?_ (hc rfl)⟩
            intro p pg1 j h1 h2
            obtain ⟨pg, h3, h4⟩ := hn p pg1 j h1 h2
            rw [hpages] at h3
            exact ⟨pg, h3, h4⟩
          · next w2 hpo2 =>
            cases h
            obtain ⟨hn, _⟩ := hpo _ _ _ _ _ _ hpo2
            refine ⟨rfl, fun hb => bound_world hb ?_⟩
            intro p pg1 j h1 h2
            obtain ⟨pg, h3, h4⟩ := hn p pg1 j h1 h2
            rw [hpages] at h3
            exact ⟨pg, h3, h4⟩

theorem find_eviction_frame_loop_bound {po : PageOut} (hpo : ClearsEvicted po) (cur : Tid)
    (page : PagePtr) :
    ∀ (fuel : Nat) (s : VM) (r : Option Nat) (s1 : VM),
      find_eviction_frame_loop po cur page fuel s = some (r, s1) →
      s1.frames.length = s.frames.length ∧ (Bound s.frames s.w → Bound s1.frames s1.w) := by
  intro fuel
  induction fuel with
  | zero =>
    intro s r s1 h
    simp only [find_eviction_frame_loop, Option.some.injEq, Prod.mk.injEq] at h
    obtain ⟨_, rfl⟩ := h
    exact ⟨rfl, fun hb => hb⟩
  | succ n ih =>
    intro s r s1 h
    simp only [find_eviction_frame_loop] at h
    split at h
    · cases h
    · next i s2 hv =>
      simp only [Option.some.injEq, Prod.mk.injEq] at h
      obtain ⟨_, rfl⟩ := h
      exact visit_bound hpo hv
    · next s2 hv =>
      obtain ⟨h1, h2⟩ := visit_bound hpo hv
      obtain ⟨h3, h4⟩ := ih _ _ _ h
      exact ⟨h3.trans h1, fun hb => h4 (h2 hb)⟩

theorem allocate_frame_bound {po : PageOut} (hpo : ClearsEvicted po) {cur : Tid}
    {page : PagePtr} {s s1 : VM} {r : Option Nat}
    (h : allocate_frame po cur page s = some (r, s1)) :
    s1.frames.length = s.frames.length ∧ (Bound s.frames s.w → Bound s1.frames s1.w) := by
  unfold allocate_frame find_free_frame at h
  split at h
  · next i F1 hff =>
    simp only [Option.some.injEq, Prod.mk.injEq] at h
    obtain ⟨_, rfl⟩ := h
    obtain ⟨h1, h2⟩ := find_free_frame_loop_bound cur page _ _ _ _ _ hff
    exact ⟨h1, fun hb => h2 _ hb⟩
  · next F1 hff =>
    obtain ⟨h1, h2⟩ := find_free_frame_loop_bound cur page _ _ _ _ _ hff
    obtain ⟨h3, h4⟩ := find_eviction_frame_loop_bound hpo cur page _ _ _ _ h
    exact ⟨h3.trans h1, fun hb => h4 (h2 _ hb)⟩

theorem frame_alloc_and_lock_loop_bound {po : PageOut} (hpo : ClearsEvicted po) (cur : Tid)
    (page : PagePtr) :
    ∀ (tries : Nat) (s : VM) (r : Option Nat) (s1 : VM),
      frame_alloc_and_lock_loop po cur page tries s = some (r, s1) →
      s1.frames.length = s.frames.length ∧ (Bound s.frames s.w → Bound s1.frames s1.w) := by
  intro tries
  induction tries with
  | zero =>
    intro s r s1 h
    simp only [frame_alloc_and_lock_loop, Option.some.injEq, Prod.mk.injEq] at h
    obtain ⟨_, rfl⟩ := h
    exact ⟨rfl, fun hb => hb⟩
  | succ n ih =>
    intro s r s1 h
    simp only [frame_alloc_and_lock_loop] at h
    split at h
    · cases h
    · next i s2 ha =>
      split at h
      · cases h
      · split at h
        · simp only [Option.some.injEq, Prod.mk.injEq] at h
          obtain ⟨_, rfl⟩ := h
          exact allocate_frame_bound hpo ha
        · cases h
    · next s2 ha =>
      obtain ⟨h1, h2⟩ := allocate_frame_bound hpo ha
      obtain ⟨h3, h4⟩ := ih _ _ _ h
      exact ⟨h3.trans h1, fun hb => h4 (h2 hb)⟩

theorem step_bound {po : PageOut} (hpo : ClearsEvicted po) {s s1 : VM} (h : Step po s s1) :
    s1.frames.length = s.frames.length ∧ (Bound s.frames s.w → Bound s1.frames s1.w) := by
  cases h with
  | alloc s2 t p pg r hp hfr ha =>
    obtain ⟨h1, h2⟩ := frame_alloc_and_lock_loop_bound hpo t p 3 s r s2 ha
    obtain ⟨_, h3⟩ := frame_alloc_and_lock_loop_spec po t p 3 s r s2 ha
    refine ⟨h1, fun hb => ?_⟩
    have hb2 := h2 hb
    intro x pgx i hx hfx
    simp only [set_page_frame] at hx
    split at hx
    · next hxp =>
      subst hxp
      cases hpx : s2.w.pages x with
      | none => rw [hpx] at hx; cases hx
      | some pg2 =>
        rw [hpx] at hx
        simp only [Option.map_some', Option.some.injEq] at hx
        subst hx
        simp only at hfx
        obtain ⟨f, hf, hpage, _⟩ := h3 i hfx
        exact ⟨f, hf, hpage⟩
    · exact hb2 x pgx i hx hfx
  | release t p pg i F1 hp hfr hfree =>
    unfold frame_free at hfree
    split at hfree
    · cases hfree
    · next f hf =>
      split at hfree
      · simp only [Option.some.injEq] at hfree
        subst hfree
        refine ⟨List.length_set _ _ _, fun hb => ?_⟩
        intro x pgx j hx hfx
        simp only [free_page] at hx
        split at hx
        · cases hx
        · next hxp =>
          obtain ⟨f1, hf1, hpage⟩ := hb x pgx j hx hfx
          by_cases hij : i = j
          · subst hij
            obtain ⟨f2, hf2, hpage2⟩ := hb p pg i hp hfr
            rw [hf1] at hf2
            cases hf2
            rw [hpage] at hpage2
            cases hpage2
            exact absurd rfl hxp
          · exact ⟨f1, by rw [List.getElem?_set_ne hij]; exact hf1, hpage⟩
      · cases hfree
  | unlock t i F1 hu =>
    unfold frame_unlock at hu
    split at hu
    · cases hu
    · next f hf =>
      split at hu
      · simp only [Option.some.injEq] at hu
        subst hu
        exact ⟨List.length_set _ _ _, fun hb => bound_set hb hf (Or.inl rfl)⟩
      · cases hu
  | lock t i f hf hl =>
    exact ⟨List.length_set _ _ _, fun hb => bound_set hb hf (Or.inl rfl)⟩
  | env w1 hw =>
    exact ⟨rfl, fun hb => bound_world hb hw⟩

theorem reachable_bound {po : PageOut} (hpo : ClearsEvicted po) {s0 s : VM}
    (h0 : Initial s0) (h : Reachable po s0 s) :
    s.frames.length = s0.frames.length ∧ Bound s.frames s.w := by
  induction h with
  | start =>
    refine ⟨rfl, ?_⟩
    intro p pg i hp hfr
    rw [h0.2.2 p pg hp] at hfr
    cases hfr
  | step s1 s2 _ hs ih =>
    obtain ⟨h1, h2⟩ := step_bound hpo hs
    exact ⟨h1.trans ih.1, h2 ih.2⟩

theorem page_out_clearsEvicted : ClearsEvicted page_out := by
  intro cur F q w b w1 h
  unfold page_out at h
  split at h
  · cases h
  · split at h
    · cases h
    · split at h
      · cases h
      · split at h
        · simp only [Option.some.injEq, Prod.mk.injEq] at h
          obtain ⟨rfl, rfl⟩ := h
          exact ⟨fun p pg1 i h1 h2 => ⟨pg1, h1, h2⟩, fun hb => by cases hb⟩
        · cases h

/-- C1: in every state reachable from an initial frame table (all frames free)
by `frame_alloc_and_lock` (with the evictions of its sweep), `frame_free`,
locking and unlocking, (1) a page that claims a frame is the one owner that the
frame records, (2) no two distinct pages claim the same frame, and (3) the
number of frames with an owner is at most `frame_cnt`, the size of the initial
table, which never changes.  This holds for every eviction hook that clears the
frame reference of the page it evicts. -/
theorem frame_table_single_owner (po : PageOut) (hpo : ClearsEvicted po) (s0 s : VM)
    (h0 : Initial s0) (h : Reachable po s0 s) :
    (∀ p pg i, s.w.pages p = some pg → pg.frame = some i →
      ∃ f, s.frames[i]? = some f ∧ f.page = some p) ∧
    (∀ p q pgp pgq i, s.w.pages p = some pgp → s.w.pages q = some pgq →
      pgp.frame = some i → pgq.frame = some i → p = q) ∧
    s.frames.length = s0.frames.length ∧
    owned_frames s.frames ≤ s0.frames.length := by
  obtain ⟨hlen, hb⟩ := reachable_bound hpo h0 h
  refine ⟨hb, ?_, hlen, ?_⟩
  · intro p q pgp pgq i hp hq hfp hfq
    obtain ⟨f1, hf1, hp1⟩ := hb p pgp i hp hfp
    obtain ⟨f2, hf2, hp2⟩ := hb q pgq i hq hfq
    rw [hf1] at hf2
    cases hf2
    rw [hp1] at hp2
    exact Option.some.inj hp2
  · rw [← hlen]
    exact List.length_filter_le _ _

/-- C1, witness: `boot_vm_resident` is reached from `boot_vm` by one
`frame_alloc_and_lock`, and page 7 is the owner recorded in frame 0. -/
theorem frame_table_single_owner_witness :
    Initial boot_vm ∧ Reachable page_out boot_vm boot_vm_resident ∧
    (∀ p pg i, boot_vm_resident.w.pages p = some pg → pg.frame = some i →
      ∃ f, boot_vm_resident.frames[i]? = some f ∧ f.page = some p) :=
  have hi : Initial boot_vm := by
    refine ⟨?_, rfl, ?_⟩
    · intro f hf
      simp only [boot_vm, List.mem_singleton] at hf
      subst hf
      exact ⟨rfl, rfl⟩
    · intro p pg hp
      simp only [boot_vm] at hp
      split at hp
      · cases hp; rfl
      · cases hp
  have hr : Reachable page_out boot_vm boot_vm_resident :=
    Reachable.step boot_vm boot_vm_resident Reachable.start
      (Step.alloc boot_vm
        { frames := [{ lock := some 1, base := 0, page := some 7 }], hand := 0, w := boot_vm.w }
        1 7 fresh_page (some 0) rfl rfl rfl)
  ⟨hi, hr, (frame_table_single_owner page_out page_out_clearsEvicted boot_vm boot_vm_resident
    hi hr).1⟩

/-! ## C5 and C9: the eviction hook of Task4 never succeeds -/

theorem page_out_fails {cur : Tid} {F : List Frame} {p : PagePtr} {w w1 : World} {b : Bool}
    (h : page_out cur F p w = some (b, w1)) :
    b = false ∧ w1.pages = w.pages ∧ w1.swap = w.swap := by
  unfold page_out at h
  split at h
  · cases h
  · split at h
    · cases h
    · split at h
      · cases h
      · split at h
        · simp only [Option.some.injEq, Prod.mk.injEq] at h
          obtain ⟨rfl, rfl⟩ := h
          exact ⟨rfl, rfl, rfl⟩
        · cases h

theorem visit_page_out_found_free {cur : Tid} {page : PagePtr} {s s1 : VM} {i : Nat}
    (h : visit page_out cur page s = some (Visit.found i s1)) :
    ∃ f, s.frames[i]? = some f ∧ f.page = none := by
  obtain ⟨hi, f, hf, _, hc⟩ := visit_found_candidate h
  subst hi
  rcases hc with hp | ⟨q, w1, w2, _, _, hpo⟩
  · exact ⟨f, hf, hp⟩
  · have := (page_out_fails hpo).1
    cases this

/-- C5: with the `page_out` of Task4 a pool of one frame that is occupied,
lockable and recently accessed yields no frame: `find_eviction_frame` returns
NULL after its two visits, and so does `frame_alloc_and_lock` after its three
attempts. -/
theorem full_pool_request_returns_null :
    (find_eviction_frame page_out 1 7 full_vm).map Prod.fst = some none ∧
    (frame_alloc_and_lock page_out 1 7 full_vm).map Prod.fst = some none := by
  constructor <;> rfl

/-! ## C2: the swap round trip -/

theorem bitmap_scan_one {b : List Bool} (h : false ∈ b) :
    ∃ slot, bitmap_scan b 0 1 false = some slot ∧ slot < b.length ∧ b[slot]? = some false := by
  have hlen : 1 ≤ b.length := List.length_pos_of_mem h
  obtain ⟨n, hn, hbn⟩ := List.getElem_of_mem h
  have hsome : ((List.range (b.length - 1 + 1)).find?
      (fun i => decide (0 ≤ i) && !bitmap_contains b i 1 (!false))).isSome = true := by
    rw [List.find?_isSome]
    refine ⟨n, List.mem_range.mpr (by omega), ?_⟩
    simp [bitmap_contains, List.getElem?_eq_getElem hn, hbn]
  obtain ⟨slot, hslot⟩ := Option.isSome_iff_exists.mp hsome
  have hmem := List.mem_of_find?_eq_some hslot
  have hp := List.find?_some hslot
  have hlt : slot < b.length := by
    have := List.mem_range.mp hmem
    omega
  refine ⟨slot, ?_, hlt, ?_⟩
  · unfold bitmap_scan
    rw [if_pos hlen]
    exact hslot
  · have hr1 : List.range 1 = [0] := rfl
    simp only [bitmap_contains, Nat.zero_le, decide_True, Bool.not_false, Bool.true_and,
      hr1, List.any_cons, Nat.add_zero, List.any_nil, Bool.or_false,
      Bool.not_eq_true', beq_eq_false_iff_ne, ne_eq] at hp
    rw [List.getElem?_eq_getElem hlt] at hp ⊢
    simp only [Option.some.injEq, Bool.not_eq_true] at hp
    rw [hp]

theorem find?_range_lowest (p : Nat → Bool) :
    ∀ (n i : Nat), (List.range n).find? p = some i → ∀ j, j < i → p j = false := by
  intro n
  induction n with
  | zero => intro i h; simp at h
  | succ n ih =>
    intro i h j hj
    rw [List.range_succ, List.find?_append] at h
    cases h1 : (List.range n).find? p with
    | some i1 =>
      rw [h1] at h
      simp only [Option.or_some, Option.some.injEq] at h
      subst h
      exact ih i1 h1 j hj
    | none =>
      rw [h1] at h
      simp only [Option.none_or, List.find?_cons, List.find?_nil] at h
      split at h
      · simp only [Option.some.injEq] at h
        subst h
        have h2 := List.find?_eq_none.mp h1 j (List.mem_range.mpr hj)
        simpa using h2
      · cases h

theorem bitmap_contains_one (b : List Bool) (i : Nat) (v : Bool) :
    bitmap_contains b i 1 v = (b[i]? == some v) := by
  have hr1 : List.range 1 = [0] := rfl
  simp [bitmap_contains, hr1]

theorem bitmap_scan_one_lowest {b : List Bool} {slot : Nat}
    (h : bitmap_scan b 0 1 false = some slot) :
    ∀ j, j < slot → b[j]? = some true := by
  unfold bitmap_scan at h
  split at h
  · intro j hj
    have hmem := List.mem_range.mp (List.mem_of_find?_eq_some h)
    have h2 := find?_range_lowest _ _ _ h j hj
    simp only [Nat.zero_le, decide_True, Bool.true_and, bitmap_contains_one, Bool.not_false,
      Bool.not_eq_false', beq_iff_eq] at h2
    exact h2
  · cases h

theorem bitmap_scan_full {b : List Bool} (h : ∀ x, x ∈ b → x = true) :
    bitmap_scan b 0 1 false = none := by
  unfold bitmap_scan
  split
  · rw [List.find?_eq_none]
    intro i hi
    have hlt : i < b.length := by
      have := List.mem_range.mp hi
      omega
    have hb : b[i] = true := h _ (List.getElem_mem hlt)
    simp [bitmap_contains_one, List.getElem?_eq_getElem hlt, hb]
  · rfl

theorem bitmap_scan_and_flip_one {b : List Bool} (h : false ∈ b) :
    ∃ slot, bitmap_scan_and_flip b 0 1 false = (some slot, b.set slot true) ∧
      slot < b.length ∧ b[slot]? = some false := by
  obtain ⟨slot, h1, h2, h3⟩ := bitmap_scan_one h
  refine ⟨slot, ?_, h2, h3⟩
  simp [bitmap_scan_and_flip, h1, bitmap_set_multiple]

theorem bitmap_scan_and_flip_lowest {b : List Bool} {slot : Nat} {b1 : List Bool}
    (h : bitmap_scan_and_flip b 0 1 false = (some slot, b1)) :
    ∀ j, j < slot → b[j]? = some true := by
  unfold bitmap_scan_and_flip at h
  split at h
  · cases h
  · next idx hs =>
    simp only [Prod.mk.injEq, Option.some.injEq] at h
    obtain ⟨rfl, _⟩ := h
    exact bitmap_scan_one_lowest hs

theorem write_to_swap_loop_spec (bss sector base : Nat) (mem : Nat → Nat) (size : Nat)
    (hsize : size < 2 ^ 32) :
    ∀ (n i : Nat) (sw : Swap), sw.device = some size → sector + i + n ≤ size →
      ∃ sw1, write_to_swap_loop bss sector base mem n i sw = some sw1 ∧
        sw1.device = sw.device ∧ sw1.bitmap = sw.bitmap ∧
        (∀ j o, i ≤ j → j < i + n → o < bss →
          sw1.sectors (sector + j) o = mem (base + j * bss + o)) ∧
        (∀ s o, s < sector + i → sw1.sectors s o = sw.sectors s o) := by
  intro n
  induction n with
  | zero =>
    intro i sw _ _
    exact ⟨sw, rfl, rfl, rfl, fun j o h1 h2 _ => by omega, fun _ _ _ => rfl⟩
  | succ n ih =>
    intro i sw hdev hr
    have hmod : (sector + i) % 2 ^ 32 = sector + i := Nat.mod_eq_of_lt (by omega)
    have hlt : sector + i < size := by omega
    obtain ⟨dev, bm, sec⟩ := sw
    simp only at hdev
    subst hdev
    simp only [write_to_swap_loop, block_write, hmod, if_pos hlt]
    obtain ⟨sw1, h1, h2, h3, h4, h5⟩ := ih (i + 1)
      { device := some size, bitmap := bm, sectors := fun s o =>
          if s = sector + i ∧ o < bss then mem (base + i * bss + o) else sec s o }
      rfl (by omega)
    refine ⟨sw1, h1, h2, h3, ?_, ?_⟩
    · intro j o hj1 hj2 ho
      by_cases hji : j = i
      · subst hji
        rw [h5 (sector + j) o (by omega)]
        simp [ho]
      · exact h4 j o (by omega) (by omega) ho
    · intro s o hs
      rw [h5 s o (by omega)]
      have : ¬ (s = sector + i ∧ o < bss) := by omega
      simp [this]

theorem read_from_swap_loop_spec (bss : Nat) (sw : Swap) (sector base : Nat) (size : Nat)
    (hdev : sw.device = some size) (hsize : size < 2 ^ 32) :
    ∀ (n i : Nat) (mem : Nat → Nat), sector + i + n ≤ size →
      ∃ mem1, read_from_swap_loop bss sw sector base n i mem = some mem1 ∧
        (∀ j o, i ≤ j → j < i + n → o < bss →
          mem1 (base + j * bss + o) = sw.sectors (sector + j) o) ∧
        (∀ a, a < base + i * bss → mem1 a = mem a) := by
  intro n
  induction n with
  | zero =>
    intro i mem _
    exact ⟨mem, rfl, fun j o h1 h2 _ => by omega, fun _ _ => rfl⟩
  | succ n ih =>
    intro i mem hr
    have hmod : (sector + i) % 2 ^ 32 = sector + i := Nat.mod_eq_of_lt (by omega)
    have hlt : sector + i < size := by omega
    simp only [read_from_swap_loop, block_read, hdev, hmod, if_pos hlt]
    obtain ⟨mem1, h1, h2, h3⟩ := ih (i + 1)
      (fun a => if base + i * bss ≤ a ∧ a < base + i * bss + bss
        then sw.sectors (sector + i) (a - (base + i * bss)) else mem a) (by omega)
    have hmul : (i + 1) * bss = i * bss + bss := Nat.succ_mul i bss
    refine ⟨mem1, h1, ?_, ?_⟩
    · intro j o hj1 hj2 ho
      by_cases hji : j = i
      · subst hji
        rw [h3 (base + j * bss + o) (by omega)]
        have hc : base + j * bss ≤ base + j * bss + o ∧ base + j * bss + o < base + j * bss + bss := by
          omega
        simp only [hc, and_self, if_true]
        congr 1
        omega
      · exact h2 j o (by omega) (by omega) ho
    · intro a ha
      rw [h3 a (by omega)]
      have : ¬ (base + i * bss ≤ a ∧ a < base + i * bss + bss) := by omega
      simp [this]

theorem page_sectors_mul {bss : Nat} (hdvd : bss ∣ PGSIZE) : PAGE_SECTORS bss * bss = PGSIZE :=
  Nat.div_mul_cancel hdvd

theorem page_sectors_pos {bss : Nat} (hdvd : bss ∣ PGSIZE) :
    0 < PAGE_SECTORS bss := by
  have h := page_sectors_mul hdvd
  rcases Nat.eq_zero_or_pos (PAGE_SECTORS bss) with h0 | h0
  · rw [h0] at h
    simp [PGSIZE] at h
  · exact h0

theorem slot_in_device {ps size slot : Nat} (h : slot < size / ps) : slot * ps + ps ≤ size := by
  have h1 : (slot + 1) * ps ≤ size / ps * ps := Nat.mul_le_mul_right ps h
  have h2 : size / ps * ps ≤ size := Nat.div_mul_le_self size ps
  have h3 : (slot + 1) * ps = slot * ps + ps := Nat.succ_mul slot ps
  omega

theorem swap_out_spec {bss : Nat} (hdvd : bss ∣ PGSIZE) {cur : Tid}
    {frames : List Frame} {p : PagePtr} {w : World} {pg : Page} {fi : Nat} {f : Frame}
    (hp : w.pages p = some pg) (hfr : pg.frame = some fi) (hf : frames[fi]? = some f)
    (hl : f.lock = some cur) (hsz : SwapSized bss w.swap) (hfree : false ∈ w.swap.bitmap) :
    ∃ slot sw1, slot < w.swap.bitmap.length ∧ w.swap.bitmap[slot]? = some false ∧
      sw1.device = w.swap.device ∧ sw1.bitmap = w.swap.bitmap.set slot true ∧
      (∀ j o, j < PAGE_SECTORS bss → o < bss →
        sw1.sectors (slot * PAGE_SECTORS bss + j) o = w.mem (f.base + j * bss + o)) ∧
      (∀ s o, s < slot * PAGE_SECTORS bss → sw1.sectors s o = w.swap.sectors s o) ∧
      swap_out bss cur frames p w = some (true,
        set_page (set_page { w with swap := sw1 } p { pg with sector := slot * PAGE_SECTORS bss })
          p { pg with sector := slot * PAGE_SECTORS bss, private_ := false, file := none,
                      file_offset := 0, file_bytes := 0 }) ∧
      (∀ j, j < slot → w.swap.bitmap[j]? = some true) := by
  obtain ⟨size, hdev, hsize, hlen⟩ := hsz
  obtain ⟨slot, hflip, hslot, hbit⟩ := bitmap_scan_and_flip_one hfree
  have hin : slot * PAGE_SECTORS bss + PAGE_SECTORS bss ≤ size :=
    slot_in_device (by rw [← hlen]; exact hslot)
  have hps := page_sectors_pos hdvd
  have hmod : (slot * PAGE_SECTORS bss) % 2 ^ 32 = slot * PAGE_SECTORS bss :=
    Nat.mod_eq_of_lt (by omega)
  obtain ⟨sw1, h1, h2, h3, h4, h5⟩ := write_to_swap_loop_spec bss
    (slot * PAGE_SECTORS bss) f.base w.mem size hsize (PAGE_SECTORS bss) 0
    { w.swap with bitmap := w.swap.bitmap.set slot true } hdev (by omega)
  refine ⟨slot, sw1, hslot, hbit, h2, h3, ?_, ?_, ?_, ?_⟩
  · intro j o hj ho
    exact h4 j o (Nat.zero_le _) (by omega) ho
  · intro s o hs
    exact h5 s o (by omega)
  · have hheld : lock_held_by_current_thread cur f = true := by
      simp [lock_held_by_current_thread, hl]
    simp only [swap_out, hp, hfr, hf, hheld, if_true, write_to_swap, hflip, hmod, h1,
      set_page, if_pos]
  · exact bitmap_scan_and_flip_lowest hflip

theorem swap_in_spec {bss : Nat} (hpos : 0 < bss) (hdvd : bss ∣ PGSIZE) {cur : Tid}
    {frames : List Frame} {p : PagePtr} {w : World} {pg : Page} {fi : Nat} {f : Frame}
    {size slot : Nat}
    (hp : w.pages p = some pg) (hfr : pg.frame = some fi) (hf : frames[fi]? = some f)
    (hl : f.lock = some cur) (hdev : w.swap.device = some size) (hsize : size < 2 ^ 32)
    (hsec : pg.sector = slot * PAGE_SECTORS bss) (hslot : slot < w.swap.bitmap.length)
    (hin : slot * PAGE_SECTORS bss + PAGE_SECTORS bss ≤ size) :
    ∃ w2, swap_in bss cur frames p w = some w2 ∧
      w2.swap.bitmap = w.swap.bitmap.set slot false ∧
      w2.swap.device = w.swap.device ∧
      (∃ pg2, w2.pages p = some pg2 ∧ pg2.sector = SECTOR_NONE) ∧
      ∀ k, k < PGSIZE →
        w2.mem (f.base + k) = w.swap.sectors (slot * PAGE_SECTORS bss + k / bss) (k % bss) := by
  have hps := page_sectors_pos hdvd
  obtain ⟨mem1, h1, h2, _⟩ := read_from_swap_loop_spec bss w.swap
    (slot * PAGE_SECTORS bss) f.base size hdev hsize (PAGE_SECTORS bss) 0 w.mem (by omega)
  have hheld : lock_held_by_current_thread cur f = true := by
    simp [lock_held_by_current_thread, hl]
  have hne : (pg.sector != SECTOR_NONE) = true := by
    rw [hsec]
    simp only [bne_iff_ne, ne_eq, SECTOR_NONE]
    omega
  have hidx : pg.sector / PAGE_SECTORS bss = slot := by
    rw [hsec]
    exact Nat.mul_div_cancel _ hps
  refine ⟨set_page { w with mem := mem1, swap := { w.swap with bitmap := w.swap.bitmap.set slot false } }
      p { pg with sector := SECTOR_NONE }, ?_, rfl, rfl,
      ⟨{ pg with sector := SECTOR_NONE }, by simp [set_page], rfl⟩, ?_⟩
  · simp only [swap_in, hp, hfr, hf, hheld, hne, Bool.and_self, if_true, read_from_swap,
      hidx, hslot]
    rw [hsec, h1]
    simp only [hp, hslot, if_true, hfr]
  · intro k hk
    have hkj : k / bss < PAGE_SECTORS bss := by
      apply Nat.div_lt_of_lt_mul
      rw [Nat.mul_comm, page_sectors_mul hdvd]
      exact hk
    have hko : k % bss < bss := Nat.mod_lt _ hpos
    have hk2 : k / bss * bss + k % bss = k := by
      rw [Nat.mul_comm]
      exact Nat.div_add_mod k bss
    have := h2 (k / bss) (k % bss) (Nat.zero_le _) (by omega) hko
    simp only [set_page]
    rw [← this]
    congr 1
    omega

theorem swap_init_sized (bss size : Nat) (sectors : Nat → Nat → Nat) (hsize : size < 2 ^ 32) :
    SwapSized bss (swap_init bss (some size) sectors) :=
  ⟨size, rfl, hsize, by simp [swap_init]⟩

theorem swap_init_all_free (bss : Nat) (device : Option Nat) (sectors : Nat → Nat → Nat) :
    ∀ b, b ∈ (swap_init bss device sectors).bitmap → b = false := by
  intro b hb
  cases device with
  | none => simp [swap_init] at hb
  | some size =>
    simp only [swap_init] at hb
    exact (List.mem_replicate.mp hb).2

/-- C2: let `p` be resident in frame `f` whose lock the caller holds, and let
the swap bitmap have a free slot.  Then `swap_out (p)` succeeds, and a
following `swap_in (p)` leaves the `PGSIZE` bytes of the frame equal to the
bytes it held when `swap_out` was called.  More generally the same bytes come
back in whatever frame `f1` the page occupies at the time of `swap_in`, whatever
happened to memory in between, as long as the sectors of the slot were not
written.  The sector size is any positive divisor of `PGSIZE`. -/
theorem swap_out_swap_in_round_trip (bss : Nat) (hpos : 0 < bss) (hdvd : bss ∣ PGSIZE)
    (cur : Tid) (frames : List Frame) (p : PagePtr) (w : World) (pg : Page) (fi : Nat)
    (f : Frame)
    (hp : w.pages p = some pg) (hfr : pg.frame = some fi) (hf : frames[fi]? = some f)
    (hl : f.lock = some cur) (hsz : SwapSized bss w.swap) (hfree : false ∈ w.swap.bitmap) :
    ∃ w1 pg1, swap_out bss cur frames p w = some (true, w1) ∧ w1.pages p = some pg1 ∧
      (∃ w2, swap_in bss cur frames p w1 = some w2 ∧
        ∀ k, k < PGSIZE → w2.mem (f.base + k) = w.mem (f.base + k)) ∧
      (∀ (frames1 : List Frame) (w1a : World) (pg1a : Page) (fi1 : Nat) (f1 : Frame),
        w1a.pages p = some pg1a → pg1a.sector = pg1.sector → pg1a.frame = some fi1 →
        frames1[fi1]? = some f1 → f1.lock = some cur →
        w1a.swap.device = w1.swap.device →
        w1a.swap.bitmap.length = w1.swap.bitmap.length →
        (∀ i o, i < PAGE_SECTORS bss → o < bss →
          w1a.swap.sectors (pg1.sector + i) o = w1.swap.sectors (pg1.sector + i) o) →
        ∃ w2, swap_in bss cur frames1 p w1a = some w2 ∧
          ∀ k, k < PGSIZE → w2.mem (f1.base + k) = w.mem (f.base + k)) := by
  obtain ⟨slot, sw1, hslot, _, hdev1, hbm1, hsec1, _, hout, _⟩ :=
    swap_out_spec hdvd hp hfr hf hl hsz hfree
  obtain ⟨size, hdev, hsize, hlen⟩ := hsz
  have hin : slot * PAGE_SECTORS bss + PAGE_SECTORS bss ≤ size :=
    slot_in_device (by rw [← hlen]; exact hslot)
  have hgen : ∀ (frames1 : List Frame) (w1a : World) (pg1a : Page) (fi1 : Nat) (f1 : Frame),
      w1a.pages p = some pg1a → pg1a.sector = slot * PAGE_SECTORS bss → pg1a.frame = some fi1 →
      frames1[fi1]? = some f1 → f1.lock = some cur →
      w1a.swap.device = sw1.device →
      w1a.swap.bitmap.length = sw1.bitmap.length →
      (∀ i o, i < PAGE_SECTORS bss → o < bss →
        w1a.swap.sectors (slot * PAGE_SECTORS bss + i) o
          = sw1.sectors (slot * PAGE_SECTORS bss + i) o) →
      ∃ w2, swap_in bss cur frames1 p w1a = some w2 ∧
        ∀ k, k < PGSIZE → w2.mem (f1.base + k) = w.mem (f.base + k) := by
    intro frames1 w1a pg1a fi1 f1 hp1 hs1 hfr1 hf1 hl1 hd1 hb1 hsame
    have hslot1 : slot < w1a.swap.bitmap.length := by
      rw [hb1, hbm1, List.length_set]
      exact hslot
    obtain ⟨w2, hin2, _, _, _, hmem⟩ := swap_in_spec hpos hdvd hp1 hfr1 hf1 hl1
      (by rw [hd1, hdev1, hdev]) hsize hs1 hslot1 hin
    refine ⟨w2, hin2, ?_⟩
    intro k hk
    have hkj : k / bss < PAGE_SECTORS bss := by
      apply Nat.div_lt_of_lt_mul
      rw [Nat.mul_comm, page_sectors_mul hdvd]
      exact hk
    have hko : k % bss < bss := Nat.mod_lt _ hpos
    have hk2 : k / bss * bss + k % bss = k := by
      rw [Nat.mul_comm]
      exact Nat.div_add_mod k bss
    rw [hmem k hk, hsame _ _ hkj hko, hsec1 _ _ hkj hko]
    congr 1
    omega
  refine ⟨_, { pg with sector := slot * PAGE_SECTORS bss, private_ := false, file := none,
                        file_offset := 0, file_bytes := 0 }, hout, by simp [set_page], ?_, ?_⟩
  · exact hgen frames _ { pg with sector := slot * PAGE_SECTORS bss, private_ := false,
                                    file := none, file_offset := 0, file_bytes := 0 }
      fi f (by simp [set_page]) rfl hfr hf hl rfl rfl (fun _ _ _ _ => rfl)
  · intro frames1 w1a pg1a fi1 f1 hp1 hs1 hfr1 hf1 hl1 hd1 hb1 hsame
    exact hgen frames1 w1a pg1a fi1 f1 hp1 hs1 hfr1 hf1 hl1 hd1 hb1 hsame

/-- C2, witness: page 5 of `swap_vm` with 512-byte sectors. -/
theorem swap_out_swap_in_round_trip_witness :
    ∃ w1 pg1, swap_out 512 1 swap_vm.frames 5 swap_vm.w = some (true, w1) ∧
      w1.pages 5 = some pg1 ∧
      (∃ w2, swap_in 512 1 swap_vm.frames 5 w1 = some w2 ∧
        ∀ k, k < PGSIZE → w2.mem (0 + k) = swap_vm.w.mem (0 + k)) :=
  have h := swap_out_swap_in_round_trip 512 (by decide) (by decide) 1 swap_vm.frames 5 swap_vm.w
    { fresh_page with frame := some 0 } 0 { lock := some 1, base := 0, page := some 5 }
    rfl rfl rfl rfl ⟨16, rfl, by decide, rfl⟩ (by decide)
  match h with
  | ⟨w1, pg1, h1, h2, h3, _⟩ => ⟨w1, pg1, h1, h2, h3⟩

/-! ## The sweep with an eviction hook that succeeds -/

theorem pagedir_set_accessed_false_mono (pd : Tid → Nat → Option PTE) (t : Tid) (a : Nat)
    (t1 : Tid) (a1 : Nat)
    (h : pagedir_is_accessed pd t1 a1 = false) :
    pagedir_is_accessed (pagedir_set_accessed pd t a false) t1 a1 = false := by
  unfold pagedir_is_accessed pagedir_set_accessed at *
  by_cases hc : t1 = t ∧ a1 = a
  · obtain ⟨rfl, rfl⟩ := hc
    cases hp : pd t1 a1 <;> simp
  · simp only [hc, if_false]
    exact h

theorem page_recently_accessed_clear {cur : Tid} {F : List Frame} {i : Nat} {f : Frame}
    {q : PagePtr} {w : World} {pg : Page}
    (hf : F[i]? = some f) (hq : w.pages q = some pg) (hfr : pg.frame = some i)
    (ha : pagedir_is_accessed w.pagedir pg.thread pg.addr = false) :
    page_recently_accessed cur (F.set i { f with lock := some cur }) q w = some (false, w) := by
  have hi : i < F.length := (List.getElem?_eq_some_iff.mp hf).1
  simp [page_recently_accessed, hq, hfr, List.getElem?_set_self hi,
    lock_held_by_current_thread, ha]

theorem visit_all_resident {po : PageOut} {cur : Tid} {page : PagePtr} {s : VM}
    (hpo : HookSucceeds po cur) (hres : AllResident s) (hh : s.hand < s.frames.length) :
    (∃ s1, visit po cur page s = some (Visit.found s.hand s1)) ∨
    (∃ s1, visit po cur page s = some (Visit.next s1) ∧ s1.frames = s.frames ∧
      s1.hand = (s.hand + 1) % s.frames.length ∧ s1.w.pages = s.w.pages ∧
      OwnerBitClear s s1 s.hand ∧
      ∀ t a, pagedir_is_accessed s.w.pagedir t a = false →
        pagedir_is_accessed s1.w.pagedir t a = false) := by
  have hf := List.getElem?_eq_getElem hh
  obtain ⟨hl, q, pg, hp, hq, hfr⟩ := hres _ _ hf
  have hi2 : (s.frames.set s.hand { s.frames[s.hand] with lock := some cur })[s.hand]?
      = some { s.frames[s.hand] with lock := some cur } := List.getElem?_set_self hh
  rw [visit_occupied hf hl hp]
  cases hacc : pagedir_is_accessed s.w.pagedir pg.thread pg.addr with
  | true =>
    right
    rw [page_recently_accessed_set hf hq hfr hacc]
    refine ⟨_, rfl, rfl, rfl, rfl, ?_, ?_⟩
    · intro f1 q1 pg1 hf1 hp1 hq1
      rw [hf] at hf1
      cases hf1
      rw [hp] at hp1
      cases hp1
      rw [hq] at hq1
      cases hq1
      exact pagedir_is_accessed_set_false _ _ _
    · intro t a hta
      exact pagedir_set_accessed_false_mono _ _ _ _ _ hta
  | false =>
    left
    rw [page_recently_accessed_clear hf hq hfr hacc]
    obtain ⟨w1, hw1⟩ := hpo _ q s.w pg s.hand _ hq hfr hi2 rfl
    simp only [hw1]
    exact ⟨_, rfl⟩

theorem find_eviction_frame_loop_all_resident {po : PageOut} {cur : Tid} {page : PagePtr}
    (hpo : HookSucceeds po cur) (s : VM) (hres : AllResident s) (hh : s.hand < s.frames.length) :
    ∀ (m k : Nat) (sk : VM) (fuel : Nat), k + m = s.frames.length → m + 1 ≤ fuel →
      sk.frames = s.frames → sk.w.pages = s.w.pages →
      sk.hand = (s.hand + k) % s.frames.length →
      (∀ j, j < k → OwnerBitClear s sk ((s.hand + j) % s.frames.length)) →
      ∃ i s1, find_eviction_frame_loop po cur page fuel sk = some (some i, s1) := by
  intro m
  induction m with
  | zero =>
    intro k sk fuel hk hfuel hfr hpg hhand hclear
    obtain ⟨fuel1, rfl⟩ : ∃ f1, fuel = f1 + 1 := ⟨fuel - 1, by omega⟩
    have hkn : k = s.frames.length := by omega
    have hhand2 : sk.hand = s.hand := by
      rw [hhand, hkn, Nat.add_mod_right, Nat.mod_eq_of_lt hh]
    have hc0 := hclear 0 (by omega)
    rw [Nat.add_zero, Nat.mod_eq_of_lt hh] at hc0
    have hf := List.getElem?_eq_getElem hh
    obtain ⟨hl, q, pg, hp, hq, hfrm⟩ := hres _ _ hf
    have hacc := hc0 _ q pg hf hp hq
    have hf2 : sk.frames[sk.hand]? = some s.frames[s.hand] := by rw [hfr, hhand2]; exact hf
    have hq2 : sk.w.pages q = some pg := by rw [hpg]; exact hq
    have hi2 : (sk.frames.set sk.hand { s.frames[s.hand] with lock := some cur })[sk.hand]?
        = some { s.frames[s.hand] with lock := some cur } :=
      List.getElem?_set_self (by rw [hfr, hhand2]; exact hh)
    obtain ⟨w1, hw1⟩ := hpo _ q sk.w pg sk.hand _ hq2 (by rw [hhand2]; exact hfrm) hi2 rfl
    have hv : ∃ s1, visit po cur page sk = some (Visit.found sk.hand s1) := by
      rw [visit_occupied hf2 hl hp,
        page_recently_accessed_clear hf2 hq2 (by rw [hhand2]; exact hfrm) hacc]
      simp only [hw1]
      exact ⟨_, rfl⟩
    obtain ⟨s1, hs1⟩ := hv
    exact ⟨sk.hand, s1, by simp only [find_eviction_frame_loop, hs1]⟩
  | succ m ih =>
    intro k sk fuel hk hfuel hfr hpg hhand hclear
    obtain ⟨fuel1, rfl⟩ : ∃ f1, fuel = f1 + 1 := ⟨fuel - 1, by omega⟩
    have hres_k : AllResident sk := by
      intro i f hf
      rw [hfr] at hf
      obtain ⟨hl, q, pg, hp, hq, hfrm⟩ := hres i f hf
      exact ⟨hl, q, pg, hp, by rw [hpg]; exact hq, hfrm⟩
    have hhk : sk.hand < sk.frames.length := by
      rw [hhand, hfr]
      exact Nat.mod_lt _ (by omega)
    rcases @visit_all_resident po cur page sk hpo hres_k hhk with
      ⟨s1, hs1⟩ | ⟨s1, hs1, h1, h2, h3, h4, h5⟩
    · exact ⟨sk.hand, s1, by simp only [find_eviction_frame_loop, hs1]⟩
    · simp only [find_eviction_frame_loop, hs1]
      apply ih (k + 1) s1 fuel1 (by omega) (by omega) (by rw [h1, hfr]) (by rw [h3, hpg])
      · rw [h2, hhand, hfr, Nat.mod_add_mod, Nat.add_assoc]
      · intro j hj
        rcases Nat.lt_succ_iff_lt_or_eq.mp hj with hjk | hjk
        · intro f q pg hf hp hq
          exact h5 _ _ (hclear j hjk f q pg hf hp hq)
        · subst hjk
          intro f q pg hf hp hq
          rw [← hhand] at hf
          exact h4 f q pg (by rw [hfr]; exact hf) hp (by rw [hpg]; exact hq)

/-- With an eviction hook that succeeds, a request on a pool of `n ≥ 1` frames
that are all occupied and lockable returns a frame within the `2 * n` visits
of the sweep, whatever the accessed bits are: after at most `n` visits that
clear accessed bits the hand is back at a frame whose bit is clear. -/
theorem find_eviction_frame_all_resident {po : PageOut} {cur : Tid} {page : PagePtr}
    (hpo : HookSucceeds po cur) (s : VM) (hres : AllResident s) (hh : s.hand < s.frames.length) :
    ∃ i s1, find_eviction_frame po cur page s = some (some i, s1) := by
  unfold find_eviction_frame
  apply find_eviction_frame_loop_all_resident hpo s hres hh s.frames.length 0 s
    (s.frames.length * 2) (by omega) (by omega) rfl rfl
  · rw [Nat.add_zero, Nat.mod_eq_of_lt hh]
  · intro j hj
    omega

/-! ## C6: `load_page` after a short read -/

theorem load_page_from_file_spec {frames : List Frame} {p : PagePtr} {w w1 : World} {b : Bool}
    {pg : Page} {fl fi : Nat} {f : Frame}
    (hp : w.pages p = some pg) (hfl : pg.file = some fl) (hfr : pg.frame = some fi)
    (hf : frames[fi]? = some f)
    (h : load_page_from_file frames p w = some (b, w1)) :
    b = true ∧ w1.pages = w.pages ∧ w1.files = w.files ∧
    FrameHoldsFile w1 f.base fl pg.file_offset
      (min pg.file_bytes ((w.files fl).length - pg.file_offset)) ∧
    FrameZero w1 f.base (min pg.file_bytes ((w.files fl).length - pg.file_offset)) PGSIZE := by
  simp only [load_page_from_file, hp, hfl, hfr, hf, file_read_at] at h
  split at h
  · cases h
  · next hle =>
    simp only [Option.some.injEq, Prod.mk.injEq] at h
    obtain ⟨rfl, rfl⟩ := h
    refine ⟨rfl, rfl, rfl, ?_, ?_⟩
    · intro k hk
      have hk2 : k < (w.files fl).length - pg.file_offset := lt_of_lt_of_le hk (Nat.min_le_right _ _)
      have hlt : pg.file_offset + k < (w.files fl).length := by omega
      have hc1 : ¬ (f.base + min pg.file_bytes ((w.files fl).length - pg.file_offset) ≤ f.base + k
          ∧ f.base + k < f.base + min pg.file_bytes ((w.files fl).length - pg.file_offset)
            + (PGSIZE - min pg.file_bytes ((w.files fl).length - pg.file_offset))) := by omega
      have hc2 : f.base ≤ f.base + k
          ∧ f.base + k < f.base + min pg.file_bytes ((w.files fl).length - pg.file_offset) := by
        omega
      simp only [memset, hc1, if_false, hc2, and_self, if_true, Nat.add_sub_cancel_left]
      rw [List.getElem?_eq_getElem hlt, List.getD_eq_getElem _ _ hlt]
    · intro k hk1 hk2
      have hc1 : f.base + min pg.file_bytes ((w.files fl).length - pg.file_offset) ≤ f.base + k
          ∧ f.base + k < f.base + min pg.file_bytes ((w.files fl).length - pg.file_offset)
            + (PGSIZE - min pg.file_bytes ((w.files fl).length - pg.file_offset)) := by omega
      simp only [memset, hc1, and_self, if_true]

/-- What `load_page` leaves in the frame: after `load_page` succeeds, the page
got a frame `fi`, and if the page held no swap slot at that moment then: with a
backing file the first `n` bytes of the frame are the file's bytes from
`file_offset`, where `n` is the number of bytes the file read delivered, and
every byte from `n` up to `PGSIZE` is zero; with no backing file the whole page
is zero. -/
theorem load_page_fills_frame (po : PageOut) (si : SwapIn) (cur : Tid) (p : PagePtr)
    (s s1 : VM) (h : load_page po si cur p s = some (true, s1)) :
    ∃ fi s0 pg f, frame_alloc_and_lock po cur p s = some (some fi, s0) ∧
      s0.w.pages p = some pg ∧ s0.frames[fi]? = some f ∧ s1.frames = s0.frames ∧
      (pg.sector = SECTOR_NONE →
        s1.w.pages p = some { pg with frame := some fi } ∧ s1.w.files = s0.w.files ∧
        (∀ fl, pg.file = some fl →
          FrameHoldsFile s1.w f.base fl pg.file_offset
            (min pg.file_bytes ((s1.w.files fl).length - pg.file_offset)) ∧
          FrameZero s1.w f.base
            (min pg.file_bytes ((s1.w.files fl).length - pg.file_offset)) PGSIZE) ∧
        (pg.file = none → FrameZero s1.w f.base 0 PGSIZE)) := by
  unfold load_page at h
  split at h
  · cases h
  · next r s0 ha =>
    split at h
    · cases h
    · next pg hp =>
      simp only at h
      split at h
      · cases h
      · next fi =>
        obtain ⟨_, hb⟩ := frame_alloc_and_lock_loop_spec po cur p 3 s (some fi) s0 ha
        obtain ⟨f, hf, _, _⟩ := hb fi rfl
        refine ⟨fi, s0, pg, f, ha, hp, hf, ?_, ?_⟩
        · split at h
          · split at h
            · cases h
            · simp only [Option.some.injEq, Prod.mk.injEq] at h
              obtain ⟨_, rfl⟩ := h
              rfl
          · split at h
            · split at h
              · cases h
              · simp only [Option.some.injEq, Prod.mk.injEq] at h
                obtain ⟨_, rfl⟩ := h
                rfl
            · split at h
              · cases h
              · simp only [Option.some.injEq, Prod.mk.injEq] at h
                obtain ⟨_, rfl⟩ := h
                rfl
        · intro hsec
          rw [if_neg (by simp [hsec])] at h
          split at h
          · next hfile =>
            split at h
            · cases h
            · next b w3 hl =>
              simp only [Option.some.injEq, Prod.mk.injEq] at h
              obtain ⟨_, rfl⟩ := h
              obtain ⟨fl, hfl⟩ := Option.ne_none_iff_exists'.mp hfile
              have hp2 : (set_page s0.w p { pg with frame := some fi }).pages p
                  = some { pg with frame := some fi } := by simp [set_page]
              obtain ⟨_, h2, h3, h4, h5⟩ := load_page_from_file_spec hp2 hfl rfl hf hl
              refine ⟨by rw [h2]; exact hp2, by rw [h3]; rfl, ?_, ?_⟩
              · intro fl2 hfl2
                rw [hfl] at hfl2
                cases hfl2
                simp only at h4 h5 ⊢
                rw [h3]
                exact ⟨h4, h5⟩
              · intro hnone
                exact absurd hnone hfile
          · next hfile =>
            rw [hf] at h
            simp only [Option.some.injEq, Prod.mk.injEq, true_and] at h
            subst h
            refine ⟨by simp [set_page], rfl, ?_, ?_⟩
            · intro fl hfl
              simp only [ne_eq, not_not] at hfile
              rw [hfile] at hfl
              cases hfl
            · intro _ k _ hk2
              have hc : f.base ≤ f.base + k ∧ f.base + k < f.base + PGSIZE := by omega
              simp only [memset, hc, and_self, if_true]

/-- Thread 1 loads page 7 of `file_vm`, backed by 4 bytes of file 9, which the
file holds. -/
theorem load_page_fills_frame_witness :
    load_page page_out (swap_in 512) 1 7 file_vm = some (true, file_vm_loaded) ∧
    ∃ fi s0 pg f, frame_alloc_and_lock page_out 1 7 file_vm = some (some fi, s0) ∧
      s0.w.pages 7 = some pg ∧ s0.frames[fi]? = some f ∧ file_vm_loaded.frames = s0.frames ∧
      (pg.sector = SECTOR_NONE →
        file_vm_loaded.w.pages 7 = some { pg with frame := some fi } ∧
        file_vm_loaded.w.files = s0.w.files ∧
        (∀ fl, pg.file = some fl →
          FrameHoldsFile file_vm_loaded.w f.base fl pg.file_offset
            (min pg.file_bytes ((file_vm_loaded.w.files fl).length - pg.file_offset)) ∧
          FrameZero file_vm_loaded.w f.base
            (min pg.file_bytes ((file_vm_loaded.w.files fl).length - pg.file_offset)) PGSIZE) ∧
        (pg.file = none → FrameZero file_vm_loaded.w f.base 0 PGSIZE)) :=
  ⟨rfl, load_page_fills_frame page_out (swap_in 512) 1 7 file_vm file_vm_loaded rfl⟩

/-- C6: page 7 of `short_file_vm` holds no swap slot and is backed by
`file_bytes = 100` bytes of file 9 from offset 0, but the file has only three
bytes, so the read delivers 3 bytes.  `load_page` nevertheless reports success,
and the first 100 bytes of the frame are not the file's bytes: byte 50 of the
frame is a zero that is not in the file. -/
theorem load_page_short_read_reports_success :
    (file_read_at (short_file_vm.w.files 9) short_file_vm.w.mem 0 100 0).1 = 3 ∧
    load_page page_out (swap_in 512) 1 7 short_file_vm = some (true, short_file_vm_loaded) ∧
    short_file_vm_loaded.w.pages 7 =
      some { fresh_page with file := some 9, file_offset := 0, file_bytes := 100,
                             frame := some 0 } ∧
    short_file_vm_loaded.frames[0]? = some { lock := some 1, base := 0, page := some 7 } ∧
    ¬ FrameHoldsFile short_file_vm_loaded.w 0 9 0 100 := by
  refine ⟨rfl, rfl, rfl, rfl, ?_⟩
  intro h
  have h50 : (short_file_vm_loaded.w.files 9)[0 + 50]? = some (short_file_vm_loaded.w.mem (0 + 50)) :=
    h 50 (by decide)
  have h2 : (none : Option Nat) = some (short_file_vm_loaded.w.mem (0 + 50)) := h50
  cases h2

/-! ## The page registry -/

theorem page_key_match (e key : Page) :
    (page_hash e == page_hash key && !page_less e key && !page_less key e) = true ↔
      e.addr = key.addr := by
  simp only [page_hash, page_less, Bool.and_eq_true, beq_iff_eq, Bool.not_eq_true',
    decide_eq_false_iff_not, Nat.not_lt]
  constructor
  · rintro ⟨⟨_, h1⟩, h2⟩
    omega
  · intro h
    rw [h]
    exact ⟨⟨rfl, Nat.le_refl _⟩, Nat.le_refl _⟩

theorem hash_find_some {w : World} {h : List PagePtr} {key : Page} {q : PagePtr}
    (hf : hash_find w h key = some q) :
    q ∈ h ∧ ∃ e, w.pages q = some e ∧ e.addr = key.addr := by
  unfold hash_find at hf
  refine ⟨List.mem_of_find?_eq_some hf, ?_⟩
  have hp := List.find?_some hf
  cases hq : w.pages q with
  | none => simp [hq] at hp
  | some e =>
    simp only [hq] at hp
    exact ⟨e, rfl, (page_key_match e key).mp hp⟩

theorem hash_find_none {w : World} {h : List PagePtr} {key : Page}
    (hn : ∀ q e, q ∈ h → w.pages q = some e → e.addr ≠ key.addr) :
    hash_find w h key = none := by
  unfold hash_find
  rw [List.find?_eq_none]
  intro q hq
  cases hp : w.pages q with
  | none => simp
  | some e =>
    simp only [Bool.not_eq_true]
    rw [← Bool.not_eq_true, page_key_match]
    exact hn q e hq hp

theorem hash_find_exists {w : World} {h : List PagePtr} {key : Page} {q : PagePtr} {e : Page}
    (hq : q ∈ h) (he : w.pages q = some e) (ha : e.addr = key.addr) :
    ∃ q1, hash_find w h key = some q1 := by
  apply Option.isSome_iff_exists.mp
  unfold hash_find
  rw [List.find?_isSome]
  refine ⟨q, hq, ?_⟩
  simp only [he]
  exact (page_key_match e key).mpr ha

theorem hash_find_unique {w : World} {h : List PagePtr} {key : Page} {q : PagePtr} {e : Page}
    (hok : RegistryOK w h) (hq : q ∈ h) (he : w.pages q = some e) (ha : e.addr = key.addr) :
    hash_find w h key = some q := by
  obtain ⟨q1, h1⟩ := hash_find_exists hq he ha
  obtain ⟨hq1, e1, he1, ha1⟩ := hash_find_some h1
  rw [h1, hok.2.1 q1 q e1 e hq1 hq he1 he (by rw [ha1, ha])]

theorem pg_round_down_idem (a : Nat) : pg_round_down (pg_round_down a) = pg_round_down a := by
  unfold pg_round_down
  have h : (a - a % PGSIZE) % PGSIZE = 0 :=
    Nat.sub_mod_eq_zero_of_mod_eq (Nat.mod_mod _ _).symm
  rw [h, Nat.sub_zero]

/-! ## C8: `page_allocate` -/

/-- C8: `page_allocate (vaddr, read_only)` returns NULL and leaves the whole
state unchanged when `malloc` fails and when the table of the current thread
already has an entry for `pg_round_down (vaddr)`; otherwise it returns the new
object, which is the one entry added to the table of the current thread, with
that address, frame NULL, sector `-1`, no file and the given `read_only` flag,
and every other page object and every other table stays as it was. -/
theorem page_allocate_inserts_or_fails (cur : Tid) (vaddr : Nat) (read_only : Bool)
    (w : World) (h : List PagePtr) (hreg : w.registry cur = some h) :
    page_allocate cur none vaddr read_only w = some (none, w) ∧
    (∀ p, (∃ q e, q ∈ h ∧ w.pages q = some e ∧ e.addr = pg_round_down vaddr) →
      page_allocate cur (some p) vaddr read_only w = some (none, w)) ∧
    (∀ p, (∀ q e, q ∈ h → w.pages q = some e → e.addr ≠ pg_round_down vaddr) →
      ∃ w1, page_allocate cur (some p) vaddr read_only w = some (some p, w1) ∧
        w1.registry cur = some (p :: h) ∧
        (∀ t, t ≠ cur → w1.registry t = w.registry t) ∧
        w1.pages p = some
          { addr := pg_round_down vaddr, read_only := read_only, thread := cur, frame := none,
            sector := SECTOR_NONE, private_ := !read_only, file := none, file_offset := 0,
            file_bytes := 0 } ∧
        (∀ x, x ≠ p → w1.pages x = w.pages x)) := by
  refine ⟨rfl, ?_, ?_⟩
  · rintro p ⟨q, e, hq, he, ha⟩
    obtain ⟨q1, h1⟩ := @hash_find_exists w h
      { addr := pg_round_down vaddr, read_only := read_only, thread := cur, frame := none,
        sector := SECTOR_NONE, private_ := !read_only, file := none, file_offset := 0,
        file_bytes := 0 } q e hq he ha
    simp only [page_allocate, hreg, h1]
  · intro p hn
    have h1 := @hash_find_none w h
      { addr := pg_round_down vaddr, read_only := read_only, thread := cur, frame := none,
        sector := SECTOR_NONE, private_ := !read_only, file := none, file_offset := 0,
        file_bytes := 0 } hn
    simp only [page_allocate, hreg, h1]
    refine ⟨_, rfl, by simp, ?_, by simp, ?_⟩
    · intro t ht
      simp [ht]
    · intro x hx
      simp [hx]

/-- C8, witness: thread 3 registers the page of address 8200 in `stack_world`,
whose table holds only the page at 4096. -/
theorem page_allocate_inserts_or_fails_witness :
    stack_world.registry 3 = some [7] ∧
    ∃ w1, page_allocate 3 (some 8) 8200 true stack_world = some (some 8, w1) ∧
      w1.registry 3 = some [8, 7] ∧
      (∀ t, t ≠ 3 → w1.registry t = stack_world.registry t) ∧
      w1.pages 8 = some
        { addr := pg_round_down 8200, read_only := true, thread := 3, frame := none,
          sector := SECTOR_NONE, private_ := !true, file := none, file_offset := 0,
          file_bytes := 0 } ∧
      (∀ x, x ≠ 8 → w1.pages x = stack_world.pages x) :=
  ⟨rfl, (page_allocate_inserts_or_fails 3 8200 true stack_world [7] rfl).2.2 8 (by
    intro q e hq he
    simp only [List.mem_singleton] at hq
    subst hq
    have : e = fresh_page := by
      have h2 : some fresh_page = some e := he
      exact (Option.some.inj h2).symm
    subst this
    decide)⟩

/-! ## C7: `page_for_addr` -/

theorem page_for_addr_unregistered {PB : Nat} {cur : Tid} {m : Option PagePtr} {address : Nat}
    {w : World} {h : List PagePtr} (hreg : w.registry cur = some h)
    (hn : ∀ q e, q ∈ h → w.pages q = some e → e.addr ≠ pg_round_down address) :
    page_for_addr PB cur m address w =
      if address < PB ∧ (PB + 2 ^ 32 - MAX_STACK) % 2 ^ 32 ≤ address ∧
          (w.user_esp cur + 2 ^ 32 - 32) % 2 ^ 32 ≤ address then
        match m with
        | none => some (none, w)
        | some p =>
          some (some p,
            { w with
              pages := fun x =>
                if x = p then
                  some { addr := pg_round_down address, read_only := false, thread := cur,
                         frame := none, sector := SECTOR_NONE, private_ := true, file := none,
                         file_offset := 0, file_bytes := 0 }
                else w.pages x
              registry := fun t => if t = cur then some (p :: h) else w.registry t })
      else some (none, w) := by
  have h1 := @hash_find_none w h (key_page (pg_round_down address)) hn
  have h2 := @hash_find_none w h
    { addr := pg_round_down address, read_only := false, thread := cur, frame := none,
      sector := SECTOR_NONE, private_ := true, file := none, file_offset := 0,
      file_bytes := 0 } hn
  unfold page_for_addr
  by_cases hlt : address < PB
  · simp only [hlt, if_true, page_lookup, hreg, h1, is_stack_access, true_and,
      Bool.and_eq_true, decide_eq_true_eq]
    by_cases hc : (PB + 2 ^ 32 - MAX_STACK) % 2 ^ 32 ≤ address ∧
        (w.user_esp cur + 2 ^ 32 - 32) % 2 ^ 32 ≤ address
    · rw [if_pos hc, if_pos hc]
      cases m with
      | none => rfl
      | some p =>
        simp only [page_allocate, hreg, pg_round_down_idem, Bool.not_false, h2]
    · rw [if_neg hc, if_neg hc]
  · have hc : ¬ (address < PB ∧ (PB + 2 ^ 32 - MAX_STACK) % 2 ^ 32 ≤ address ∧
        (w.user_esp cur + 2 ^ 32 - 32) % 2 ^ 32 ≤ address) := fun hh => hlt hh.1
    rw [if_neg hlt, if_neg hc]

/-- C7 (amended): let the current thread have a table `h`.  (1) For an address
below `PHYS_BASE` inside a registered page, `page_for_addr` returns an
existing entry of that page and changes nothing.  (2) For an address with no
registered page it returns an entry exactly when the address is below
`PHYS_BASE`, at least `PHYS_BASE - MAX_STACK` and at least `user_esp - 32`
(both in 32-bit pointer arithmetic) and `malloc` succeeds; that entry is the
new object, added to the table with address `pg_round_down (address)`,
`read_only` false, no file, sector `-1` and frame NULL; in every other case the
result is NULL and nothing changes. -/
theorem page_for_addr_stack_growth (PB : Nat) (cur : Tid) (m : Option PagePtr) (address : Nat)
    (w : World) (h : List PagePtr) (hreg : w.registry cur = some h) :
    (address < PB →
      (∃ q e, q ∈ h ∧ w.pages q = some e ∧ e.addr = pg_round_down address) →
      ∃ q e, page_for_addr PB cur m address w = some (some q, w) ∧ q ∈ h ∧
        w.pages q = some e ∧ e.addr = pg_round_down address) ∧
    ((∀ q e, q ∈ h → w.pages q = some e → e.addr ≠ pg_round_down address) →
      ((∃ p w1, page_for_addr PB cur m address w = some (some p, w1)) ↔
        (address < PB ∧ (PB + 2 ^ 32 - MAX_STACK) % 2 ^ 32 ≤ address ∧
          (w.user_esp cur + 2 ^ 32 - 32) % 2 ^ 32 ≤ address ∧ m ≠ none)) ∧
      (∀ p w1, page_for_addr PB cur m address w = some (some p, w1) →
        m = some p ∧ w1.registry cur = some (p :: h) ∧
        w1.pages p = some
          { addr := pg_round_down address, read_only := false, thread := cur, frame := none,
            sector := SECTOR_NONE, private_ := true, file := none, file_offset := 0,
            file_bytes := 0 } ∧
        (∀ x, x ≠ p → w1.pages x = w.pages x)) ∧
      (¬ (address < PB ∧ (PB + 2 ^ 32 - MAX_STACK) % 2 ^ 32 ≤ address ∧
          (w.user_esp cur + 2 ^ 32 - 32) % 2 ^ 32 ≤ address ∧ m ≠ none) →
        page_for_addr PB cur m address w = some (none, w))) := by
  constructor
  · rintro hlt ⟨q, e, hq, he, ha⟩
    obtain ⟨q1, h1⟩ := @hash_find_exists w h (key_page (pg_round_down address)) q e hq he ha
    obtain ⟨hq1, e1, he1, ha1⟩ := hash_find_some h1
    refine ⟨q1, e1, ?_, hq1, he1, ha1⟩
    simp only [page_for_addr, hlt, if_true, page_lookup, hreg, h1]
  · intro hn
    rw [page_for_addr_unregistered hreg hn]
    by_cases hc : address < PB ∧ (PB + 2 ^ 32 - MAX_STACK) % 2 ^ 32 ≤ address ∧
        (w.user_esp cur + 2 ^ 32 - 32) % 2 ^ 32 ≤ address
    · rw [if_pos hc]
      cases m with
      | none =>
        refine ⟨⟨?_, ?_⟩, ?_, ?_⟩
        · rintro ⟨p, w1, hp⟩
          cases hp
        · rintro ⟨_, _, _, hm⟩
          exact absurd rfl hm
        · intro p w1 hp
          cases hp
        · intro _
          rfl
      | some p =>
        refine ⟨⟨?_, ?_⟩, ?_, ?_⟩
        · intro _
          exact ⟨hc.1, hc.2.1, hc.2.2, by simp⟩
        · intro _
          exact ⟨p, _, rfl⟩
        · intro p1 w1 hp
          simp only [Option.some.injEq, Prod.mk.injEq] at hp
          obtain ⟨rfl, rfl⟩ := hp
          refine ⟨rfl, by simp, by simp, ?_⟩
          intro x hx
          simp [hx]
        · intro hneg
          exact absurd ⟨hc.1, hc.2.1, hc.2.2, by simp⟩ hneg
    · rw [if_neg hc]
      refine ⟨⟨?_, ?_⟩, ?_, ?_⟩
      · rintro ⟨p, w1, hp⟩
        cases hp
      · rintro ⟨h1, h2, h3, _⟩
        exact absurd ⟨h1, h2, h3⟩ hc
      · intro p w1 hp
        cases hp
      · intro _
        rfl

/-- C7, witness: in `stack_world` thread 3 (stack pointer `0xbffffff0`) touches
`0xbfffffe8`, which has no registered page, and `malloc` returns object 8. -/
theorem page_for_addr_stack_growth_witness :
    stack_world.registry 3 = some [7] ∧
    ((∃ p w1, page_for_addr 3221225472 3 (some 8) 3221225448 stack_world = some (some p, w1)) ↔
      (3221225448 < 3221225472 ∧ (3221225472 + 2 ^ 32 - MAX_STACK) % 2 ^ 32 ≤ 3221225448 ∧
        (stack_world.user_esp 3 + 2 ^ 32 - 32) % 2 ^ 32 ≤ 3221225448 ∧
        (some 8 : Option PagePtr) ≠ none)) :=
  ⟨rfl, ((page_for_addr_stack_growth 3221225472 3 (some 8) 3221225448 stack_world [7] rfl).2 (by
    intro q e hq he
    simp only [List.mem_singleton] at hq
    subst hq
    have h2 : some fresh_page = some e := he
    have h3 : e = fresh_page := (Option.some.inj h2).symm
    subst h3
    decide)).1⟩

/-- C7, counterexample: in `stack_world` the address `0xbfffffe8` has no
registered page, is below `PHYS_BASE = 0xc0000000`, at least `PHYS_BASE - 1 MiB`
and at least `user_esp - 32`, and yet `page_for_addr` returns NULL and leaves
the state unchanged, because `malloc` fails in `page_allocate`. -/
theorem page_for_addr_malloc_failure_counterexample :
    (∀ q e, q ∈ [7] → stack_world.pages q = some e → e.addr ≠ pg_round_down 3221225448) ∧
    (3221225448 < 3221225472 ∧ 3221225472 - MAX_STACK ≤ 3221225448 ∧
      stack_world.user_esp 3 - 32 ≤ 3221225448) ∧
    stack_world.registry 3 = some [7] ∧
    (page_for_addr 3221225472 3 none 3221225448 stack_world).map Prod.fst = some none := by
  refine ⟨?_, by decide, rfl, rfl⟩
  intro q e hq he
  simp only [List.mem_singleton] at hq
  subst hq
  have h2 : some fresh_page = some e := he
  have h3 : e = fresh_page := (Option.some.inj h2).symm
  subst h3
  decide

/-! ## C10: deregistering a swapped-out page -/

/-- C10 (amended): `page_deallocate` on a registered page below `PHYS_BASE` that
is swapped out (frame NULL) removes its entry from the table and frees the page
object; kernel memory, the swap device and the swap bitmap are exactly as
before, so nothing was read from the device and the page's slot stays marked
as in use. -/
theorem page_deallocate_swapped_keeps_slot (po : PageOut) (ff : FrameFree) (PB : Nat)
    (cur : Tid) (m : Option PagePtr) (vaddr : Nat) (s : VM) (h : List PagePtr) (q : PagePtr)
    (e : Page)
    (hreg : s.w.registry cur = some h) (hok : RegistryOK s.w h) (hq : q ∈ h)
    (he : s.w.pages q = some e) (ha : e.addr = pg_round_down vaddr) (hlt : vaddr < PB)
    (hfr : e.frame = none) :
    ∃ s1, page_deallocate po ff PB cur m vaddr s = some s1 ∧
      s1.w.registry cur = some (h.erase q) ∧ q ∉ h.erase q ∧ s1.w.pages q = none ∧
      (∀ x, x ≠ q → s1.w.pages x = s.w.pages x) ∧
      s1.w.swap = s.w.swap ∧ s1.w.mem = s.w.mem ∧ s1.frames = s.frames := by
  have h1 := @hash_find_unique s.w h (key_page (pg_round_down vaddr)) q e hok hq he ha
  have h2 := @hash_find_unique s.w h e q e hok hq he rfl
  let w4 : World :=
    { s.w with registry := fun t => if t = cur then some (h.erase q) else s.w.registry t }
  refine ⟨{ s with w := free_page w4 q },
    ?_, by simp [free_page, w4], ?_, by simp [free_page], ?_, rfl, rfl, rfl⟩
  · simp only [page_deallocate, page_for_addr, hlt, if_true, page_lookup, hreg, h1, frame_lock,
      he, hfr, hash_delete, h2]
  · exact fun hmem => (List.Nodup.mem_erase_iff hok.2.2).mp hmem |>.1 rfl
  · intro x hx
    simp [free_page, hx, w4]

/-- C10, witness: thread 3 deregisters the swapped-out page 7 of `swapped_vm`. -/
theorem page_deallocate_swapped_keeps_slot_witness :
    swapped_vm.w.pages 7 = some { fresh_page with sector := 0 } ∧
    ∃ s1, page_deallocate page_out frame_free 3221225472 3 none 4100 swapped_vm = some s1 ∧
      s1.w.registry 3 = some ([7].erase 7) ∧ 7 ∉ [7].erase 7 ∧ s1.w.pages 7 = none ∧
      (∀ x, x ≠ 7 → s1.w.pages x = swapped_vm.w.pages x) ∧
      s1.w.swap = swapped_vm.w.swap ∧ s1.w.mem = swapped_vm.w.mem ∧
      s1.frames = swapped_vm.frames :=
  ⟨rfl, page_deallocate_swapped_keeps_slot page_out frame_free 3221225472 3 none 4100
    swapped_vm [7] 7 { fresh_page with sector := 0 } rfl
    ⟨by
      intro q hq
      simp only [List.mem_singleton] at hq
      subst hq
      exact ⟨_, rfl⟩,
     by
      intro q1 q2 e1 e2 hq1 hq2 _ _ _
      simp only [List.mem_singleton] at hq1 hq2
      rw [hq1, hq2],
     by decide⟩
    (by decide) rfl (by decide) (by decide) rfl⟩

/-- C10, counterexample: page 7 of `swapped_vm` is swapped out to the slot at
sector 0 (slot 0 of the bitmap); after `page_deallocate` its entry is gone but
bit 0 of the swap bitmap is still set, so the slot is not free. -/
theorem page_deallocate_slot_counterexample :
    swapped_vm.w.pages 7 = some { fresh_page with sector := 0 } ∧
    page_deallocate page_out frame_free 3221225472 3 none 4100 swapped_vm
      = some swapped_vm_after ∧
    swapped_vm_after.w.pages 7 = none ∧
    swapped_vm_after.w.registry 3 = some [] ∧
    swapped_vm_after.w.swap.bitmap[0]? = some true :=
  ⟨rfl, rfl, rfl, rfl, rfl⟩

/-! ## C9: `page_out` of Task4 on a dirty page without backing file -/

/-- C9: page 5 of `dirty_vm` is resident in frame 0, whose lock thread 1 holds,
is dirty, has no backing file, and the swap bitmap has free slots; `page_out`
returns false, records no swap slot (the sector stays `-1`), leaves `p->frame`
set and allocates nothing in the bitmap; only the hardware mapping is
removed. -/
theorem page_out_dirty_page_returns_false :
    dirty_vm.w.pages 5 = some { fresh_page with frame := some 0 } ∧
    pagedir_is_dirty dirty_vm.w.pagedir 3 4096 = true ∧
    false ∈ dirty_vm.w.swap.bitmap ∧
    ∃ w1, page_out 1 dirty_vm.frames 5 dirty_vm.w = some (false, w1) ∧
      w1.pages 5 = some { fresh_page with frame := some 0 } ∧
      w1.swap.bitmap = dirty_vm.w.swap.bitmap ∧
      (w1.pagedir 3 4096).map (fun e => e.present) = some false :=
  ⟨rfl, rfl, by decide, _, rfl, rfl, rfl, rfl⟩

/-! ## C11: the slot is free after read-back -/

/-- C11: let `swap_out (p)` succeed; it used a slot `slot`, recorded as
`p->sector = slot * PAGE_SECTORS` with bit `slot` of the bitmap set.  The
following `swap_in (p)` clears bit `slot` and resets `p->sector` to
`(block_sector_t) -1`; and whenever `slot` is then the lowest-numbered free
slot, the next `swap_out`, of any resident page by any thread that holds its
frame lock, returns that slot. -/
theorem swap_in_frees_slot_for_reuse (bss : Nat) (hpos : 0 < bss) (hdvd : bss ∣ PGSIZE)
    (cur : Tid) (frames : List Frame) (p : PagePtr) (w : World) (pg : Page) (fi : Nat)
    (f : Frame)
    (hp : w.pages p = some pg) (hfr : pg.frame = some fi) (hf : frames[fi]? = some f)
    (hl : f.lock = some cur) (hsz : SwapSized bss w.swap) (hfree : false ∈ w.swap.bitmap) :
    ∃ slot w1 w2 pg1,
      swap_out bss cur frames p w = some (true, w1) ∧ w1.pages p = some pg1 ∧
      pg1.sector = slot * PAGE_SECTORS bss ∧ w1.swap.bitmap[slot]? = some true ∧
      swap_in bss cur frames p w1 = some w2 ∧ w2.swap.bitmap[slot]? = some false ∧
      (∃ pg2, w2.pages p = some pg2 ∧ pg2.sector = SECTOR_NONE) ∧
      (∀ (cur2 : Tid) (frames2 : List Frame) (q : PagePtr) (pgq : Page) (fiq : Nat)
          (fq : Frame),
        w2.pages q = some pgq → pgq.frame = some fiq → frames2[fiq]? = some fq →
        fq.lock = some cur2 → (∀ j, j < slot → w2.swap.bitmap[j]? = some true) →
        ∃ w3 pgq3, swap_out bss cur2 frames2 q w2 = some (true, w3) ∧
          w3.pages q = some pgq3 ∧ pgq3.sector = slot * PAGE_SECTORS bss ∧
          w3.swap.bitmap[slot]? = some true) := by
  obtain ⟨slot, sw1, hslot, _, hdev1, hbm1, _, _, hout, _⟩ :=
    swap_out_spec hdvd hp hfr hf hl hsz hfree
  obtain ⟨size, hdev, hsize, hlen⟩ := hsz
  have hin : slot * PAGE_SECTORS bss + PAGE_SECTORS bss ≤ size :=
    slot_in_device (by rw [← hlen]; exact hslot)
  have hslot1 : slot < sw1.bitmap.length := by
    rw [hbm1, List.length_set]
    exact hslot
  have hp1 : (set_page (set_page { w with swap := sw1 } p
        { pg with sector := slot * PAGE_SECTORS bss }) p
        { pg with sector := slot * PAGE_SECTORS bss, private_ := false, file := none,
                  file_offset := 0, file_bytes := 0 }).pages p
      = some { pg with sector := slot * PAGE_SECTORS bss, private_ := false, file := none,
                       file_offset := 0, file_bytes := 0 } := by
    simp [set_page]
  obtain ⟨w2, hin2, hbm2, hdev2, hpg2, _⟩ := swap_in_spec hpos hdvd hp1 hfr hf hl
    (by simp only [set_page]; rw [hdev1, hdev]) hsize rfl
    (by simp only [set_page]; exact hslot1) hin
  simp only [set_page] at hbm2 hdev2
  have hbit2 : w2.swap.bitmap[slot]? = some false := by
    rw [hbm2]
    exact List.getElem?_set_self hslot1
  refine ⟨slot, _, w2, _, hout, hp1, rfl, ?_, hin2, hbit2, hpg2, ?_⟩
  · simp only [set_page]
    rw [hbm1]
    exact List.getElem?_set_self hslot
  · intro cur2 frames2 q pgq fiq fq hq hfrq hfq hlq hlow
    have hsz2 : SwapSized bss w2.swap :=
      ⟨size, by rw [hdev2, hdev1, hdev], hsize, by rw [hbm2, List.length_set, hbm1,
        List.length_set, hlen]⟩
    have hfree2 : false ∈ w2.swap.bitmap := List.getElem?_mem hbit2
    obtain ⟨slot2, sw3, hslot2, hb2, _, hbm3, _, _, hout2, hlow2⟩ :=
      swap_out_spec hdvd hq hfrq hfq hlq hsz2 hfree2
    have heq : slot2 = slot := by
      rcases Nat.lt_trichotomy slot2 slot with h | h | h
      · have := hlow slot2 h
        rw [hb2] at this
        cases this
      · exact h
      · have := hlow2 slot h
        rw [hbit2] at this
        cases this
    subst heq
    refine ⟨_, { pgq with sector := slot2 * PAGE_SECTORS bss, private_ := false, file := none,
                          file_offset := 0, file_bytes := 0 }, hout2, by simp [set_page], rfl, ?_⟩
    simp only [set_page]
    rw [hbm3]
    exact List.getElem?_set_self hslot2

/-- C11, witness: page 5 of `swap_vm` with 512-byte sectors. -/
theorem swap_in_frees_slot_for_reuse_witness :
    ∃ slot w1 w2 pg1,
      swap_out 512 1 swap_vm.frames 5 swap_vm.w = some (true, w1) ∧ w1.pages 5 = some pg1 ∧
      pg1.sector = slot * PAGE_SECTORS 512 ∧ w1.swap.bitmap[slot]? = some true ∧
      swap_in 512 1 swap_vm.frames 5 w1 = some w2 ∧ w2.swap.bitmap[slot]? = some false ∧
      (∃ pg2, w2.pages 5 = some pg2 ∧ pg2.sector = SECTOR_NONE) :=
  have h := swap_in_frees_slot_for_reuse 512 (by decide) (by decide) 1 swap_vm.frames 5
    swap_vm.w { fresh_page with frame := some 0 } 0 { lock := some 1, base := 0, page := some 5 }
    rfl rfl rfl rfl ⟨16, rfl, by decide, rfl⟩ (by decide)
  match h with
  | ⟨slot, w1, w2, pg1, h1, h2, h3, h4, h5, h6, h7, _⟩ =>
    ⟨slot, w1, w2, pg1, h1, h2, h3, h4, h5, h6, h7⟩

/-! ## C12: `swap_out` on a full bitmap -/

/-- C12: when every bit of the swap bitmap is set, `swap_out (p)` of a resident
page whose frame lock the caller holds returns false and leaves the whole state
as it was: no sector is written and the bitmap and the fields of `p` are
unchanged.  The bitmap that `swap_init` creates without a swap device has no
bit at all, so it is such a bitmap. -/
theorem swap_out_full_bitmap (bss : Nat) (cur : Tid) (frames : List Frame) (p : PagePtr)
    (w : World) (pg : Page) (fi : Nat) (f : Frame)
    (hp : w.pages p = some pg) (hfr : pg.frame = some fi) (hf : frames[fi]? = some f)
    (hl : f.lock = some cur) :
    ((∀ x, x ∈ w.swap.bitmap → x = true) → swap_out bss cur frames p w = some (false, w)) ∧
    (∀ sectors, w.swap = swap_init bss none sectors →
      swap_out bss cur frames p w = some (false, w)) := by
  have hheld : lock_held_by_current_thread cur f = true := by
    simp [lock_held_by_current_thread, hl]
  have hfull : (∀ x, x ∈ w.swap.bitmap → x = true) →
      swap_out bss cur frames p w = some (false, w) := by
    intro hall
    simp only [swap_out, hp, hfr, hf, hheld, if_true, write_to_swap, bitmap_scan_and_flip,
      bitmap_scan_full hall]
  refine ⟨hfull, ?_⟩
  intro sectors hsw
  apply hfull
  intro x hx
  rw [hsw] at hx
  simp [swap_init] at hx

/-- C12, witness: page 5 of `swap_vm` when both slots of the bitmap are in use. -/
theorem swap_out_full_bitmap_witness :
    (∀ x, x ∈ [true, true] → x = true) ∧
    swap_out 512 1 swap_vm.frames 5
        { swap_vm.w with swap := { swap_vm.w.swap with bitmap := [true, true] } }
      = some (false,
        { swap_vm.w with swap := { swap_vm.w.swap with bitmap := [true, true] } }) :=
  ⟨by decide,
   (swap_out_full_bitmap 512 1 swap_vm.frames 5
      { swap_vm.w with swap := { swap_vm.w.swap with bitmap := [true, true] } }
      { fresh_page with frame := some 0 } 0 { lock := some 1, base := 0, page := some 5 }
      rfl rfl rfl rfl).1 (by decide)⟩

/-! ## C13: `page_in` when no frame can be acquired -/

theorem load_page_from_file_true {frames : List Frame} {p : PagePtr} {w w1 : World} {b : Bool}
    (h : load_page_from_file frames p w = some (b, w1)) : b = true := by
  unfold load_page_from_file at h
  split at h
  · cases h
  · split at h
    · split at h
      · cases h
      · simp only at h
        split at h
        · cases h
        · simp only [Option.some.injEq, Prod.mk.injEq] at h
          exact h.1.symm
    · cases h

theorem load_page_false {po : PageOut} {si : SwapIn} {cur : Tid} {p : PagePtr} {s s1 : VM}
    (h : load_page po si cur p s = some (false, s1)) :
    (frame_alloc_and_lock po cur p s).map Prod.fst = some none ∧
    ∃ pg, s1.w.pages p = some pg ∧ pg.frame = none := by
  unfold load_page at h
  split at h
  · cases h
  · next r s0 ha =>
    split at h
    · cases h
    · next pg hp =>
      simp only at h
      split at h
      · simp only [Option.some.injEq, Prod.mk.injEq, true_and] at h
        subst h
        exact ⟨by rw [ha]; rfl, { pg with frame := none }, by simp [set_page], rfl⟩
      · split at h
        · split at h
          · cases h
          · simp only [Option.some.injEq, Prod.mk.injEq] at h
            exact absurd h.1 (by decide)
        · split at h
          · split at h
            · cases h
            · next b w3 hl =>
              simp only [Option.some.injEq, Prod.mk.injEq] at h
              have := load_page_from_file_true hl
              rw [this] at h
              exact absurd h.1 (by decide)
          · split at h
            · cases h
            · simp only [Option.some.injEq, Prod.mk.injEq] at h
              exact absurd h.1 (by decide)

theorem unlock_page_frame_null {cur : Tid} {p : PagePtr} {s : VM} {pg : Page}
    (hp : s.w.pages p = some pg) (hfr : pg.frame = none) : unlock_page_frame cur p s = none := by
  simp [unlock_page_frame, hp, hfr]

/-- Whenever `load_page` fails inside `page_in`, `page_in` does not return: the
frame of the page is NULL and `frame_unlock (p->frame)` fails its assertion. -/
theorem page_in_load_failure_panics {PB : Nat} {po : PageOut} {si : SwapIn} {cur : Tid}
    {m : Option PagePtr} {ok : Bool} {fault_addr : Nat} {s s2 s3 : VM} {h : List PagePtr}
    {p : PagePtr} {w1 : World} {pg : Page}
    (hreg : s.w.registry cur = some h)
    (hfor : page_for_addr PB cur m fault_addr s.w = some (some p, w1))
    (hlock : frame_lock cur p { s with w := w1 } = some s2)
    (hp : s2.w.pages p = some pg) (hfr : pg.frame = none)
    (hload : load_page po si cur p s2 = some (false, s3)) :
    page_in PB po si cur m ok fault_addr s = none := by
  obtain ⟨_, pg3, hp3, hfr3⟩ := load_page_false hload
  simp only [page_in, hreg, hfor, hlock, hp, hfr, hload, unlock_page_frame_null hp3 hfr3]

/-- C13: in `pinned_vm` the only frame is locked by another thread, so
`frame_alloc_and_lock` returns NULL for the registered, non-resident page 7 of
thread 3; `page_in` of thread 3 for an address of that page then does not
return false: `frame_unlock (p->frame)` is called with a NULL frame and its
assertion fails. -/
theorem page_in_no_frame_panics :
    (frame_alloc_and_lock page_out 3 7 pinned_vm).map Prod.fst = some none ∧
    (load_page page_out (swap_in 512) 3 7 pinned_vm).map Prod.fst = some false ∧
    page_in 3221225472 page_out (swap_in 512) 3 none true 4100 pinned_vm = none :=
  ⟨rfl, rfl, rfl⟩

/-! ## C14: `page_in` after a short read -/

/-- C14: page 7 of `short_file_fault_vm` is backed by `file_bytes = 100` bytes of
a file that holds three bytes, so the read delivers 3 bytes; `load_page`
reports success and `page_in` returns true with the page installed. -/
theorem page_in_short_read_installs :
    (file_read_at (short_file_fault_vm.w.files 9) short_file_fault_vm.w.mem 0 100 0).1 = 3 ∧
    (load_page page_out (swap_in 512) 3 7 short_file_fault_vm).map Prod.fst = some true ∧
    page_in 3221225472 page_out (swap_in 512) 3 none true 4100 short_file_fault_vm
      = some (true, short_file_fault_vm_after) ∧
    (short_file_fault_vm_after.w.pagedir 3 4096).map (fun e => e.present) = some true :=
  ⟨rfl, rfl, rfl, rfl⟩

/-! ## C15: the mapping that `page_in` and `page_lock` install -/

/-- C16: `page_lock (addr, will_write)` returns false and leaves the whole state
as it was (no frame lock taken, no page loaded, registry unchanged) (a) for an
address with no registered page that is not a stack-growth candidate, (b) for
an address at or above `PHYS_BASE`, and (c) when `will_write` is true and the
entry for the address is read-only. -/
theorem page_lock_invalid_access (PB : Nat) (po : PageOut) (si : SwapIn) (cur : Tid)
    (m : Option PagePtr) (ok : Bool) (addr : Nat) (will_write : Bool) (s : VM) :
    (∀ h, s.w.registry cur = some h →
      (∀ q e, q ∈ h → s.w.pages q = some e → e.addr ≠ pg_round_down addr) →
      ¬ (addr < PB ∧ (PB + 2 ^ 32 - MAX_STACK) % 2 ^ 32 ≤ addr ∧
          (s.w.user_esp cur + 2 ^ 32 - 32) % 2 ^ 32 ≤ addr) →
      page_lock PB po si cur m ok addr will_write s = some (false, s)) ∧
    (PB ≤ addr → page_lock PB po si cur m ok addr will_write s = some (false, s)) ∧
    (∀ h, s.w.registry cur = some h → addr < PB → will_write = true →
      (∃ q e, q ∈ h ∧ s.w.pages q = some e ∧ e.addr = pg_round_down addr) →
      (∀ q e, q ∈ h → s.w.pages q = some e → e.addr = pg_round_down addr →
        e.read_only = true) →
      page_lock PB po si cur m ok addr will_write s = some (false, s)) := by
  refine ⟨?_, ?_, ?_⟩
  · intro h hreg hn hc
    unfold page_lock
    rw [page_for_addr_unregistered hreg hn, if_neg hc]
  · intro hge
    unfold page_lock page_for_addr
    rw [if_neg (by omega)]
  · rintro h hreg hlt hw ⟨q, e, hq, he, ha⟩ hro
    obtain ⟨q1, h1⟩ := @hash_find_exists s.w h (key_page (pg_round_down addr)) q e hq he ha
    obtain ⟨hq1, e1, he1, ha1⟩ := hash_find_some h1
    have hro1 := hro q1 e1 hq1 he1 ha1
    simp only [page_lock, page_for_addr, hlt, if_true, page_lookup, hreg, h1, he1, hro1, hw,
      Bool.and_self]

/-- C16, witness: thread 3 asks to write to the address 4100 of the read-only
page 7 of `read_only_vm`. -/
theorem page_lock_invalid_access_witness :
    read_only_vm.w.registry 3 = some [7] ∧
    page_lock 3221225472 page_out (swap_in 512) 3 none true 4100 true read_only_vm
      = some (false, read_only_vm) :=
  ⟨rfl, (page_lock_invalid_access 3221225472 page_out (swap_in 512) 3 none true 4100 true
    read_only_vm).2.2 [7] rfl (by decide) rfl ⟨7, _, by simp, rfl, by decide⟩ (by
      intro q e hq he _
      simp only [List.mem_singleton] at hq
      subst hq
      have h2 : some { fresh_page with read_only := true } = some e := he
      rw [← Option.some.inj h2])⟩

/-! ## A failed write-back during the sweep -/

/-- C18: when `page_out` fails for the candidate frame `f` under the clock hand
(unlocked, owned by `q`, accessed bit clear), `evict_frame` reports failure with
the frame table as it was before the visit, so `f` still belongs to `q` and is
not given to the requesting page; the lock taken by the visit is released by
`evict_frame`, and the second `release_frame_lock` of `find_eviction_frame` finds
it free and changes nothing; the visit returns no frame and the sweep goes on
with the hand on the next frame in clock order. -/
theorem page_out_failure_continues_sweep (po : PageOut) (cur : Tid) (page : PagePtr) (s : VM)
    (f : Frame) (q : PagePtr) (w1 w2 : World)
    (hf : s.frames[s.hand]? = some f) (hl : f.lock = none) (hp : f.page = some q)
    (hpr : page_recently_accessed cur (s.frames.set s.hand { f with lock := some cur }) q s.w
      = some (false, w1))
    (hpo : po cur (s.frames.set s.hand { f with lock := some cur }) q w1 = some (false, w2)) :
    evict_frame po cur s.hand page
        { frames := s.frames.set s.hand { f with lock := some cur }
          hand := (s.hand + 1) % s.frames.length
          w := w1 }
      = some (false, { frames := s.frames, hand := (s.hand + 1) % s.frames.length, w := w2 }) ∧
    release_frame_lock cur { f with lock := some cur } = f ∧
    release_frame_lock cur f = f ∧
    visit po cur page s
      = some (Visit.next { s with hand := (s.hand + 1) % s.frames.length, w := w2 }) ∧
    ∀ fuel, find_eviction_frame_loop po cur page (fuel + 1) s
      = find_eviction_frame_loop po cur page fuel
          { s with hand := (s.hand + 1) % s.frames.length, w := w2 } := by
  have hi : s.hand < s.frames.length := (List.getElem?_eq_some_iff.mp hf).1
  have hv : visit po cur page s
      = some (Visit.next { s with hand := (s.hand + 1) % s.frames.length, w := w2 }) := by
    rw [visit_occupied hf hl hp, hpr]
    simp only [hpo]
  obtain ⟨l, b, pg⟩ := f
  simp only at hl hp
  subst hl hp
  have hrel : release_frame_lock cur { lock := some cur, base := b, page := some q }
      = { lock := none, base := b, page := some q } := by
    simp [release_frame_lock, lock_held_by_current_thread]
  have hrel2 : release_frame_lock cur { lock := none, base := b, page := some q }
      = { lock := none, base := b, page := some q } := by
    simp [release_frame_lock, lock_held_by_current_thread]
  refine ⟨?_, hrel, hrel2, hv, ?_⟩
  · simp only [evict_frame, List.getElem?_set_self hi, hpo, hrel, List.set_set,
      set_getElem?_self _ _ _ hf]
  · intro fuel
    simp only [find_eviction_frame_loop, hv]

theorem page_out_failure_continues_sweep_witness :
    visit page_out 1 7 idle_vm
      = some (Visit.next { idle_vm with
          hand := 1
          w := { idle_vm.w with pagedir := pagedir_clear_page idle_vm.w.pagedir 3 4096 } }) :=
  (page_out_failure_continues_sweep page_out 1 7 idle_vm
    { lock := none, base := 0, page := some 5 } 5 idle_vm.w
    { idle_vm.w with pagedir := pagedir_clear_page idle_vm.w.pagedir 3 4096 }
    rfl rfl rfl rfl rfl).2.2.2.1

/-! ## The scan for a free frame -/

theorem find_free_frame_loop_lowest (cur : Tid) (page : PagePtr) (i0 : Nat) (f0 : Frame)
    (hl0 : f0.lock = none) (hp0 : f0.page = none) :
    ∀ (fuel i : Nat) (F : List Frame), i ≤ i0 → i0 < i + fuel → F[i0]? = some f0 →
      (∀ j f, i ≤ j → j < i0 → F[j]? = some f → ¬ (f.lock = none ∧ f.page = none)) →
      ∃ F1, find_free_frame_loop cur page fuel i F = (some i0, F1) ∧
        F1[i0]? = some { f0 with lock := some cur, page := some page } ∧
        ∀ j, j ≠ i0 → (F1[j]?).map Frame.page = (F[j]?).map Frame.page := by
  intro fuel
  induction fuel with
  | zero => intro i F h1 h2; omega
  | succ n ih =>
    intro i F h1 h2 hF hmin
    have hlen : i0 < F.length := (List.getElem?_eq_some_iff.mp hF).1
    by_cases hi : i = i0
    · subst hi
      refine ⟨F.set i { f0 with lock := some cur, page := some page }, ?_,
        List.getElem?_set_self hlen, ?_⟩
      · unfold find_free_frame_loop
        rw [hF]
        simp [try_lock_frame, hl0, is_frame_free, hp0]
      · intro j hj
        rw [List.getElem?_set_ne (Ne.symm hj)]
    · have hlt : i < i0 := by omega
      have hil : i < F.length := by omega
      obtain ⟨f, hFi⟩ : ∃ f, F[i]? = some f := ⟨F[i], List.getElem?_eq_getElem hil⟩
      have hc : ((try_lock_frame cur f).1 && is_frame_free (try_lock_frame cur f).2) = false := by
        have hn := hmin i f (Nat.le_refl i) hlt hFi
        cases hlk : f.lock with
        | some t => simp [try_lock_frame, hlk]
        | none =>
          cases hpg : f.page with
          | none => exact absurd ⟨hlk, hpg⟩ hn
          | some q => simp [try_lock_frame, hlk, is_frame_free, hpg]
      have hpage : (release_frame_lock cur (try_lock_frame cur f).2).page = f.page := by
        unfold release_frame_lock try_lock_frame
        cases f.lock <;> simp <;> split <;> rfl
      obtain ⟨F1, hr, hget, hoth⟩ := ih (i + 1)
        (F.set i (release_frame_lock cur (try_lock_frame cur f).2)) (by omega) (by omega)
        (by rw [List.getElem?_set_ne hi]; exact hF)
        (by
          intro j g hj1 hj2 hg
          rw [List.getElem?_set_ne (by omega)] at hg
          exact hmin j g (by omega) hj2 hg)
      refine ⟨F1, ?_, hget, ?_⟩
      · unfold find_free_frame_loop
        rw [hFi]
        simp only [hc, Bool.false_eq_true, if_false]
        exact hr
      · intro j hj
        rw [hoth j hj]
        by_cases hji : j = i
        · subst hji
          rw [List.getElem?_set_self hil, hFi]
          simp [hpage]
        · rw [List.getElem?_set_ne (Ne.symm hji)]

/-- C19: if the frame with index `i0` is free with its lock available, and no
frame with a lower index is, then `allocate_frame` returns `i0`, locked by the
caller and bound to the requested page, whatever `page_out` is; the owners of
the other frames, the clock hand, and the state outside the frame table (which
holds the accessed bits and everything `page_out` writes) are unchanged. -/
theorem allocate_frame_lowest_free (po : PageOut) (cur : Tid) (page : PagePtr) (s : VM)
    (i0 : Nat) (f0 : Frame)
    (hf : s.frames[i0]? = some f0) (hl : f0.lock = none) (hp : f0.page = none)
    (hmin : ∀ j f, j < i0 → s.frames[j]? = some f → ¬ (f.lock = none ∧ f.page = none)) :
    ∃ s1, allocate_frame po cur page s = some (some i0, s1) ∧
      s1.frames[i0]? = some { f0 with lock := some cur, page := some page } ∧
      (∀ j, j ≠ i0 → (s1.frames[j]?).map Frame.page = (s.frames[j]?).map Frame.page) ∧
      s1.hand = s.hand ∧ s1.w = s.w := by
  have hlen : i0 < s.frames.length := (List.getElem?_eq_some_iff.mp hf).1
  obtain ⟨F1, hr, hget, hoth⟩ := find_free_frame_loop_lowest cur page i0 f0 hl hp
    s.frames.length 0 s.frames (Nat.zero_le _) (by omega) hf
    (fun j f _ hj hg => hmin j f hj hg)
  refine ⟨{ s with frames := F1 }, ?_, hget, hoth, rfl, rfl⟩
  unfold allocate_frame find_free_frame
  rw [hr]

theorem allocate_frame_lowest_free_witness :
    ∃ s1, allocate_frame page_out 1 7 sweep_vm = some (some 2, s1) ∧
      s1.frames[2]? = some { lock := some 1, base := 8192, page := some 7 } ∧
      (∀ j, j ≠ 2 → (s1.frames[j]?).map Frame.page = (sweep_vm.frames[j]?).map Frame.page) ∧
      s1.hand = sweep_vm.hand ∧ s1.w = sweep_vm.w :=
  allocate_frame_lowest_free page_out 1 7 sweep_vm 2 { lock := none, base := 8192, page := none }
    rfl rfl rfl (by
      intro j f hj hg
      have h2 : j = 0 ∨ j = 1 := by omega
      rcases h2 with h | h
      · subst h
        have h3 : some { lock := none, base := 0, page := some 5 } = some f := hg
        rw [← Option.some.inj h3]
        simp
      · subst h
        have h3 : some { lock := some 2, base := 4096, page := some 6 } = some f := hg
        rw [← Option.some.inj h3]
        simp)

/-! ## The bounded retry of `frame_alloc_and_lock` -/

theorem frame_alloc_and_lock_scans_spec (sleep : VM → VM) (po : PageOut) (cur : Tid)
    (page : PagePtr) :
    ∀ (tries : Nat) (s : VM) (r : Option Nat) (s1 : VM) (n : Nat),
      frame_alloc_and_lock_scans sleep po cur page tries s = some (r, s1, n) →
      n ≤ tries ∧
      (∀ i, r = some i → ∃ s0, 1 ≤ n ∧
        after_failed_scans sleep po cur page (n - 1) s = some s0 ∧
        allocate_frame po cur page s0 = some (some i, s1)) ∧
      (r = none → n = tries ∧ after_failed_scans sleep po cur page tries s = some s1) := by
  intro tries
  induction tries with
  | zero =>
    intro s r s1 n h
    simp only [frame_alloc_and_lock_scans, Option.some.injEq, Prod.mk.injEq] at h
    obtain ⟨h1, h2, h3⟩ := h
    subst h1 h2 h3
    refine ⟨Nat.le_refl 0, ?_, ?_⟩
    · intro i hi
      cases hi
    · intro _
      exact ⟨rfl, rfl⟩
  | succ t ih =>
    intro s r s1 n h
    unfold frame_alloc_and_lock_scans at h
    cases hal : allocate_frame po cur page s with
    | none => rw [hal] at h; cases h
    | some x =>
      obtain ⟨ri, sa⟩ := x
      rw [hal] at h
      cases ri with
      | some i =>
        simp only at h
        cases hfi : sa.frames[i]? with
        | none => rw [hfi] at h; cases h
        | some f =>
          rw [hfi] at h
          simp only at h
          split at h
          · simp only [Option.some.injEq, Prod.mk.injEq] at h
            obtain ⟨h1, h2, h3⟩ := h
            subst h1 h2 h3
            refine ⟨by omega, ?_, ?_⟩
            · intro j hj
              cases hj
              exact ⟨s, Nat.le_refl 1, rfl, hal⟩
            · intro hn
              cases hn
          · cases h
      | none =>
        simp only at h
        cases hrec : frame_alloc_and_lock_scans sleep po cur page t (sleep sa) with
        | none => rw [hrec] at h; cases h
        | some y =>
          obtain ⟨r2, s2, n2⟩ := y
          rw [hrec] at h
          simp only [Option.some.injEq, Prod.mk.injEq] at h
          obtain ⟨h1, h2, h3⟩ := h
          subst h1 h2 h3
          obtain ⟨hle, hsome, hnone⟩ := ih (sleep sa) r2 s2 n2 hrec
          refine ⟨by omega, ?_, ?_⟩
          · intro i hi
            obtain ⟨s0, hn1, haf, hall⟩ := hsome i hi
            refine ⟨s0, by omega, ?_, hall⟩
            have hn : n2 + 1 - 1 = (n2 - 1) + 1 := by omega
            rw [hn]
            simp only [after_failed_scans, hal]
            exact haf
          · intro hn
            obtain ⟨hn2, haf⟩ := hnone hn
            refine ⟨by omega, ?_⟩
            simp only [after_failed_scans, hal]
            exact haf

theorem frame_alloc_and_lock_scans_none (sleep : VM → VM) (po : PageOut) (cur : Tid)
    (page : PagePtr) :
    ∀ (tries : Nat) (s : VM), frame_alloc_and_lock_scans sleep po cur page tries s = none →
      ∃ k sk, k < tries ∧ after_failed_scans sleep po cur page k s = some sk ∧
        allocate_frame po cur page sk = none := by
  intro tries
  induction tries with
  | zero =>
    intro s h
    simp only [frame_alloc_and_lock_scans] at h
    cases h
  | succ t ih =>
    intro s h
    cases hal : allocate_frame po cur page s with
    | none => exact ⟨0, s, by omega, rfl, hal⟩
    | some x =>
      obtain ⟨ri, sa⟩ := x
      unfold frame_alloc_and_lock_scans at h
      rw [hal] at h
      cases ri with
      | some i =>
        obtain ⟨f, hfi, _, hlk⟩ := (allocate_frame_spec hal).2 i rfl
        simp only [hfi, lock_held_by_current_thread, hlk, beq_self_eq_true, if_true] at h
        cases h
      | none =>
        simp only at h
        cases hrec : frame_alloc_and_lock_scans sleep po cur page t (sleep sa) with
        | some y => rw [hrec] at h; cases h
        | none =>
          obtain ⟨k, sk, hk, haf, hall⟩ := ih (sleep sa) hrec
          refine ⟨k + 1, sk, by omega, ?_, hall⟩
          simp only [after_failed_scans, hal]
          exact haf

theorem frame_alloc_and_lock_scans_id (po : PageOut) (cur : Tid) (page : PagePtr) :
    ∀ (tries : Nat) (s : VM),
      frame_alloc_and_lock_loop po cur page tries s
        = (frame_alloc_and_lock_scans (fun x => x) po cur page tries s).map
            (fun x => (x.1, x.2.1)) := by
  intro tries
  induction tries with
  | zero => intro s; rfl
  | succ t ih =>
    intro s
    unfold frame_alloc_and_lock_loop frame_alloc_and_lock_scans
    cases hal : allocate_frame po cur page s with
    | none => rfl
    | some x =>
      obtain ⟨ri, sa⟩ := x
      cases ri with
      | some i =>
        simp only
        cases hfi : sa.frames[i]? with
        | none => rfl
        | some f =>
          simp only
          split <;> rfl
      | none =>
        simp only
        rw [ih sa]
        cases frame_alloc_and_lock_scans (fun x => x) po cur page t sa with
        | none => rfl
        | some y => rfl

/-- C20: `frame_alloc_and_lock` calls `allocate_frame` at most 3 times, whatever
the other threads do to the state during the sleeps (`sleep`): when it returns
frame `i` after `n` calls, the first `n - 1` calls returned NULL, each followed
by a sleep, and the `n`-th returned `i`; when it returns NULL, exactly 3 calls
returned NULL, each followed by a sleep; it fails to return only when one of
these at most 3 calls fails an assertion; and with sleeps that leave the state
alone it is the function `frame_alloc_and_lock`. -/
theorem frame_alloc_and_lock_three_scans (sleep : VM → VM) (po : PageOut) (cur : Tid)
    (page : PagePtr) (s : VM) :
    (∀ r s1 n, frame_alloc_and_lock_scans sleep po cur page 3 s = some (r, s1, n) →
      n ≤ 3 ∧
      (∀ i, r = some i → ∃ s0, 1 ≤ n ∧
        after_failed_scans sleep po cur page (n - 1) s = some s0 ∧
        allocate_frame po cur page s0 = some (some i, s1)) ∧
      (r = none → n = 3 ∧ after_failed_scans sleep po cur page 3 s = some s1)) ∧
    (frame_alloc_and_lock_scans sleep po cur page 3 s = none →
      ∃ k sk, k < 3 ∧ after_failed_scans sleep po cur page k s = some sk ∧
        allocate_frame po cur page sk = none) ∧
    frame_alloc_and_lock po cur page s
      = (frame_alloc_and_lock_scans (fun x => x) po cur page 3 s).map
          (fun x => (x.1, x.2.1)) :=
  ⟨frame_alloc_and_lock_scans_spec sleep po cur page 3 s,
   frame_alloc_and_lock_scans_none sleep po cur page 3 s,
   frame_alloc_and_lock_scans_id po cur page 3 s⟩

theorem frame_alloc_and_lock_three_scans_witness :
    frame_alloc_and_lock_scans free_frame_zero page_out 3 7 3 pinned_vm
      = some (some 0, pinned_vm_after, 2) ∧
    ∃ s0, 1 ≤ 2 ∧
      after_failed_scans free_frame_zero page_out 3 7 (2 - 1) pinned_vm = some s0 ∧
      allocate_frame page_out 3 7 s0 = some (some 0, pinned_vm_after) :=
  ⟨rfl, ((frame_alloc_and_lock_three_scans free_frame_zero page_out 3 7 pinned_vm).1
    (some 0) pinned_vm_after 2 rfl).2.1 0 rfl⟩

/-! ## Pinning a resident page -/

theorem frame_lock_wait_same (cur : Tid) (p : PagePtr) (s : VM) :
    frame_lock_wait cur p s s = frame_lock cur p s := by
  unfold frame_lock_wait frame_lock
  cases hpg : s.w.pages p with
  | none => rfl
  | some pg =>
    simp only
    cases hfr : pg.frame with
    | none => rfl
    | some fi =>
      simp only
      cases hf : s.frames[fi]? with
      | none => rfl
      | some f =>
        simp only
        cases hl : f.lock with
        | some t => rfl
        | none => simp [hfr]

/-- C17: let `frame_lock (p)` read `p->frame` in the state `s0` and let `s1` be
the state in which its `lock_acquire` returns.  When `frame_lock` returns, in
state `s2`: if `p->frame` is frame `fi`, then the caller holds the lock of `fi`;
if `p->frame` is null, then `s2` is `s0` or `s1`, so the call left no lock
behind.  In particular, if `p` was bound to `fi` in `s0` and is bound to no
frame in `s1` (it was evicted during the wait), `frame_lock` returns with the
state `s1`, in which the lock of `fi` is free.  When nothing runs during the
wait this is the function `frame_lock`. -/
theorem frame_lock_pins_or_releases (cur : Tid) (p : PagePtr) (s0 s1 : VM) :
    (∀ s2, frame_lock_wait cur p s0 s1 = some s2 →
      (∀ pg fi, s2.w.pages p = some pg → pg.frame = some fi →
        ∃ f, s2.frames[fi]? = some f ∧ f.lock = some cur) ∧
      (∀ pg, s2.w.pages p = some pg → pg.frame = none → s2 = s0 ∨ s2 = s1)) ∧
    (∀ pg0 fi f pg1, s0.w.pages p = some pg0 → pg0.frame = some fi →
      s1.frames[fi]? = some f → f.lock = none →
      s1.w.pages p = some pg1 → pg1.frame = none →
      frame_lock_wait cur p s0 s1 = some s1 ∧
      ∃ g, s1.frames[fi]? = some g ∧ g.lock = none) ∧
    frame_lock_wait cur p s0 s0 = frame_lock cur p s0 := by
  have hstale : ∀ pg0 fi f pg1, s0.w.pages p = some pg0 → pg0.frame = some fi →
      s1.frames[fi]? = some f → f.lock = none →
      s1.w.pages p = some pg1 → pg1.frame = none →
      frame_lock_wait cur p s0 s1 = some s1 := by
    intro pg0 fi f pg1 h0 hfr hf hl h1 hfr1
    obtain ⟨l, b, q⟩ := f
    simp only at hl
    subst hl
    unfold frame_lock_wait
    simp only [h0, hfr, hf, h1, hfr1, release_frame_lock, lock_held_by_current_thread,
      beq_self_eq_true, if_true, ne_eq, not_false_eq_true, reduceCtorEq,
      set_getElem?_self _ _ _ hf]
  refine ⟨?_, ?_, frame_lock_wait_same cur p s0⟩
  · intro s2 h
    cases h0 : s0.w.pages p with
    | none =>
      unfold frame_lock_wait at h
      rw [h0] at h
      cases h
    | some pg0 =>
      cases hfr : pg0.frame with
      | none =>
        unfold frame_lock_wait at h
        simp only [h0, hfr, Option.some.injEq] at h
        subst h
        refine ⟨?_, ?_⟩
        · intro pg fi hpg hfi
          rw [h0] at hpg
          cases hpg
          rw [hfr] at hfi
          cases hfi
        · intro _ _ _
          exact Or.inl rfl
      | some fi =>
        cases hf : s1.frames[fi]? with
        | none =>
          unfold frame_lock_wait at h
          simp only [h0, hfr, hf] at h
          cases h
        | some f =>
          cases hl : f.lock with
          | some t =>
            unfold frame_lock_wait at h
            simp only [h0, hfr, hf, hl] at h
            cases h
          | none =>
            cases h1 : s1.w.pages p with
            | none =>
              unfold frame_lock_wait at h
              simp only [h0, hfr, hf, hl, h1] at h
              cases h
            | some pg1 =>
              have hlen : fi < s1.frames.length := (List.getElem?_eq_some_iff.mp hf).1
              cases hfr1 : pg1.frame with
              | none =>
                rw [hstale pg0 fi f pg1 h0 hfr hf hl h1 hfr1] at h
                cases h
                refine ⟨?_, ?_⟩
                · intro pg gi hpg hgi
                  rw [h1] at hpg
                  cases hpg
                  rw [hfr1] at hgi
                  cases hgi
                · intro _ _ _
                  exact Or.inr rfl
              | some gi =>
                by_cases hg : gi = fi
                · subst hg
                  unfold frame_lock_wait at h
                  simp only [h0, hfr, hf, hl, h1, hfr1, ne_eq, not_true_eq_false, if_false,
                    Option.some.injEq] at h
                  subst h
                  refine ⟨?_, ?_⟩
                  · intro pg ki hpg hki
                    have hpg2 : s1.w.pages p = some pg := hpg
                    rw [h1] at hpg2
                    cases hpg2
                    rw [hfr1] at hki
                    cases hki
                    exact ⟨{ f with lock := some cur }, List.getElem?_set_self hlen, rfl⟩
                  · intro pg hpg hn
                    have hpg2 : s1.w.pages p = some pg := hpg
                    rw [h1] at hpg2
                    cases hpg2
                    rw [hfr1] at hn
                    cases hn
                · unfold frame_lock_wait at h
                  have hne : ¬ (some gi = some fi) := fun e => hg (Option.some.inj e)
                  simp only [h0, hfr, hf, hl, h1, hfr1, ne_eq, hne, not_false_eq_true,
                    if_true] at h
                  cases h
  · intro pg0 fi f pg1 h0 hfr hf hl h1 hfr1
    exact ⟨hstale pg0 fi f pg1 h0 hfr hf hl h1 hfr1, f, hf, hl⟩

theorem frame_lock_pins_or_releases_witness :
    frame_lock_wait 3 7 evicting_vm evicted_vm = some evicted_vm ∧
    ∃ g, evicted_vm.frames[0]? = some g ∧ g.lock = none :=
  (frame_lock_pins_or_releases 3 7 evicting_vm evicted_vm).2.1
    { fresh_page with frame := some 0 } 0 { lock := none, base := 0, page := some 9 }
    { fresh_page with sector := 0 } rfl rfl rfl rfl rfl rfl

/-! ## C26: what `page_lock` leaves behind -/

/-- When `load_page` succeeds inside `page_lock` and `pagedir_set_page` fails,
`page_lock` returns false while the page is bound to a frame whose lock the
caller holds. -/
theorem page_lock_install_failure {PB : Nat} {po : PageOut} {si : SwapIn} {cur : Tid}
    {m : Option PagePtr} {addr : Nat} {will_write : Bool} {s s2 s3 : VM} {p : PagePtr}
    {w1 : World} {pg pg2 pg3 : Page} {fi : Nat} {f : Frame}
    (hfor : page_for_addr PB cur m addr s.w = some (some p, w1))
    (hp : w1.pages p = some pg) (hro : (pg.read_only && will_write) = false)
    (hlock : frame_lock cur p { s with w := w1 } = some s2)
    (hp2 : s2.w.pages p = some pg2) (hfr : pg2.frame = none)
    (hload : load_page po si cur p s2 = some (true, s3))
    (hp3 : s3.w.pages p = some pg3) (hfr3 : pg3.frame = some fi)
    (hf : s3.frames[fi]? = some f) :
    page_lock PB po si cur m false addr will_write s = some (false, s3) := by
  simp [page_lock, hfor, hp, hro, hlock, hp2, hfr, hload, install_page, hp3, hfr3, hf]

/-- C26: in `fault_vm` page 7 of thread 3 is registered and not resident and
frame 0 is free.  When `pagedir_set_page` fails, `page_lock` of thread 3
returns false and leaves frame 0 bound to page 7 and locked by thread 3.
When `page_in` has failed in the same way (it unlocks the frame and leaves the
page resident and unmapped), a following `page_lock` returns true although the
page has no hardware mapping. -/
theorem page_lock_false_holds_lock :
    page_lock 3221225472 page_out (swap_in 512) 3 none false 4100 false fault_vm
      = some (false, fault_vm_pinned) ∧
    fault_vm_pinned.frames[0]? = some { lock := some 3, base := 0, page := some 7 } ∧
    (fault_vm_pinned.w.pages 7).map (fun pg => pg.frame) = some (some 0) ∧
    page_in 3221225472 page_out (swap_in 512) 3 none false 4100 fault_vm
      = some (false, fault_vm_unmapped) ∧
    page_lock 3221225472 page_out (swap_in 512) 3 none true 4100 false fault_vm_unmapped
      = some (true, fault_vm_unmapped_pinned) ∧
    (fault_vm_unmapped_pinned.w.pages 7).map (fun pg => pg.frame) = some (some 0) ∧
    fault_vm_unmapped_pinned.w.pagedir 3 4096 = none :=
  ⟨rfl, rfl, rfl, rfl, rfl, rfl, rfl⟩

/-! ## C30: the bounded buffer of `threads/procon.c` -/

theorem procon_init_inv (buffer_size : Nat) (mem : Int → Nat) :
    ProconInv (procon_init buffer_size mem) [] := by
  refine ⟨rfl, ?_, ?_, rfl, ?_, rfl, ?_⟩
  · show (0 : Int) ≤ 0
    decide
  · show (0 : Int) < 10
    decide
  · show (0 : Int) ≤ 10
    decide
  · intro i c h
    simp at h

theorem procon_produce_inv {pc pc1 : procon} {q : List Nat} {c : Nat}
    (hinv : ProconInv pc q) (h : procon_produce pc c = some pc1) :
    ProconInv pc1 (q ++ [c]) := by
  obtain ⟨hsz, hc0, hc1, hcnt, hle, hpro, hbuf⟩ := hinv
  unfold procon_produce at h
  by_cases hfull : pc.count = pc.size
  · simp [hfull] at h
  · rw [if_neg hfull] at h
    have hlen : ((q ++ [c]).length : Int) = (q.length : Int) + 1 := by simp
    have hq0 : (0 : Int) ≤ (q.length : Int) := Int.ofNat_nonneg _
    have hbuf2 : ∀ (i : Nat) (d : Nat), (q ++ [c])[i]? = some d →
        (if (pc.con_index + (i : Int)) % pc.size = pc.pro_index then c
          else pc.buffer ((pc.con_index + (i : Int)) % pc.size)) = d := by
      intro i d hi
      by_cases hiq : i < q.length
      · rw [List.getElem?_append_left hiq] at hi
        have hne : ¬ ((pc.con_index + (i : Int)) % pc.size = pc.pro_index) := by
          rw [hpro, hsz]
          rw [hsz] at hc1 hle hfull
          have : (i : Int) < (q.length : Int) := by exact_mod_cast hiq
          omega
        rw [if_neg hne]
        exact hbuf i d hi
      · have hge : q.length ≤ i := Nat.le_of_not_lt hiq
        rw [List.getElem?_append_right hge] at hi
        have hi0 : i - q.length = 0 := by
          by_contra hne
          have : 1 ≤ i - q.length := Nat.one_le_iff_ne_zero.mpr hne
          have hnone : [c][i - q.length]? = none := by
            apply List.getElem?_eq_none
            simpa using this
          rw [hnone] at hi
          cases hi
        rw [hi0] at hi
        simp only [List.getElem?_cons_zero, Option.some.injEq] at hi
        have hieq : i = q.length := by omega
        have heq : (pc.con_index + (i : Int)) % pc.size = pc.pro_index := by
          rw [hpro, hcnt, hieq]
        rw [if_pos heq]
        exact hi
    by_cases hwrap : pc.pro_index + 1 = pc.size
    · simp only [hwrap, if_true, Option.some.injEq] at h
      subst h
      refine ⟨hsz, hc0, hc1, ?_, ?_, ?_, hbuf2⟩
      · show pc.count + 1 = ((q ++ [c]).length : Int)
        rw [hlen, hcnt]
      · show pc.count + 1 ≤ pc.size
        omega
      · show (0 : Int) = (pc.con_index + (pc.count + 1)) % pc.size
        rw [hsz] at hc1 hle hfull hwrap hpro ⊢
        omega
    · simp only [hwrap, if_false, Option.some.injEq] at h
      subst h
      refine ⟨hsz, hc0, hc1, ?_, ?_, ?_, hbuf2⟩
      · show pc.count + 1 = ((q ++ [c]).length : Int)
        rw [hlen, hcnt]
      · show pc.count + 1 ≤ pc.size
        omega
      · show pc.pro_index + 1 = (pc.con_index + (pc.count + 1)) % pc.size
        rw [hsz] at hc1 hle hfull hwrap hpro ⊢
        omega

theorem procon_consume_inv {pc pc1 : procon} {q : List Nat} {c : Nat}
    (hinv : ProconInv pc q) (h : procon_consume pc = some (c, pc1)) :
    ∃ q1, q = c :: q1 ∧ ProconInv pc1 q1 := by
  obtain ⟨hsz, hc0, hc1, hcnt, hle, hpro, hbuf⟩ := hinv
  unfold procon_consume at h
  by_cases hempty : pc.count = 0
  · simp [hempty] at h
  · rw [if_neg hempty] at h
    cases q with
    | nil =>
      simp at hcnt
      exact absurd hcnt hempty
    | cons a q1 =>
      have ha : pc.buffer pc.con_index = a := by
        have := hbuf 0 a (by simp)
        have hmod : (pc.con_index + ((0 : Nat) : Int)) % pc.size = pc.con_index := by
          rw [hsz] at hc1 ⊢
          omega
        rw [hmod] at this
        exact this
      have hlen : ((a :: q1).length : Int) = (q1.length : Int) + 1 := by simp
      have hq0 : (0 : Int) ≤ (q1.length : Int) := Int.ofNat_nonneg _
      by_cases hwrap : pc.con_index + 1 = pc.size
      · simp only [hwrap, if_true, Option.some.injEq, Prod.mk.injEq] at h
        obtain ⟨h1, h2⟩ := h
        subst h2
        refine ⟨q1, by rw [← h1, ha], hsz, ?_, ?_, ?_, ?_, ?_, ?_⟩
        · show (0 : Int) ≤ 0
          decide
        · show (0 : Int) < pc.size
          omega
        · show pc.count - 1 = (q1.length : Int)
          omega
        · show pc.count - 1 ≤ pc.size
          omega
        · show pc.pro_index = (0 + (pc.count - 1)) % pc.size
          rw [hsz] at hc1 hle hwrap hpro ⊢
          omega
        · intro i d hi
          show pc.buffer ((0 + (i : Int)) % pc.size) = d
          have := hbuf (i + 1) d (by simpa using hi)
          have hil : i < q1.length := by
            by_contra hn
            rw [List.getElem?_eq_none (Nat.le_of_not_lt hn)] at hi
            cases hi
          have hil2 : (i : Int) < (q1.length : Int) := by exact_mod_cast hil
          have hmod : (pc.con_index + ((i + 1 : Nat) : Int)) % pc.size
              = (0 + (i : Int)) % pc.size := by
            rw [hsz] at hc1 hle hwrap ⊢
            push_cast
            omega
          rw [hmod] at this
          exact this
      · simp only [hwrap, if_false, Option.some.injEq, Prod.mk.injEq] at h
        obtain ⟨h1, h2⟩ := h
        subst h2
        refine ⟨q1, by rw [← h1, ha], hsz, ?_, ?_, ?_, ?_, ?_, ?_⟩
        · show (0 : Int) ≤ pc.con_index + 1
          omega
        · show pc.con_index + 1 < pc.size
          omega
        · show pc.count - 1 = (q1.length : Int)
          omega
        · show pc.count - 1 ≤ pc.size
          omega
        · show pc.pro_index = (pc.con_index + 1 + (pc.count - 1)) % pc.size
          rw [hsz] at hc1 hle hwrap hpro ⊢
          omega
        · intro i d hi
          show pc.buffer ((pc.con_index + 1 + (i : Int)) % pc.size) = d
          have := hbuf (i + 1) d (by simpa using hi)
          have hmod : (pc.con_index + ((i + 1 : Nat) : Int)) % pc.size
              = (pc.con_index + 1 + (i : Int)) % pc.size := by
            push_cast
            congr 1
            omega
          rw [hmod] at this
          exact this

theorem procon_run_inv :
    ∀ (calls : List ProconCall) (pc pc2 : procon) (q out : List Nat),
      ProconInv pc q → procon_run calls pc = some (pc2, out) →
      ∃ q2, ProconInv pc2 q2 ∧ q ++ produced calls = out ++ q2 := by
  intro calls
  induction calls with
  | nil =>
    intro pc pc2 q out hinv h
    simp only [procon_run, Option.some.injEq, Prod.mk.injEq] at h
    obtain ⟨h1, h2⟩ := h
    subst h1 h2
    exact ⟨q, hinv, by simp [produced]⟩
  | cons call calls ih =>
    intro pc pc2 q out hinv h
    cases call with
    | produce c =>
      unfold procon_run at h
      cases hp : procon_produce pc c with
      | none => rw [hp] at h; cases h
      | some pc1 =>
        rw [hp] at h
        obtain ⟨q2, hinv2, heq⟩ := ih pc1 pc2 (q ++ [c]) out (procon_produce_inv hinv hp) h
        refine ⟨q2, hinv2, ?_⟩
        rw [← heq]
        simp [produced]
    | consume =>
      unfold procon_run at h
      cases hc : procon_consume pc with
      | none => rw [hc] at h; cases h
      | some r =>
        obtain ⟨c, pc1⟩ := r
        rw [hc] at h
        simp only at h
        obtain ⟨q1, hq, hinv1⟩ := procon_consume_inv hinv hc
        cases hr : procon_run calls pc1 with
        | none => rw [hr] at h; cases h
        | some r2 =>
          obtain ⟨pc3, out3⟩ := r2
          rw [hr] at h
          simp only [Option.some.injEq, Prod.mk.injEq] at h
          obtain ⟨h1, h2⟩ := h
          subst h1 h2
          obtain ⟨q2, hinv2, heq⟩ := ih pc1 pc3 q1 out3 hinv1 hr
          refine ⟨q2, hinv2, ?_⟩
          rw [hq]
          simp only [produced, List.cons_append]
          rw [heq]

theorem procon_run_prefix :
    ∀ (calls rest : List ProconCall) (pc pc2 : procon) (out : List Nat),
      procon_run (calls ++ rest) pc = some (pc2, out) →
      ∃ pc1 out1, procon_run calls pc = some (pc1, out1) := by
  intro calls
  induction calls with
  | nil => intro rest pc pc2 out _; exact ⟨pc, [], rfl⟩
  | cons call calls ih =>
    intro rest pc pc2 out h
    cases call with
    | produce c =>
      simp only [List.cons_append, procon_run] at h ⊢
      cases hp : procon_produce pc c with
      | none => rw [hp] at h; cases h
      | some pc1 =>
        rw [hp] at h
        exact ih rest pc1 pc2 out h
    | consume =>
      simp only [List.cons_append, procon_run] at h ⊢
      cases hc : procon_consume pc with
      | none => rw [hc] at h; cases h
      | some r =>
        obtain ⟨c, pc1⟩ := r
        rw [hc] at h
        simp only [List.append_eq] at h
        cases hr : procon_run (calls ++ rest) pc1 with
        | none => rw [hr] at h; cases h
        | some r2 =>
          obtain ⟨pc3, out3⟩ := r2
          obtain ⟨pc4, out4, h4⟩ := ih rest pc1 pc3 out3 hr
          simp only [h4]
          exact ⟨pc4, c :: out4, rfl⟩

/-- C30: take any sequence of calls of `procon_produce` and `procon_consume` on
a buffer made by `procon_init` in which no call has to wait.  After every call
of the sequence (that is, after every initial part `calls` of it)
`0 <= count <= size`, both indices are in `[0, size)`, and the characters
returned so far by `procon_consume` are, in order, the first characters given to
`procon_produce`; `count` is the number of characters produced and not yet
consumed. -/
theorem procon_fifo (buffer_size : Nat) (mem : Int → Nat) (calls rest : List ProconCall)
    (pc : procon) (out : List Nat)
    (h : procon_run (calls ++ rest) (procon_init buffer_size mem) = some (pc, out)) :
    ∃ pc1 out1 q, procon_run calls (procon_init buffer_size mem) = some (pc1, out1) ∧
      0 ≤ pc1.count ∧ pc1.count ≤ pc1.size ∧
      0 ≤ pc1.pro_index ∧ pc1.pro_index < pc1.size ∧
      0 ≤ pc1.con_index ∧ pc1.con_index < pc1.size ∧
      produced calls = out1 ++ q ∧ pc1.count = (q.length : Int) ∧
      ∀ (k c : Nat), out1[k]? = some c → (produced calls)[k]? = some c := by
  obtain ⟨pc1, out1, h1⟩ := procon_run_prefix calls rest _ pc out h
  obtain ⟨q, hinv, heq⟩ := procon_run_inv calls _ pc1 [] out1 (procon_init_inv buffer_size mem) h1
  obtain ⟨hsz, hc0, hc1, hcnt, hle, hpro, hbuf⟩ := hinv
  have hq0 : (0 : Int) ≤ (q.length : Int) := Int.ofNat_nonneg _
  simp only [List.nil_append] at heq
  refine ⟨pc1, out1, q, h1, by omega, hle, ?_, ?_, hc0, hc1, heq, hcnt, ?_⟩
  · rw [hpro, hsz]
    omega
  · rw [hpro, hsz]
    omega
  · intro k c hk
    have hkl : k < out1.length := by
      by_contra hn
      rw [List.getElem?_eq_none (Nat.le_of_not_lt hn)] at hk
      cases hk
    rw [heq, List.getElem?_append_left hkl]
    exact hk

theorem procon_fifo_witness :
    ∃ pc1 out1 q,
      procon_run [ProconCall.produce 97, ProconCall.produce 98, ProconCall.consume]
        (procon_init 4 (fun _ => 0)) = some (pc1, out1) ∧
      0 ≤ pc1.count ∧ pc1.count ≤ pc1.size ∧
      0 ≤ pc1.pro_index ∧ pc1.pro_index < pc1.size ∧
      0 ≤ pc1.con_index ∧ pc1.con_index < pc1.size ∧
      produced [ProconCall.produce 97, ProconCall.produce 98, ProconCall.consume] = out1 ++ q ∧
      pc1.count = (q.length : Int) ∧
      ∀ (k c : Nat), out1[k]? = some c →
        (produced [ProconCall.produce 97, ProconCall.produce 98, ProconCall.consume])[k]?
          = some c :=
  procon_fifo 4 (fun _ => 0)
    [ProconCall.produce 97, ProconCall.produce 98, ProconCall.consume]
    [ProconCall.consume]
    (match procon_run [ProconCall.produce 97, ProconCall.produce 98, ProconCall.consume,
        ProconCall.consume] (procon_init 4 (fun _ => 0)) with
      | some (pc, _) => pc
      | none => procon_init 4 (fun _ => 0))
    [97, 98] rfl

/-! ## C24: the rotation of `select_victim` -/

theorem select_victims_append :
    ∀ (a b : List Task4.frameTableEntry),
      Task4.select_victims a.length (a ++ b) = some (a, b ++ a) := by
  intro a
  induction a with
  | nil => intro b; simp [Task4.select_victims]
  | cons x a ih =>
    intro b
    have h := ih (b ++ [x])
    simp only [List.append_assoc, List.singleton_append] at h
    simp only [List.length_cons, List.cons_append, Task4.select_victims, Task4.select_victim,
      List.append_assoc, h]

/-- C24: on a non-empty list `all_frames`, `select_victim` returns the entry at
the front and moves it to the back, which keeps the length and the members of
the list; `n` consecutive calls on a list of `n` entries return the entries of
the list in list order, each once, and leave the list as it was.  New entries
are put at the back by `ft_add_entry`. -/
theorem select_victim_round_robin :
    (∀ (v : Task4.frameTableEntry) (rest : List Task4.frameTableEntry),
      Task4.select_victim (v :: rest) = some (v, rest ++ [v]) ∧
      (rest ++ [v]).length = (v :: rest).length ∧
      (rest ++ [v]).Perm (v :: rest)) ∧
    (∀ l : List Task4.frameTableEntry, Task4.select_victims l.length l = some (l, l)) ∧
    (∀ (m : Bool) (frame page : Nat) (pd : Tid) (s : Task4.State),
      (Task4.ft_add_entry m frame page pd s).2.all_frames =
        if (Task4.ft_add_entry m frame page pd s).1 then
          s.all_frames ++ [{ frame := frame, pagedir := pd, page := page }]
        else s.all_frames) := by
  refine ⟨?_, ?_, ?_⟩
  · intro v rest
    refine ⟨rfl, by simp, ?_⟩
    exact (List.perm_append_singleton v rest)
  · intro l
    have h := select_victims_append l []
    simpa using h
  · intro m frame page pd s
    unfold Task4.ft_add_entry
    cases m with
    | false => simp
    | true =>
      cases Task4.State.ft s |>.find? (fun e => e.frame == frame) with
      | none => simp
      | some e => simp

/-! ## C21: `swap_out` of Task4 when the swap device is full -/

/-- Whenever the bitmap has no free run of `PGSIZE / BLOCK_SECTOR_SIZE` bits,
`swap_out` of Task4 does not return: the first `block_write` is for the sector
`BITMAP_ERROR`, which no device has. -/
theorem swap_out_full_panics (bss : Nat) (cur : Tid) (page : Nat) (s : Task4.State)
    (hb : 0 < bss) (hle : bss ≤ PGSIZE)
    (hsz : ∀ size, s.swap.device = some size → size < 2 ^ 32)
    (hfull : bitmap_scan s.swap.bitmap 0 (PGSIZE / bss) false = none) :
    Task4.swap_out bss cur page s = none := by
  unfold Task4.swap_out
  cases hdev : s.swap.device with
  | none => rfl
  | some size =>
    simp only
    split
    · simp only [bitmap_scan_and_flip, hfull]
      cases Task4.pagedir_get_page s.pagedir cur page with
      | none => rfl
      | some frame =>
        simp only
        obtain ⟨n, hn⟩ : ∃ n, PGSIZE / bss = n + 1 := by
          have : 0 < PGSIZE / bss := Nat.div_pos hle hb
          exact ⟨PGSIZE / bss - 1, by omega⟩
        have hs := hsz size hdev
        have hbw : block_write bss { s.swap with bitmap := s.swap.bitmap }
            ((2 ^ 32 - 1 + 0) % 2 ^ 32) s.mem (frame + 0 * bss) = none := by
          simp only [block_write, hdev]
          have : ¬ ((2 ^ 32 - 1 + 0) % 2 ^ 32 < size) := by
            norm_num
            omega
          rw [if_neg this]
        rw [hn]
        simp only [Task4.swap_out_loop, hbw]
    · rfl

/-- C21: in `full_swap_state` every sector of the swap device is in use, so the
bitmap has no free run of 8 sectors; `swap_out` of thread 3 for its installed
page 4096 then calls `block_write` for the sector `BITMAP_ERROR` (`2 ^ 32 - 1`),
which is outside the device, and the kernel panics instead of returning. -/
theorem swap_out_full_device_panics :
    bitmap_scan full_swap_state.swap.bitmap 0 (PGSIZE / 512) false = none ∧
    block_write 512 full_swap_state.swap (2 ^ 32 - 1) full_swap_state.mem 8192 = none ∧
    Task4.swap_out 512 3 4096 full_swap_state = none :=
  ⟨by decide, rfl, rfl⟩

/-! ## C23: what `frame_alloc` of Task4 swaps out -/

/-- C23: in `shared_addr_state` thread 2 calls `frame_alloc` while the pool is
empty.  `select_victim` chooses the frame at 4096, which holds page 4096 of
thread 1, but `swap_out` looks the page up in the page directory and in the
supplemental page table of the calling thread 2: the bytes written to swap are
those of the frame at 8192 (34, not 17), the entry of thread 2 is retagged
SWAPPED although its page stays mapped, and the entry of the owner, thread 1,
stays INSTALLED in the frame that is handed to thread 2. -/
theorem frame_alloc_swaps_wrong_page :
    Task4.select_victim shared_addr_state.all_frames
      = some ({ frame := 4096, page := 4096, pagedir := 1 },
              [{ frame := 8192, page := 4096, pagedir := 2 },
               { frame := 4096, page := 4096, pagedir := 1 }]) ∧
    Task4.frame_alloc 512 2 true 8192 shared_addr_state
      = some (4096, shared_addr_state_after) ∧
    shared_addr_state.mem 4096 = 17 ∧
    shared_addr_state_after.swap.sectors 0 0 = 34 ∧
    shared_addr_state_after.swap.sectors 7 511 = 34 ∧
    shared_addr_state_after.spt 1 = some [installed_entry 4096 4096] ∧
    shared_addr_state_after.spt 2
      = some [{ installed_entry 4096 8192 with
                frame := none, status := Task4.STATUS.SWAPPED, block_idx := 0 }] ∧
    Task4.pagedir_get_page shared_addr_state_after.pagedir 2 4096 = some 8192 ∧
    shared_addr_state_after.all_frames
      = [{ frame := 8192, page := 4096, pagedir := 2 },
         { frame := 4096, page := 8192, pagedir := 2 }] :=
  ⟨rfl, rfl, rfl, rfl, rfl, rfl, rfl, rfl, rfl⟩

/-! ## C27: the buffer cache and the uncached sector store -/

theorem buffer_cache_lookup_loop_some (sector : Nat) :
    ∀ (l : List Filesys.buffer_cache_entry_t) (k i : Nat),
      Filesys.buffer_cache_lookup_loop sector l k = some i →
      ∃ j e, i = k + j ∧ l[j]? = some e ∧ e.occupied = true ∧ e.disk_sector = sector := by
  intro l
  induction l with
  | nil => intro k i h; simp [Filesys.buffer_cache_lookup_loop] at h
  | cons e rest ih =>
    intro k i h
    unfold Filesys.buffer_cache_lookup_loop at h
    by_cases ho : e.occupied = false
    · rw [if_pos ho] at h
      obtain ⟨j, e1, hi, hj, h1, h2⟩ := ih (k + 1) i h
      exact ⟨j + 1, e1, by omega, by simpa using hj, h1, h2⟩
    · rw [if_neg ho] at h
      by_cases hs : e.disk_sector = sector
      · rw [if_pos hs] at h
        cases h
        exact ⟨0, e, rfl, by simp, by simpa using ho, hs⟩
      · rw [if_neg hs] at h
        obtain ⟨j, e1, hi, hj, h1, h2⟩ := ih (k + 1) i h
        exact ⟨j + 1, e1, by omega, by simpa using hj, h1, h2⟩

theorem buffer_cache_lookup_loop_none (sector : Nat) :
    ∀ (l : List Filesys.buffer_cache_entry_t) (k : Nat),
      Filesys.buffer_cache_lookup_loop sector l k = none →
      ∀ (j : Nat) (e : Filesys.buffer_cache_entry_t), l[j]? = some e → e.occupied = true →
        e.disk_sector ≠ sector := by
  intro l
  induction l with
  | nil => intro k _ j e hj; simp at hj
  | cons e0 rest ih =>
    intro k h j e hj ho
    unfold Filesys.buffer_cache_lookup_loop at h
    cases j with
    | zero =>
      simp only [List.getElem?_cons_zero, Option.some.injEq] at hj
      subst hj
      have hno : ¬ e0.occupied = false := by simp [ho]
      rw [if_neg hno] at h
      intro hs
      rw [if_pos hs] at h
      cases h
    | succ j =>
      simp only [List.getElem?_cons_succ] at hj
      by_cases ho0 : e0.occupied = false
      · rw [if_pos ho0] at h
        exact ih (k + 1) h j e hj ho
      · rw [if_neg ho0] at h
        by_cases hs : e0.disk_sector = sector
        · rw [if_pos hs] at h
          cases h
        · rw [if_neg hs] at h
          exact ih (k + 1) h j e hj ho

theorem countP_set_lt {α : Type} (p : α → Bool) :
    ∀ (l : List α) (k : Nat) (e e1 : α), l[k]? = some e → p e = true → p e1 = false →
      (l.set k e1).countP p + 1 = l.countP p := by
  intro l
  induction l with
  | nil => intro k e e1 h; simp at h
  | cons x xs ih =>
    intro k e e1 h hp hp1
    cases k with
    | zero =>
      simp only [List.getElem?_cons_zero, Option.some.injEq] at h
      subst h
      simp [List.countP_cons, hp, hp1]
    | succ k =>
      simp only [List.getElem?_cons_succ] at h
      have := ih k e e1 h hp hp1
      simp only [List.set_cons_succ, List.countP_cons]
      omega

theorem sameEntries_refl (l : List Filesys.buffer_cache_entry_t) : SameEntries l l :=
  ⟨rfl, fun _ e h => ⟨e, h, rfl, rfl, rfl, rfl⟩⟩

theorem sameEntries_trans {l1 l2 l3 : List Filesys.buffer_cache_entry_t}
    (h12 : SameEntries l1 l2) (h23 : SameEntries l2 l3) : SameEntries l1 l3 := by
  refine ⟨h12.1.trans h23.1, ?_⟩
  intro i e1 h1
  obtain ⟨e2, h2, a1, a2, a3, a4⟩ := h12.2 i e1 h1
  obtain ⟨e3, h3, b1, b2, b3, b4⟩ := h23.2 i e2 h2
  exact ⟨e3, h3, a1.trans b1, a2.trans b2, a3.trans b3, a4.trans b4⟩

theorem sameEntries_symm {l1 l2 : List Filesys.buffer_cache_entry_t}
    (h : SameEntries l1 l2) : SameEntries l2 l1 := by
  refine ⟨h.1.symm, ?_⟩
  intro i e2 h2
  have hi : i < l1.length := by
    rw [h.1]
    exact (List.getElem?_eq_some_iff.mp h2).1
  obtain ⟨e3, h3, a1, a2, a3, a4⟩ := h.2 i l1[i] (List.getElem?_eq_getElem hi)
  rw [h2] at h3
  cases h3
  exact ⟨l1[i], List.getElem?_eq_getElem hi, a1.symm, a2.symm, a3.symm, a4.symm⟩

theorem sameEntries_set {l : List Filesys.buffer_cache_entry_t} {k : Nat}
    {e e1 : Filesys.buffer_cache_entry_t} (h : l[k]? = some e) (hs : SameButAccess e1 e) :
    SameEntries (l.set k e1) l := by
  have hk : k < l.length := (List.getElem?_eq_some_iff.mp h).1
  refine ⟨by simp, ?_⟩
  intro i x hx
  by_cases hik : i = k
  · subst hik
    rw [List.getElem?_set_self hk] at hx
    cases hx
    exact ⟨e, h, hs⟩
  · rw [List.getElem?_set_ne (Ne.symm hik)] at hx
    exact ⟨x, hx, rfl, rfl, rfl, rfl⟩

theorem cacheInv_congr {c c1 : Filesys.BufferCache} (hinv : CacheInv c)
    (hclk : c1.clock < Filesys.BUFFER_CACHE_SIZE) (hdev : c1.fs_device = c.fs_device)
    (hsame : SameEntries c1.cache c.cache) : CacheInv c1 := by
  obtain ⟨hlen, _, hin, hdist, hclean⟩ := hinv
  refine ⟨hsame.1.trans hlen, hclk, ?_, ?_, ?_⟩
  · intro i e he ho
    obtain ⟨e2, h2, a1, a2, _, _⟩ := hsame.2 i e he
    rw [hdev, a2]
    exact hin i e2 h2 (a1 ▸ ho)
  · intro i j ei ej hi hj hoi hoj hs
    obtain ⟨e2, h2, a1, a2, _, _⟩ := hsame.2 i ei hi
    obtain ⟨e3, h3, b1, b2, _, _⟩ := hsame.2 j ej hj
    exact hdist i j e2 e3 h2 h3 (a1 ▸ hoi) (b1 ▸ hoj) (by rw [← a2, ← b2]; exact hs)
  · intro i e he ho hd
    obtain ⟨e2, h2, a1, a2, a3, a4⟩ := hsame.2 i e he
    rw [hdev, a2, a3]
    exact hclean i e2 h2 (a1 ▸ ho) (a4 ▸ hd)

theorem refines_congr {c c1 : Filesys.BufferCache} {d : Filesys.Disk} (href : Refines c d)
    (hdev : c1.fs_device = c.fs_device) (hsame : SameEntries c1.cache c.cache) :
    Refines c1 d := by
  obtain ⟨hsz, hall⟩ := href
  refine ⟨by rw [hdev]; exact hsz, ?_⟩
  intro s
  rcases hall s with ⟨i, e, he, ho, hs, hb⟩ | ⟨hno, hd⟩
  · obtain ⟨e1, h1, a1, a2, a3, _⟩ := (sameEntries_symm hsame).2 i e he
    exact Or.inl ⟨i, e1, h1, by rw [← a1]; exact ho, by rw [← a2]; exact hs,
      by rw [← a3]; exact hb⟩
  · refine Or.inr ⟨?_, by rw [hdev]; exact hd⟩
    intro i e he ho
    obtain ⟨e2, h2, a1, a2, _, _⟩ := hsame.2 i e he
    rw [a2]
    exact hno i e2 h2 (a1 ▸ ho)

theorem buffer_cache_evict_loop_spec :
    ∀ (fuel : Nat) (c : Filesys.BufferCache),
      c.cache.length = Filesys.BUFFER_CACHE_SIZE → c.clock < Filesys.BUFFER_CACHE_SIZE →
      c.cache.countP (fun e => e.occupied && e.access) < fuel →
      ∃ b c1, Filesys.buffer_cache_evict_loop fuel c = some (b, c1) ∧
        c1.clock < Filesys.BUFFER_CACHE_SIZE ∧ c1.fs_device = c.fs_device ∧
        SameEntries c1.cache c.cache ∧
        ∃ e, c1.cache[c1.clock]? = some e ∧ (b = true → e.occupied = false) ∧
          (b = false → e.occupied = true) := by
  intro fuel
  induction fuel with
  | zero => intro c _ _ h; omega
  | succ n ih =>
    intro c hlen hclk hcnt
    have hk : c.clock < c.cache.length := by rw [hlen]; exact hclk
    have he : c.cache[c.clock]? = some c.cache[c.clock] := List.getElem?_eq_getElem hk
    unfold Filesys.buffer_cache_evict_loop
    rw [he]
    simp only
    by_cases ho : (c.cache[c.clock]).occupied = false
    · rw [if_pos ho]
      exact ⟨true, c, rfl, hclk, rfl, sameEntries_refl _, c.cache[c.clock], he,
        fun _ => ho, fun h => Bool.noConfusion h⟩
    · rw [if_neg ho]
      have ho1 : (c.cache[c.clock]).occupied = true := by simpa using ho
      by_cases ha : (c.cache[c.clock]).access = true
      · rw [if_pos ha]
        have hset : SameEntries (c.cache.set c.clock { c.cache[c.clock] with access := false })
            c.cache := sameEntries_set he ⟨rfl, rfl, rfl, rfl⟩
        have hcount := countP_set_lt (fun e : Filesys.buffer_cache_entry_t => e.occupied && e.access)
          c.cache c.clock c.cache[c.clock] { c.cache[c.clock] with access := false } he
          (by simp [ho1, ha]) (by simp)
        obtain ⟨b, c1, hr, h1, h2, h3, h4⟩ := ih
          { c with cache := c.cache.set c.clock { c.cache[c.clock] with access := false }
                   clock := (c.clock + 1) % Filesys.BUFFER_CACHE_SIZE }
          (by simp [hlen]) (Nat.mod_lt _ (by decide))
          (by
            have h2 := hcount
            dsimp only at h2 ⊢
            omega)
        exact ⟨b, c1, hr, h1, h2, sameEntries_trans h3 hset, h4⟩
      · rw [if_neg ha]
        exact ⟨false, c, rfl, hclk, rfl, sameEntries_refl _, c.cache[c.clock], he,
          fun h => Bool.noConfusion h, fun _ => ho1⟩

theorem cache_drop_entry {c : Filesys.BufferCache} {d d1 : Filesys.Disk} {k : Nat}
    {slot e0 : Filesys.buffer_cache_entry_t}
    (hinv : CacheInv c) (href : Refines c d)
    (hk : c.cache[k]? = some slot) (ho : slot.occupied = true) (he0 : e0.occupied = false)
    (hsz : d1.size = c.fs_device.size)
    (hdata : d1.data slot.disk_sector = slot.buffer)
    (hother : ∀ s, s ≠ slot.disk_sector → d1.data s = c.fs_device.data s) :
    CacheInv { c with cache := c.cache.set k e0, fs_device := d1 } ∧
    Refines { c with cache := c.cache.set k e0, fs_device := d1 } d ∧
    (∀ (i : Nat) (e : Filesys.buffer_cache_entry_t), (c.cache.set k e0)[i]? = some e →
      e.occupied = true → c.cache[i]? = some e ∧ i ≠ k) := by
  obtain ⟨hlen, hclk, hin, hdist, hclean⟩ := hinv
  obtain ⟨hdsz, hall⟩ := href
  have hkl : k < c.cache.length := (List.getElem?_eq_some_iff.mp hk).1
  have hold : ∀ (i : Nat) (e : Filesys.buffer_cache_entry_t),
      (c.cache.set k e0)[i]? = some e → e.occupied = true → c.cache[i]? = some e ∧ i ≠ k := by
    intro i e he hoe
    by_cases hik : i = k
    · subst hik
      rw [List.getElem?_set_self hkl] at he
      cases he
      rw [he0] at hoe
      cases hoe
    · rw [List.getElem?_set_ne (Ne.symm hik)] at he
      exact ⟨he, hik⟩
  refine ⟨⟨by simpa using hlen, hclk, ?_, ?_, ?_⟩, ⟨by rw [hdsz, hsz], ?_⟩, hold⟩
  · intro i e he hoe
    show e.disk_sector < d1.size
    rw [hsz]
    exact hin i e (hold i e he hoe).1 hoe
  · intro i j ei ej hi hj hoi hoj hs
    exact hdist i j ei ej (hold i ei hi hoi).1 (hold j ej hj hoj).1 hoi hoj hs
  · intro i e he hoe hd
    obtain ⟨hi, hik⟩ := hold i e he hoe
    show e.buffer = d1.data e.disk_sector
    have hne : e.disk_sector ≠ slot.disk_sector := by
      intro heq
      exact hik (hdist i k e slot hi hk hoe ho heq)
    rw [hother _ hne]
    exact hclean i e hi hoe hd
  · intro s
    rcases hall s with ⟨i, e, he, hoe, hs, hb⟩ | ⟨hno, hd⟩
    · by_cases hik : i = k
      · subst hik
        rw [hk] at he
        cases he
        refine Or.inr ⟨?_, ?_⟩
        · intro j x hx hox heq
          obtain ⟨hj, hjk⟩ := hold j x hx hox
          exact hjk (hdist j i x slot hj hk hox ho (heq.trans hs.symm))
        · show d1.data s = d.data s
          rw [← hs, hdata, hb, hs]
      · refine Or.inl ⟨i, e, ?_, hoe, hs, hb⟩
        show (c.cache.set k e0)[i]? = some e
        rw [List.getElem?_set_ne (Ne.symm hik)]
        exact he
    · refine Or.inr ⟨?_, ?_⟩
      · intro j x hx hox
        exact hno j x (hold j x hx hox).1 hox
      · show d1.data s = d.data s
        have hne : s ≠ slot.disk_sector := fun heq => hno k slot hk ho heq.symm
        rw [hother s hne]
        exact hd

theorem cache_fill_entry {c : Filesys.BufferCache} {d : Filesys.Disk} {i s : Nat}
    {e0 e1 : Filesys.buffer_cache_entry_t}
    (hinv : CacheInv c) (href : Refines c d)
    (hi : c.cache[i]? = some e0) (hocc : e0.occupied = false)
    (hno : ∀ (j : Nat) (x : Filesys.buffer_cache_entry_t), c.cache[j]? = some x →
      x.occupied = true → x.disk_sector ≠ s)
    (hs : s < c.fs_device.size)
    (h1s : e1.disk_sector = s) (h1d : e1.dirty = false)
    (h1b : e1.buffer = c.fs_device.data s) (h1o : e1.occupied = true) :
    CacheInv { c with cache := c.cache.set i e1 } ∧
    Refines { c with cache := c.cache.set i e1 } d := by
  obtain ⟨hlen, hclk, hin, hdist, hclean⟩ := hinv
  obtain ⟨hdsz, hall⟩ := href
  have hil : i < c.cache.length := (List.getElem?_eq_some_iff.mp hi).1
  have hnew : ∀ (j : Nat) (x : Filesys.buffer_cache_entry_t),
      (c.cache.set i e1)[j]? = some x → (j = i ∧ x = e1) ∨ (j ≠ i ∧ c.cache[j]? = some x) := by
    intro j x hx
    by_cases hji : j = i
    · subst hji
      rw [List.getElem?_set_self hil] at hx
      cases hx
      exact Or.inl ⟨rfl, rfl⟩
    · rw [List.getElem?_set_ne (Ne.symm hji)] at hx
      exact Or.inr ⟨hji, hx⟩
  refine ⟨⟨by simpa using hlen, hclk, ?_, ?_, ?_⟩, ⟨hdsz, ?_⟩⟩
  · intro j x hx hox
    rcases hnew j x hx with ⟨_, rfl⟩ | ⟨_, hj⟩
    · show x.disk_sector < c.fs_device.size
      rw [h1s]
      exact hs
    · exact hin j x hj hox
  · intro j1 j2 x1 x2 hx1 hx2 ho1 ho2 heq
    rcases hnew j1 x1 hx1 with ⟨ha, rfl⟩ | ⟨ha, hj1⟩
    · rcases hnew j2 x2 hx2 with ⟨hb, rfl⟩ | ⟨hb, hj2⟩
      · rw [ha, hb]
      · exact absurd (heq.symm.trans h1s) (hno j2 x2 hj2 ho2)
    · rcases hnew j2 x2 hx2 with ⟨hb, rfl⟩ | ⟨hb, hj2⟩
      · exact absurd (heq.trans h1s) (hno j1 x1 hj1 ho1)
      · exact hdist j1 j2 x1 x2 hj1 hj2 ho1 ho2 heq
  · intro j x hx hox hd
    rcases hnew j x hx with ⟨_, rfl⟩ | ⟨_, hj⟩
    · show x.buffer = c.fs_device.data x.disk_sector
      rw [h1b, h1s]
    · exact hclean j x hj hox hd
  · intro s1
    rcases hall s1 with ⟨j, x, hx, hox, hxs, hxb⟩ | ⟨hno1, hd⟩
    · have hji : j ≠ i := by
        intro heq
        subst heq
        rw [hi] at hx
        cases hx
        rw [hocc] at hox
        cases hox
      refine Or.inl ⟨j, x, ?_, hox, hxs, hxb⟩
      show (c.cache.set i e1)[j]? = some x
      rw [List.getElem?_set_ne (Ne.symm hji)]
      exact hx
    · by_cases hss : s1 = s
      · subst hss
        refine Or.inl ⟨i, e1, ?_, h1o, h1s, ?_⟩
        · show (c.cache.set i e1)[i]? = some e1
          exact List.getElem?_set_self hil
        · rw [h1b]
          exact hd
      · refine Or.inr ⟨?_, hd⟩
        intro j x hx hox
        rcases hnew j x hx with ⟨_, rfl⟩ | ⟨_, hj⟩
        · rw [h1s]
          exact fun h => hss h.symm
        · exact hno1 j x hj hox

theorem cache_write_entry {c : Filesys.BufferCache} {d : Filesys.Disk} {i : Nat}
    {slot e1 : Filesys.buffer_cache_entry_t}
    (hinv : CacheInv c) (href : Refines c d)
    (hi : c.cache[i]? = some slot) (ho : slot.occupied = true)
    (h1o : e1.occupied = true) (h1s : e1.disk_sector = slot.disk_sector)
    (h1d : e1.dirty = true) :
    CacheInv { c with cache := c.cache.set i e1 } ∧
    Refines { c with cache := c.cache.set i e1 }
      { d with data := fun x => if x = slot.disk_sector then e1.buffer else d.data x } := by
  obtain ⟨hlen, hclk, hin, hdist, hclean⟩ := hinv
  obtain ⟨hdsz, hall⟩ := href
  have hil : i < c.cache.length := (List.getElem?_eq_some_iff.mp hi).1
  have hnew : ∀ (j : Nat) (x : Filesys.buffer_cache_entry_t),
      (c.cache.set i e1)[j]? = some x → (j = i ∧ x = e1) ∨ (j ≠ i ∧ c.cache[j]? = some x) := by
    intro j x hx
    by_cases hji : j = i
    · subst hji
      rw [List.getElem?_set_self hil] at hx
      cases hx
      exact Or.inl ⟨rfl, rfl⟩
    · rw [List.getElem?_set_ne (Ne.symm hji)] at hx
      exact Or.inr ⟨hji, hx⟩
  have hsame : ∀ (j : Nat) (x : Filesys.buffer_cache_entry_t),
      (c.cache.set i e1)[j]? = some x → x.occupied = true →
      ∃ y, c.cache[j]? = some y ∧ y.occupied = true ∧ y.disk_sector = x.disk_sector := by
    intro j x hx hox
    rcases hnew j x hx with ⟨ha, rfl⟩ | ⟨_, hj⟩
    · exact ⟨slot, by rw [ha]; exact hi, ho, h1s.symm⟩
    · exact ⟨x, hj, hox, rfl⟩
  refine ⟨⟨by simpa using hlen, hclk, ?_, ?_, ?_⟩, ⟨hdsz, ?_⟩⟩
  · intro j x hx hox
    obtain ⟨y, hy, hoy, hys⟩ := hsame j x hx hox
    rw [← hys]
    exact hin j y hy hoy
  · intro j1 j2 x1 x2 hx1 hx2 ho1 ho2 heq
    obtain ⟨y1, hy1, hoy1, hys1⟩ := hsame j1 x1 hx1 ho1
    obtain ⟨y2, hy2, hoy2, hys2⟩ := hsame j2 x2 hx2 ho2
    exact hdist j1 j2 y1 y2 hy1 hy2 hoy1 hoy2 (by rw [hys1, hys2]; exact heq)
  · intro j x hx hox hd
    rcases hnew j x hx with ⟨_, rfl⟩ | ⟨_, hj⟩
    · rw [h1d] at hd
      cases hd
    · exact hclean j x hj hox hd
  · intro s1
    by_cases hss : s1 = slot.disk_sector
    · subst hss
      refine Or.inl ⟨i, e1, ?_, h1o, h1s, ?_⟩
      · show (c.cache.set i e1)[i]? = some e1
        exact List.getElem?_set_self hil
      · simp
    · rcases hall s1 with ⟨j, x, hx, hox, hxs, hxb⟩ | ⟨hno1, hd⟩
      · have hji : j ≠ i := by
          intro heq
          subst heq
          rw [hi] at hx
          cases hx
          exact hss hxs.symm
        refine Or.inl ⟨j, x, ?_, hox, hxs, ?_⟩
        · show (c.cache.set i e1)[j]? = some x
          rw [List.getElem?_set_ne (Ne.symm hji)]
          exact hx
        · simp only [if_neg hss]
          exact hxb
      · refine Or.inr ⟨?_, ?_⟩
        · intro j x hx hox
          obtain ⟨y, hy, hoy, hys⟩ := hsame j x hx hox
          rw [← hys]
          exact hno1 j y hy hoy
        · simp only [if_neg hss]
          exact hd

theorem buffer_cache_evict_spec {c : Filesys.BufferCache} {d : Filesys.Disk}
    (hinv : CacheInv c) (href : Refines c d) :
    ∃ i c1 e, Filesys.buffer_cache_evict c = some (i, c1) ∧ CacheInv c1 ∧ Refines c1 d ∧
      c1.cache[i]? = some e ∧ e.occupied = false ∧
      c1.fs_device.size = c.fs_device.size ∧
      (∀ s, (∀ (j : Nat) (x : Filesys.buffer_cache_entry_t), c.cache[j]? = some x →
          x.occupied = true → x.disk_sector ≠ s) →
        ∀ (j : Nat) (x : Filesys.buffer_cache_entry_t), c1.cache[j]? = some x →
          x.occupied = true → x.disk_sector ≠ s) := by
  have hcnt : c.cache.countP (fun e => e.occupied && e.access) < Filesys.BUFFER_CACHE_SIZE + 1 := by
    have := List.countP_le_length (fun e : Filesys.buffer_cache_entry_t => e.occupied && e.access)
      (l := c.cache)
    rw [hinv.1] at this
    omega
  obtain ⟨b, c1, hloop, hclk1, hdev1, hsame, e, he, hbt, hbf⟩ :=
    buffer_cache_evict_loop_spec _ c hinv.1 hinv.2.1 hcnt
  have hinv1 : CacheInv c1 := cacheInv_congr hinv hclk1 hdev1 hsame
  have href1 : Refines c1 d := refines_congr href hdev1 hsame
  have hkeep : ∀ s, (∀ (j : Nat) (x : Filesys.buffer_cache_entry_t), c.cache[j]? = some x →
        x.occupied = true → x.disk_sector ≠ s) →
      ∀ (j : Nat) (x : Filesys.buffer_cache_entry_t), c1.cache[j]? = some x →
        x.occupied = true → x.disk_sector ≠ s := by
    intro s hno j x hx hox
    obtain ⟨y, hy, a1, a2, _, _⟩ := hsame.2 j x hx
    rw [a2]
    exact hno j y hy (a1 ▸ hox)
  cases b with
  | true =>
    refine ⟨c1.clock, c1, e, ?_, hinv1, href1, he, hbt rfl, by rw [hdev1], hkeep⟩
    simp only [Filesys.buffer_cache_evict, hloop]
  | false =>
    have hoe : e.occupied = true := hbf rfl
    have hk : c1.clock < c1.cache.length := (List.getElem?_eq_some_iff.mp he).1
    cases hd : e.dirty with
    | false =>
      obtain ⟨hi2, hr2, hold⟩ := @cache_drop_entry c1 d c1.fs_device c1.clock e
        { e with occupied := false } hinv1 href1 he hoe rfl rfl
        ((hinv1.2.2.2.2 c1.clock e he hoe hd).symm) (fun _ _ => rfl)
      refine ⟨c1.clock, _, { e with occupied := false }, ?_, hi2, hr2, ?_, rfl,
        by show c1.fs_device.size = c.fs_device.size; rw [hdev1], ?_⟩
      · simp only [Filesys.buffer_cache_evict, hloop, he, hd, Bool.false_eq_true, if_false]
      · show (c1.cache.set c1.clock { e with occupied := false })[c1.clock]? = _
        exact List.getElem?_set_self hk
      · intro s hno j x hx hox
        exact hkeep s hno j x (hold j x hx hox).1 hox
    | true =>
      have hsec : e.disk_sector < c1.fs_device.size := hinv1.2.2.1 c1.clock e he hoe
      obtain ⟨hi2, hr2, hold⟩ := @cache_drop_entry c1 d
        { c1.fs_device with
          data := fun s => if s = e.disk_sector then e.buffer else c1.fs_device.data s }
        c1.clock e { e with dirty := false, occupied := false } hinv1 href1 he hoe rfl rfl
        (by simp) (fun s hs => by simp [hs])
      refine ⟨c1.clock, _, { e with dirty := false, occupied := false }, ?_, hi2, hr2, ?_, rfl,
        by show c1.fs_device.size = c.fs_device.size; rw [hdev1], ?_⟩
      · simp only [Filesys.buffer_cache_evict, hloop, he, hd, if_true,
          Filesys.buffer_cache_flush, hoe, Filesys.block_write, hsec,
          List.getElem?_set_self hk, List.set_set]
      · show (c1.cache.set c1.clock { e with dirty := false, occupied := false })[c1.clock]? = _
        exact List.getElem?_set_self hk
      · intro s hno j x hx hox
        exact hkeep s hno j x (hold j x hx hox).1 hox

theorem buffer_cache_slot_spec {c : Filesys.BufferCache} {d : Filesys.Disk} (s : Nat)
    (hinv : CacheInv c) (href : Refines c d) :
    (s < d.size → ∃ i c1 e, Filesys.buffer_cache_slot c s = some (i, c1) ∧ CacheInv c1 ∧
      Refines c1 d ∧ c1.cache[i]? = some e ∧ e.occupied = true ∧ e.disk_sector = s) ∧
    (¬ s < d.size → Filesys.buffer_cache_slot c s = none) := by
  cases hl : Filesys.buffer_cache_lookup c s with
  | some i =>
    obtain ⟨j, e, hij, hj, hoe, hes⟩ := buffer_cache_lookup_loop_some s c.cache 0 i hl
    have hi : i = j := by omega
    subst hi
    refine ⟨fun _ => ⟨i, c, e, ?_, hinv, href, hj, hoe, hes⟩, ?_⟩
    · simp only [Filesys.buffer_cache_slot, hl]
    · intro hns
      have := hinv.2.2.1 i e hj hoe
      rw [hes, ← href.1] at this
      exact absurd this hns
  | none =>
    have hno := buffer_cache_lookup_loop_none s c.cache 0 hl
    obtain ⟨i, c1, e0, hev, hinv1, href1, hi, hocc, hsz, hkeep⟩ :=
      buffer_cache_evict_spec hinv href
    have hil : i < c1.cache.length := (List.getElem?_eq_some_iff.mp hi).1
    refine ⟨?_, ?_⟩
    · intro hs
      have hs1 : s < c1.fs_device.size := by rw [← href1.1]; exact hs
      obtain ⟨hi2, hr2⟩ := @cache_fill_entry c1 d i s e0
        { e0 with occupied := true, disk_sector := s, dirty := false,
                  buffer := c1.fs_device.data s }
        hinv1 href1 hi hocc (hkeep s hno) hs1 rfl rfl rfl rfl
      refine ⟨i, { c1 with cache := (c1.cache.set i
          { e0 with occupied := true, disk_sector := s, dirty := false,
                    buffer := c1.fs_device.data s }) },
        { e0 with occupied := true, disk_sector := s, dirty := false,
                  buffer := c1.fs_device.data s }, ?_, hi2, hr2, ?_, rfl, rfl⟩
      · simp only [Filesys.buffer_cache_slot, hl, hev, hi, hocc, if_true, Filesys.block_read, hs1]
      · show (c1.cache.set i _)[i]? = _
        exact List.getElem?_set_self hil
    · intro hns
      have hs1 : ¬ s < c1.fs_device.size := by rw [← href1.1]; exact hns
      simp only [Filesys.buffer_cache_slot, hl, hev, hi, hocc, if_true, Filesys.block_read, hs1,
        if_false]

theorem buffer_cache_read_spec {c : Filesys.BufferCache} {d : Filesys.Disk} (s : Nat)
    (hinv : CacheInv c) (href : Refines c d) :
    (s < d.size → ∃ c1, Filesys.buffer_cache_read c s = some (d.data s, c1) ∧ CacheInv c1 ∧
      Refines c1 d) ∧
    (¬ s < d.size → Filesys.buffer_cache_read c s = none) := by
  obtain ⟨hsome, hnone⟩ := buffer_cache_slot_spec s hinv href
  refine ⟨?_, ?_⟩
  · intro hs
    obtain ⟨i, c1, e, hslot, hinv1, href1, hi, hoe, hes⟩ := hsome hs
    have hbuf : e.buffer = d.data s := by
      rcases href1.2 s with ⟨j, x, hx, hox, hxs, hxb⟩ | ⟨hno, _⟩
      · have hji := hinv1.2.2.2.1 j i x e hx hi hox hoe (hxs.trans hes.symm)
        subst hji
        rw [hi] at hx
        cases hx
        exact hxb
      · exact absurd hes (hno i e hi hoe)
    have hsame : SameEntries (c1.cache.set i { e with access := true }) c1.cache :=
      sameEntries_set hi ⟨rfl, rfl, rfl, rfl⟩
    refine ⟨{ c1 with cache := c1.cache.set i { e with access := true } }, ?_,
      cacheInv_congr hinv1 hinv1.2.1 rfl hsame, refines_congr href1 rfl hsame⟩
    simp only [Filesys.buffer_cache_read, hslot, hi, hbuf]
  · intro hns
    simp only [Filesys.buffer_cache_read, hnone hns]

theorem buffer_cache_write_spec {c : Filesys.BufferCache} {d : Filesys.Disk} (s : Nat)
    (source : List Nat) (hinv : CacheInv c) (href : Refines c d) :
    (s < d.size → ∃ c1 d1, Filesys.buffer_cache_write c s source = some c1 ∧
      Filesys.block_write d s source = some d1 ∧ CacheInv c1 ∧ Refines c1 d1) ∧
    (¬ s < d.size → Filesys.buffer_cache_write c s source = none ∧
      Filesys.block_write d s source = none) := by
  obtain ⟨hsome, hnone⟩ := buffer_cache_slot_spec s hinv href
  refine ⟨?_, ?_⟩
  · intro hs
    obtain ⟨i, c1, e, hslot, hinv1, href1, hi, hoe, hes⟩ := hsome hs
    obtain ⟨hi2, hr2⟩ := @cache_write_entry c1 d i e
      { e with access := true, dirty := true, buffer := source } hinv1 href1 hi hoe hoe rfl rfl
    refine ⟨{ c1 with cache := (c1.cache.set i
        { e with access := true, dirty := true, buffer := source }) },
      { d with data := fun x => if x = s then source else d.data x }, ?_, ?_, hi2, ?_⟩
    · simp only [Filesys.buffer_cache_write, hslot, hi]
    · simp only [Filesys.block_write, hs, if_true]
    · rw [← hes]
      exact hr2
  · intro hns
    refine ⟨?_, ?_⟩
    · simp only [Filesys.buffer_cache_write, hnone hns]
    · simp only [Filesys.block_write, hns, if_false]

theorem buffer_cache_init_spec (c0 : Filesys.BufferCache)
    (hlen : c0.cache.length = Filesys.BUFFER_CACHE_SIZE)
    (hclk : c0.clock < Filesys.BUFFER_CACHE_SIZE) :
    CacheInv (Filesys.buffer_cache_init c0) ∧
    Refines (Filesys.buffer_cache_init c0) c0.fs_device := by
  have hfree : ∀ (i : Nat) (e : Filesys.buffer_cache_entry_t),
      (Filesys.buffer_cache_init c0).cache[i]? = some e → e.occupied = true → False := by
    intro i e he ho
    simp only [Filesys.buffer_cache_init, List.getElem?_map, Option.map_eq_some'] at he
    obtain ⟨x, _, hx⟩ := he
    rw [← hx] at ho
    cases ho
  refine ⟨⟨by simpa [Filesys.buffer_cache_init] using hlen, hclk, ?_, ?_, ?_⟩, rfl, ?_⟩
  · intro i e he ho
    exact absurd ho (fun h => hfree i e he h)
  · intro i j ei ej hi _ hoi _ _
    exact absurd hoi (fun h => hfree i ei hi h)
  · intro i e he ho
    exact absurd ho (fun h => hfree i e he h)
  · intro s
    exact Or.inr ⟨fun i e he ho => absurd ho (fun h => hfree i e he h), rfl⟩

theorem cache_run_refines :
    ∀ (calls : List Filesys.CacheCall) (c : Filesys.BufferCache) (d : Filesys.Disk),
      CacheInv c → Refines c d →
      (Filesys.cache_run calls c).map Prod.snd = (Filesys.store_run calls d).map Prod.snd ∧
      ∀ c1 out, Filesys.cache_run calls c = some (c1, out) → CacheInv c1 := by
  intro calls
  induction calls with
  | nil =>
    intro c d hinv _
    refine ⟨rfl, ?_⟩
    intro c1 out h
    simp only [Filesys.cache_run, Option.some.injEq, Prod.mk.injEq] at h
    rw [← h.1]
    exact hinv
  | cons call calls ih =>
    intro c d hinv href
    cases call with
    | read s =>
      obtain ⟨hsome, hnone⟩ := buffer_cache_read_spec s hinv href
      by_cases hs : s < d.size
      · obtain ⟨c1, hr, hinv1, href1⟩ := hsome hs
        obtain ⟨heq, hfin⟩ := ih c1 d hinv1 href1
        simp only [Filesys.cache_run, Filesys.store_run, hr, Filesys.block_read, hs, if_true]
        refine ⟨?_, ?_⟩
        · cases h1 : Filesys.cache_run calls c1 with
          | none =>
            rw [h1] at heq
            cases h2 : Filesys.store_run calls d with
            | none => rfl
            | some y => rw [h2] at heq; cases heq
          | some x =>
            rw [h1] at heq
            cases h2 : Filesys.store_run calls d with
            | none => rw [h2] at heq; cases heq
            | some y =>
              rw [h2] at heq
              simp only [Option.map_some', Option.some.injEq] at heq ⊢
              rw [heq]
        · intro c2 out h
          cases h1 : Filesys.cache_run calls c1 with
          | none => rw [h1] at h; cases h
          | some x =>
            rw [h1] at h
            simp only [Option.some.injEq, Prod.mk.injEq] at h
            rw [← h.1]
            exact hfin x.1 x.2 h1
      · simp only [Filesys.cache_run, Filesys.store_run, hnone hs, Filesys.block_read, hs,
          if_false]
        exact ⟨rfl, fun _ _ h => by cases h⟩
    | write s source =>
      obtain ⟨hsome, hnone⟩ := buffer_cache_write_spec s source hinv href
      by_cases hs : s < d.size
      · obtain ⟨c1, d1, hw, hbw, hinv1, href1⟩ := hsome hs
        simp only [Filesys.cache_run, Filesys.store_run, hw, hbw]
        exact ih c1 d1 hinv1 href1
      · obtain ⟨hw, hbw⟩ := hnone hs
        simp only [Filesys.cache_run, Filesys.store_run, hw, hbw]
        exact ⟨rfl, fun _ _ h => by cases h⟩

/-- C27: let the cache be initialised by `buffer_cache_init` (its array has
`BUFFER_CACHE_SIZE` entries and the clock is an index of it).  For every
sequence of calls of `buffer_cache_read` and `buffer_cache_write`, the reads
deliver what they deliver on a sector store without a cache, where a read
yields the data of the most recent write to the sector or, when there was none,
the content of the device; a call fails on the cache exactly when it fails on
the store (a sector outside the device), so the eviction loop always ends; and
after the calls no two occupied entries hold the same sector. -/
theorem buffer_cache_refines_sector_store (c0 : Filesys.BufferCache)
    (hlen : c0.cache.length = Filesys.BUFFER_CACHE_SIZE)
    (hclk : c0.clock < Filesys.BUFFER_CACHE_SIZE) (calls : List Filesys.CacheCall) :
    (Filesys.cache_run calls (Filesys.buffer_cache_init c0)).map Prod.snd
      = (Filesys.store_run calls c0.fs_device).map Prod.snd ∧
    ∀ c1 out, Filesys.cache_run calls (Filesys.buffer_cache_init c0) = some (c1, out) →
      DistinctSectors c1 ∧ c1.cache.length = Filesys.BUFFER_CACHE_SIZE := by
  obtain ⟨hinv, href⟩ := buffer_cache_init_spec c0 hlen hclk
  obtain ⟨heq, hfin⟩ := cache_run_refines calls _ _ hinv href
  refine ⟨heq, ?_⟩
  intro c1 out h
  have := hfin c1 out h
  exact ⟨this.2.2.2.1, this.1⟩

theorem buffer_cache_refines_sector_store_witness :
    (Filesys.cache_run
        [Filesys.CacheCall.read 3, Filesys.CacheCall.write 3 [7, 7], Filesys.CacheCall.read 3]
        (Filesys.buffer_cache_init boot_cache)).map Prod.snd = some [[3, 4], [7, 7]] ∧
    (Filesys.cache_run
        [Filesys.CacheCall.read 3, Filesys.CacheCall.write 3 [7, 7], Filesys.CacheCall.read 3]
        (Filesys.buffer_cache_init boot_cache)).map Prod.snd
      = (Filesys.store_run
          [Filesys.CacheCall.read 3, Filesys.CacheCall.write 3 [7, 7], Filesys.CacheCall.read 3]
          boot_cache.fs_device).map Prod.snd :=
  ⟨rfl, (buffer_cache_refines_sector_store boot_cache rfl (by decide)
    [Filesys.CacheCall.read 3, Filesys.CacheCall.write 3 [7, 7], Filesys.CacheCall.read 3]).1⟩

/-! ## C29: the index blocks of `inode_extend` -/

theorem words_of_sector_length (d : List Nat) : (Filesys.words_of_sector d).length = 128 := by
  simp [Filesys.words_of_sector]

theorem allocate_entries_length :
    ∀ (n i : Nat) (a a1 : List Nat) (fs fs1 : Filesys.FS),
      Filesys.allocate_entries n i a fs = some (a1, fs1) → a1.length = a.length := by
  intro n
  induction n with
  | zero =>
    intro i a a1 fs fs1 h
    simp only [Filesys.allocate_entries, Option.some.injEq, Prod.mk.injEq] at h
    rw [← h.1]
  | succ n ih =>
    intro i a a1 fs fs1 h
    unfold Filesys.allocate_entries at h
    cases ha : a[i]? with
    | none => rw [ha] at h; cases h
    | some x =>
      rw [ha] at h
      simp only at h
      cases hs : Filesys.allocate_sector x fs with
      | none => rw [hs] at h; cases h
      | some r =>
        obtain ⟨x1, fs2⟩ := r
        rw [hs] at h
        simp only at h
        have := ih (i + 1) (a.set i x1) a1 fs2 fs1 h
        simpa using this

theorem inode_extend_doubly_loop_out_of_bounds (num : Nat) :
    ∀ (n i : Nat) (dbl : List Nat) (fs : Filesys.FS),
      i ≤ dbl.length → dbl.length < i + n →
      Filesys.inode_extend_doubly_loop num n i dbl fs = none := by
  intro n
  induction n with
  | zero => intro i dbl fs h1 h2; omega
  | succ n ih =>
    intro i dbl fs h1 h2
    unfold Filesys.inode_extend_doubly_loop
    cases hd : dbl[i]? with
    | none => rfl
    | some x =>
      have hi : i < dbl.length := (List.getElem?_eq_some_iff.mp hd).1
      simp only
      cases Filesys.allocate_sector x fs with
      | none => rfl
      | some r =>
        obtain ⟨x1, fs1⟩ := r
        simp only
        cases Filesys.buffer_cache_read fs1.bc x1 with
        | none => rfl
        | some r2 =>
          obtain ⟨data, bc2⟩ := r2
          simp only
          cases Filesys.allocate_entries
              (if i = num / Filesys.INDIRECT_SIZE then num % Filesys.INDIRECT_SIZE
               else Filesys.INDIRECT_SIZE) 0 (Filesys.words_of_sector data)
              { fs1 with bc := bc2 } with
          | none => rfl
          | some r3 =>
            obtain ⟨blk, fs3⟩ := r3
            simp only
            cases Filesys.buffer_cache_write fs3.bc x1 (Filesys.sector_of_words blk) with
            | none => rfl
            | some bc4 =>
              simp only
              exact ih (i + 1) (dbl.set i x1) _ (by simp; omega) (by simp; omega)

theorem inode_extend_doubly_none (d : Filesys.inode_disk) (sectors : Nat) (fs : Filesys.FS)
    (h : Filesys.DOUBLY_INDIRECT_SIZE ≤ sectors) :
    Filesys.inode_extend_doubly d sectors fs = none := by
  unfold Filesys.inode_extend_doubly
  have hnum : (if sectors < Filesys.DOUBLY_INDIRECT_SIZE then sectors
      else Filesys.DOUBLY_INDIRECT_SIZE) = Filesys.DOUBLY_INDIRECT_SIZE :=
    if_neg (Nat.not_lt.mpr h)
  simp only [hnum]
  cases Filesys.allocate_sector d.doubly_indirect fs with
  | none => rfl
  | some r =>
    obtain ⟨x1, fs1⟩ := r
    simp only
    cases Filesys.buffer_cache_read fs1.bc x1 with
    | none => rfl
    | some r2 =>
      obtain ⟨data, bc2⟩ := r2
      simp only
      rw [inode_extend_doubly_loop_out_of_bounds Filesys.DOUBLY_INDIRECT_SIZE
        (Filesys.DOUBLY_INDIRECT_SIZE / Filesys.INDIRECT_SIZE + 1) 0
        (Filesys.words_of_sector data) _ (Nat.zero_le _)
        (by rw [words_of_sector_length]; decide)]

theorem inode_extend_indirect_none (d : Filesys.inode_disk) (sectors : Nat) (fs : Filesys.FS)
    (h : Filesys.INDIRECT_SIZE + Filesys.DOUBLY_INDIRECT_SIZE ≤ sectors) :
    Filesys.inode_extend_indirect d sectors fs = none := by
  unfold Filesys.inode_extend_indirect
  have h128 : Filesys.INDIRECT_SIZE = 128 := rfl
  have h16 : Filesys.DOUBLY_INDIRECT_SIZE = 16384 := rfl
  have hnum : (if sectors < Filesys.INDIRECT_SIZE then sectors else Filesys.INDIRECT_SIZE)
      = Filesys.INDIRECT_SIZE := if_neg (by omega)
  simp only [hnum]
  cases Filesys.allocate_sector d.indirect fs with
  | none => rfl
  | some r =>
    obtain ⟨x1, fs1⟩ := r
    simp only
    cases Filesys.buffer_cache_read fs1.bc x1 with
    | none => rfl
    | some r2 =>
      obtain ⟨data, bc2⟩ := r2
      simp only
      cases Filesys.allocate_entries Filesys.INDIRECT_SIZE 0 (Filesys.words_of_sector data)
          { fs1 with bc := bc2 } with
      | none => rfl
      | some r3 =>
        obtain ⟨blk, fs3⟩ := r3
        simp only
        cases Filesys.buffer_cache_write fs3.bc x1 (Filesys.sector_of_words blk) with
        | none => rfl
        | some bc4 =>
          simp only
          have hne : ¬ (sectors - Filesys.INDIRECT_SIZE = 0) := by omega
          rw [if_neg hne]
          exact inode_extend_doubly_none _ _ _ (by omega)

theorem inode_extend_none (d : Filesys.inode_disk) (sectors : Nat) (fs : Filesys.FS)
    (h : Filesys.DIRECT_BLOCKS + Filesys.INDIRECT_SIZE + Filesys.DOUBLY_INDIRECT_SIZE ≤ sectors) :
    Filesys.inode_extend d sectors fs = none := by
  unfold Filesys.inode_extend
  have h12 : Filesys.DIRECT_BLOCKS = 12 := rfl
  have h128 : Filesys.INDIRECT_SIZE = 128 := rfl
  have h16 : Filesys.DOUBLY_INDIRECT_SIZE = 16384 := rfl
  have hnum : (if sectors < Filesys.DIRECT_BLOCKS then sectors else Filesys.DIRECT_BLOCKS)
      = Filesys.DIRECT_BLOCKS := if_neg (by omega)
  simp only [hnum]
  cases Filesys.allocate_entries Filesys.DIRECT_BLOCKS 0 d.direct fs with
  | none => rfl
  | some r =>
    obtain ⟨direct1, fs1⟩ := r
    simp only
    have hne : ¬ (sectors - Filesys.DIRECT_BLOCKS = 0) := by omega
    rw [if_neg hne]
    exact inode_extend_indirect_none _ _ _ (by omega)

/-- C29: for every count of at least `12 + 128 + 16384` sectors (the capacity
and every larger count) `inode_extend` does not return: with
`num_sectors = 16384` its loop over `doubly_indirect_block` runs for
`i < 16384 / 128 + 1 = 129` and in its last iteration reads the entry with
index 128, which the array of 128 entries does not have. -/
theorem inode_extend_indexes_out_of_bounds (d : Filesys.inode_disk) (sectors : Nat)
    (fs : Filesys.FS)
    (h : Filesys.DIRECT_BLOCKS + Filesys.INDIRECT_SIZE + Filesys.DOUBLY_INDIRECT_SIZE ≤ sectors) :
    Filesys.inode_extend d sectors fs = none ∧
    Filesys.DOUBLY_INDIRECT_SIZE / Filesys.INDIRECT_SIZE + 1 = 129 ∧
    ∀ data : List Nat,
      (Filesys.words_of_sector data)[Filesys.DOUBLY_INDIRECT_SIZE / Filesys.INDIRECT_SIZE]?
        = none := by
  refine ⟨inode_extend_none d sectors fs h, by decide, ?_⟩
  intro data
  apply List.getElem?_eq_none
  rw [words_of_sector_length]
  decide

theorem inode_extend_indexes_out_of_bounds_witness :
    Filesys.inode_extend empty_inode.data 16524 full_disk_fs = none ∧
    Filesys.DOUBLY_INDIRECT_SIZE / Filesys.INDIRECT_SIZE + 1 = 129 ∧
    ∀ data : List Nat,
      (Filesys.words_of_sector data)[Filesys.DOUBLY_INDIRECT_SIZE / Filesys.INDIRECT_SIZE]?
        = none :=
  inode_extend_indexes_out_of_bounds empty_inode.data 16524 full_disk_fs (by decide)

/-! ## C28: `inode_write_at` at the end of the capacity -/

/-- C28: let writes be allowed on the inode and let the write end past the end
of the file and in the last sector of the capacity of `12 + 128 + 16384`
sectors (or beyond).  Then `inode_write_at` does not return `size`: it calls
`inode_extend` for at least `12 + 128 + 16384` sectors, which reads the entry
with index 128 of `doubly_indirect_block`. -/
theorem inode_write_at_last_sector (m : Bool) (ino : Filesys.inode) (buffer : List Nat)
    (size offset : Int) (fs : Filesys.FS)
    (hdeny : ino.deny_write_cnt = 0) (hlen : ino.data.length < offset + size)
    (hcap : 16523 * 512 < offset + size) (hmax : offset + size < 2 ^ 31) :
    Filesys.inode_write_at m ino buffer size offset fs = none := by
  unfold Filesys.inode_write_at
  have hd : ¬ (ino.deny_write_cnt ≠ 0) := by simp [hdeny]
  rw [if_neg hd]
  have hpos : ¬ (offset + size - 1 < ino.data.length) := by omega
  simp only [Filesys.byte_to_sector, if_neg hpos, if_true]
  have hsec : 16524 ≤ Filesys.bytes_to_sectors (offset + size) := by
    unfold Filesys.bytes_to_sectors
    have h512 : ((Filesys.BLOCK_SECTOR_SIZE : Nat) : Int) = 512 := rfl
    rw [h512]
    have h1 : Int.tdiv (offset + size + 512 - 1) 512 = (offset + size + 512 - 1) / 512 :=
      Int.tdiv_eq_ediv (by omega) (by decide)
    rw [h1]
    omega
  rw [inode_extend_none _ _ _ (by
    show 12 + 128 + 16384 ≤ _
    exact hsec)]

theorem inode_write_at_last_sector_witness :
    Filesys.inode_write_at true empty_inode [65] 1 8460287 full_disk_fs = none :=
  inode_write_at_last_sector true empty_inode [65] 1 8460287 full_disk_fs rfl
    (by decide) (by decide) (by decide)

/-! ## C22: `inode_create` when the free map is full -/

set_option maxRecDepth 100000

/-- For a length of at most 12 sectors `inode_extend` never reports failure,
whatever `free_map_allocate` returns. -/
theorem inode_extend_direct_true (d d1 : Filesys.inode_disk) (sectors : Nat)
    (fs fs1 : Filesys.FS) (b : Bool) (hs : sectors ≤ Filesys.DIRECT_BLOCKS)
    (h : Filesys.inode_extend d sectors fs = some (b, d1, fs1)) : b = true := by
  unfold Filesys.inode_extend at h
  dsimp only at h
  have h12 : Filesys.DIRECT_BLOCKS = 12 := rfl
  cases ha : Filesys.allocate_entries
      (if sectors < Filesys.DIRECT_BLOCKS then sectors else Filesys.DIRECT_BLOCKS) 0 d.direct fs with
  | none => rw [ha] at h; cases h
  | some r =>
    obtain ⟨direct1, fs2⟩ := r
    rw [ha] at h
    simp only at h
    have hz : sectors - (if sectors < Filesys.DIRECT_BLOCKS then sectors
        else Filesys.DIRECT_BLOCKS) = 0 := by
      split <;> omega
    rw [if_pos hz] at h
    simp only [Option.some.injEq, Prod.mk.injEq] at h
    exact h.1.symm

/-- C22: in `full_disk_fs` every call of `free_map_allocate` fails.
`inode_create (5, 1, false)` nevertheless returns true: `inode_extend` ignores
the result of `free_map_allocate`, leaves `direct[0]` at 0 and zero-fills
sector 0, which held the byte 7 and was not allocated; the inode, with
`direct[0] = 0`, is written to sector 5. -/
theorem inode_create_ignores_allocation_failure :
    (Filesys.free_map_allocate full_disk_fs 0).1 = false ∧
    Filesys.inode_create true 5 1 false full_disk_fs = some (true, full_disk_fs_after) ∧
    full_disk_fs.bc.fs_device.data 0 = List.replicate 512 7 ∧
    (Filesys.buffer_cache_read full_disk_fs_after.bc 0).map Prod.fst = some Filesys.zeros ∧
    ((Filesys.buffer_cache_read full_disk_fs_after.bc 5).map Prod.fst).map
        (fun data => (Filesys.words_of_sector data).take 17)
      = some [1, 0, 0, 0, 0, 0, 0, 0, 0, 0, 0, 0, 0, 0, 0, 0, Filesys.INODE_MAGIC] :=
  ⟨rfl, rfl, rfl, rfl, rfl⟩

/-! ## C25: the slots of the swap stores -/

end PintOS
